import Mathlib

/-!
# Minesweeper rules engine (`src/src/minesweeper/game.cpp`)

A shallow embedding of `minesweeper::Game`.

* C++ `int` is embedded as `Int`.  Signed overflow is undefined behaviour in
  C++.  The products and differences of the validation functions
  (`Game::maxNumOfMines`, `Game::verifyNumOfWronglyMarkedCells`,
  `Game::verifyNumOfVisibleCells`), which run on arguments of any size, are
  taken as a 32-bit `int` computes them (`wrapInt`); a valid construction
  (`ValidArgs`) has a product `gridHeight * gridWidth` that fits `int`, and
  on such games no `int` operation of the play-time functions overflows.
* `std::vector<std::vector<std::unique_ptr<Cell>>> cells` is a `List (List Cell)`;
  `cells[Y][X]` is `getCell cells X Y`.  An access outside the vectors is
  undefined behaviour in C++; here a read yields a default cell and a write
  does nothing.
* A member function that may throw returns an `Outcome`: either it returned
  normally, leaving the object in some state, or an exception propagated,
  leaving the object in some state.
* The recursion `checkInputCoordinates` / `checkAroundCoordinate` is embedded
  with an explicit recursion budget; running out of budget is reported as
  `Error.outOfFuel`, which is not a C++ exception.
-/

namespace Minesweeper

/-! ## Cell -/

/-- Modelled from the spec: class `Cell` (`minesweeper/cell.h` is not among the
sources).  The spec, section 3, gives a cell four fields, all cells starting as
"no mine, invisible, unmarked, zero count". -/
structure Cell where
  hasMine : Bool := false
  isVisible : Bool := false
  isMarked : Bool := false
  minesAround : Int := 0
deriving DecidableEq, Repr, Inhabited

/-- Modelled from the spec: `Cell::putMine`, "mark that Cell as mine-bearing". -/
def Cell.putMine (c : Cell) : Cell := { c with hasMine := true }

/-- Modelled from the spec: `Cell::incrNumOfMinesAround`, "increment minesAround". -/
def Cell.incrNumOfMinesAround (c : Cell) : Cell := { c with minesAround := c.minesAround + 1 }

/-- Modelled from the spec: `Cell::makeVisible`, "mark the cell visible". -/
def Cell.makeVisible (c : Cell) : Cell := { c with isVisible := true }

/-- Modelled from the spec: `Cell::markCell`, "mark it". -/
def Cell.markCell (c : Cell) : Cell := { c with isMarked := true }

/-- Modelled from the spec: `Cell::unmarkCell`, "unmark it". -/
def Cell.unmarkCell (c : Cell) : Cell := { c with isMarked := false }

/-! ## Game state -/

/-- The data members of `Game` (the `random` pointer is kept in `RandomEnv`). -/
structure Game where
  gridHeight : Int
  gridWidth : Int
  numOfMines : Int
  numOfMarkedMines : Int := 0
  numOfWronglyMarkedCells : Int := 0
  numOfVisibleCells : Int := 0
  _checkedMine : Bool := false
  minesHaveBeenSet : Bool := false
  cells : List (List Cell)
deriving DecidableEq, Repr

/-- The exceptions `Game` throws (`std::out_of_range`, `std::invalid_argument`),
and two ends that are not C++ exceptions: the exhaustion of the recursion
budget, and an access outside a vector during `deserialise` (undefined
behaviour in C++). -/
inductive Error where
  | outOfRange
  | invalidArgument
  | outOfFuel
  | outOfBounds
deriving DecidableEq, Repr

/-- How a call of a mutating member function ends. -/
inductive Outcome where
  | ok (g : Game)
  | threw (e : Error) (g : Game)
deriving DecidableEq, Repr

/-- The state the object is left in. -/
def Outcome.state : Outcome → Game
  | .ok g => g
  | .threw _ g => g

/-- Sequencing of statements: an exception skips the rest. -/
def Outcome.andThen (o : Outcome) (f : Game → Outcome) : Outcome :=
  match o with
  | .ok g => f g
  | .threw e g => .threw e g

/-- The effect of `IRandom::shuffleVector` on the vector it is given. -/
abbrev Shuffle := List Int → List Int

/-- The two places a random source may come from: the member `random` and the
static member `defaultRandom`; `none` is `nullptr`. -/
structure RandomEnv where
  random : Option Shuffle
  defaultRandom : Option Shuffle

/-! ## Grid access -/

/-- The cell `cells[Y][X]`. -/
def getCell (cells : List (List Cell)) (X Y : Int) : Cell :=
  (cells.getD Y.toNat []).getD X.toNat default

/-- The grid after `cells[Y][X]` has been replaced by `f` of itself. -/
def modifyCell (f : Cell → Cell) (cells : List (List Cell)) (X Y : Int) : List (List Cell) :=
  List.modify (List.modify f X.toNat) Y.toNat cells

/-- `Game::initCells`: `gridHeight` rows of `gridWidth` default cells. -/
def initCells (gridHeight gridWidth : Int) : List (List Cell) :=
  List.replicate gridHeight.toNat (List.replicate gridWidth.toNat default)

def Game.isCellVisible (g : Game) (X Y : Int) : Bool := (getCell g.cells X Y).isVisible

def Game.doesCellHaveMine (g : Game) (X Y : Int) : Bool := (getCell g.cells X Y).hasMine

def Game.isCellMarked (g : Game) (X Y : Int) : Bool := (getCell g.cells X Y).isMarked

def Game.numOfMinesAroundCell (g : Game) (X Y : Int) : Int := (getCell g.cells X Y).minesAround

def Game.makeCellVisible (g : Game) (X Y : Int) : Game :=
  { g with cells := modifyCell Cell.makeVisible g.cells X Y }

def Game.markCell (g : Game) (X Y : Int) : Game :=
  { g with cells := modifyCell Cell.markCell g.cells X Y }

def Game.unmarkCell (g : Game) (X Y : Int) : Game :=
  { g with cells := modifyCell Cell.unmarkCell g.cells X Y }

/-- `Game::createMine` (its `assert` holds at every call of this development). -/
def Game.createMine (g : Game) (X Y : Int) : Game :=
  { g with cells := modifyCell Cell.putMine g.cells X Y }

/-! ## Construction -/

/-- `Game::maxNumOfMines` for non-negative dimensions whose product fits
`int`. -/
def maxNumOfMines (gridH gridW : Int) : Int := max (gridH * gridW - 9) 0

/-- `Game::minNumOfMines()`. -/
def minNumOfMines : Int := 0

/-- The game `Game(gridHeight, gridWidth, numOfMines, random)` constructs when
its three verifications pass. -/
def Game.new (gridHeight gridWidth numOfMines : Int) : Game :=
  { gridHeight := gridHeight, gridWidth := gridWidth, numOfMines := numOfMines,
    cells := initCells gridHeight gridWidth }

/-- The arguments of a valid construction: `verifyGridDimension` twice, then
`verifyNumOfMines`, and the product `gridHeight * gridWidth`, which the
constructor computes in `int`, is at most `INT_MAX` (signed overflow being
undefined behaviour, a construction whose product does not fit is not counted
as valid). -/
def ValidArgs (gridHeight gridWidth numOfMines : Int) : Prop :=
  0 ≤ gridHeight ∧ 0 ≤ gridWidth ∧
    ¬ numOfMines > maxNumOfMines gridHeight gridWidth ∧ ¬ numOfMines < minNumOfMines ∧
    gridHeight * gridWidth ≤ 2147483647

instance (h w n : Int) : Decidable (ValidArgs h w n) := by
  unfold ValidArgs; exact inferInstance

/-! ## Mine placement -/

/-- `Game::randomizeMineVector`. -/
def randomizeMineVector (env : RandomEnv) (mineSpots : List Int) : Except Error (List Int) :=
  match env.random with
  | some r => .ok (r mineSpots)
  | none =>
    match env.defaultRandom with
    | some r => .ok (r mineSpots)
    | none => .error .invalidArgument

/-- The idiom `v.erase(std::remove(v.begin(), v.end(), value), v.end())`. -/
def eraseRemove (value : Int) (v : List Int) : List Int := v.filter (fun a => a != value)

/-- What `std::iota(v.begin(), v.end(), 0)` leaves in a vector of `size` ints. -/
def iota (size : Int) : List Int := (List.range size.toNat).map Int.ofNat

/-- The statement `if (cond) { s = f(s); }` on a state `s`. -/
def guarded {σ : Type} (cond : Prop) [Decidable cond] (f : σ → σ) (s : σ) : σ :=
  if cond then f s else s

/-- `Game::chooseRandomMineCells`; the result is the final `mineSpots`. -/
def Game.chooseRandomMineCells (env : RandomEnv) (g : Game) (initChosenX initChosenY : Int) :
    Except Error (List Int) :=
  match randomizeMineVector env (iota (g.gridWidth * g.gridHeight)) with
  | .error e => .error e
  | .ok mineSpots =>
    .ok (mineSpots
      |> eraseRemove (initChosenY * g.gridWidth + initChosenX)
      |> guarded (initChosenX > 0)
          (eraseRemove (initChosenY * g.gridWidth + initChosenX - 1))
      |> guarded (initChosenX < g.gridWidth - 1)
          (eraseRemove (initChosenY * g.gridWidth + initChosenX + 1))
      |> guarded (initChosenY > 0)
          (eraseRemove ((initChosenY - 1) * g.gridWidth + initChosenX))
      |> guarded (initChosenY < g.gridHeight - 1)
          (eraseRemove ((initChosenY + 1) * g.gridWidth + initChosenX))
      |> guarded (initChosenY > 0 ∧ initChosenX > 0)
          (eraseRemove ((initChosenY - 1) * g.gridWidth + initChosenX - 1))
      |> guarded (initChosenY > 0 ∧ initChosenX < g.gridWidth - 1)
          (eraseRemove ((initChosenY - 1) * g.gridWidth + initChosenX + 1))
      |> guarded (initChosenY < g.gridHeight - 1 ∧ initChosenX > 0)
          (eraseRemove ((initChosenY + 1) * g.gridWidth + initChosenX - 1))
      |> guarded (initChosenY < g.gridHeight - 1 ∧ initChosenX < g.gridWidth - 1)
          (eraseRemove ((initChosenY + 1) * g.gridWidth + initChosenX + 1)))

/-- The statement `this->cells[Y][X]->incrNumOfMinesAround()`. -/
def incrAt (X Y : Int) (cells : List (List Cell)) : List (List Cell) :=
  modifyCell Cell.incrNumOfMinesAround cells X Y

/-- `Game::incrNumsAroundMine` (its `assert` holds at every call of this
development). -/
def Game.incrNumsAroundMine (g : Game) (X Y : Int) : Game :=
  { g with cells := g.cells
      |> guarded (X > 0) (incrAt (X - 1) Y)
      |> guarded (X < g.gridWidth - 1) (incrAt (X + 1) Y)
      |> guarded (Y > 0) (incrAt X (Y - 1))
      |> guarded (Y < g.gridHeight - 1) (incrAt X (Y + 1))
      |> guarded (Y > 0 ∧ X > 0) (incrAt (X - 1) (Y - 1))
      |> guarded (Y > 0 ∧ X < g.gridWidth - 1) (incrAt (X + 1) (Y - 1))
      |> guarded (Y < g.gridHeight - 1 ∧ X > 0) (incrAt (X - 1) (Y + 1))
      |> guarded (Y < g.gridHeight - 1 ∧ X < g.gridWidth - 1) (incrAt (X + 1) (Y + 1)) }

/-- One iteration of the loop of `Game::createMinesAndNums`, for the entry
`spot = mineSpots[i]`; `%` and `/` of C++ truncate. -/
def Game.placeMine (g : Game) (spot : Int) : Game :=
  let X := Int.tmod spot g.gridWidth
  let Y := Int.tdiv spot g.gridWidth
  (g.createMine X Y).incrNumsAroundMine X Y

/-- `Game::createMinesAndNums`. -/
def Game.createMinesAndNums (env : RandomEnv) (g : Game) (initChosenX initChosenY : Int) :
    Outcome :=
  match g.chooseRandomMineCells env initChosenX initChosenY with
  | .error e => .threw e g
  | .ok mineSpots =>
    let g1 := (List.range g.numOfMines.toNat).foldl
      (fun acc i => acc.placeMine (mineSpots.getD i 0)) g
    .ok { g1 with minesHaveBeenSet := true }

/-! ## Marking -/

/-- `Game::markInputCoordinates`. -/
def Game.markInputCoordinates (g : Game) (X Y : Int) : Outcome :=
  if X < 0 ∨ Y < 0 ∨ X ≥ g.gridWidth ∨ Y ≥ g.gridHeight then
    .threw .outOfRange g
  else if !g.minesHaveBeenSet then
    .threw .invalidArgument g
  else if g.isCellMarked X Y then
    let g1 := g.unmarkCell X Y
    if g1.doesCellHaveMine X Y then
      .ok { g1 with numOfMarkedMines := g1.numOfMarkedMines - 1 }
    else
      .ok { g1 with numOfWronglyMarkedCells := g1.numOfWronglyMarkedCells - 1 }
  else
    let g1 := g.markCell X Y
    if g1.doesCellHaveMine X Y then
      .ok { g1 with numOfMarkedMines := g1.numOfMarkedMines + 1 }
    else
      .ok { g1 with numOfWronglyMarkedCells := g1.numOfWronglyMarkedCells + 1 }

/-! ## Win and loss -/

def Game.allMinesMarked (g : Game) : Bool :=
  if g.numOfMines = g.numOfMarkedMines then true else false

def Game.noNonMinesMarked (g : Game) : Bool :=
  if g.numOfWronglyMarkedCells = 0 then true else false

def Game.allNonMinesVisible (g : Game) : Bool :=
  if g.numOfVisibleCells + g.numOfMines = g.gridWidth * g.gridHeight ∧ ¬ g._checkedMine = true then
    true
  else false

def Game.checkedMine (g : Game) : Bool := g._checkedMine

def Game.playerHasLost (g : Game) : Bool :=
  if g.checkedMine then true else false

def Game.playerHasWon (g : Game) : Bool :=
  if !g.playerHasLost then
    if g.allNonMinesVisible then true
    else if g.allMinesMarked && g.noNonMinesMarked then true
    else false
  else false

/-! ## Reveal -/

/-- `Game::checkAroundCoordinate`, the recursive `checkInputCoordinates` being
the parameter `check`. -/
def checkAroundCoordinate (check : Game → Int → Int → Outcome) (g : Game) (X Y : Int) : Outcome :=
  (if X > 0 then check g (X - 1) Y else .ok g).andThen fun g =>
  (if X < g.gridWidth - 1 then check g (X + 1) Y else .ok g).andThen fun g =>
  (if Y > 0 then check g X (Y - 1) else .ok g).andThen fun g =>
  (if Y < g.gridHeight - 1 then check g X (Y + 1) else .ok g).andThen fun g =>
  (if X > 0 ∧ Y > 0 then check g (X - 1) (Y - 1) else .ok g).andThen fun g =>
  (if Y > 0 ∧ X < g.gridWidth - 1 then check g (X + 1) (Y - 1) else .ok g).andThen fun g =>
  (if Y < g.gridHeight - 1 ∧ X > 0 then check g (X - 1) (Y + 1) else .ok g).andThen fun g =>
  (if X < g.gridWidth - 1 ∧ Y < g.gridHeight - 1 then check g (X + 1) (Y + 1) else .ok g)

/-- `Game::checkInputCoordinates` with a bound `fuel` on the depth of the
recursion through `checkAroundCoordinate`. -/
def checkFuel (env : RandomEnv) : Nat → Game → Int → Int → Outcome
  | 0, g, _, _ => .threw .outOfFuel g
  | fuel + 1, g, X, Y =>
    if X < 0 ∨ Y < 0 ∨ X ≥ g.gridWidth ∨ Y ≥ g.gridHeight then
      .threw .outOfRange g
    else
      (if !g.minesHaveBeenSet then g.createMinesAndNums env X Y else .ok g).andThen fun g =>
        if !(g.isCellVisible X Y) && !(g.isCellMarked X Y) then
          let g := g.makeCellVisible X Y
          let g := { g with numOfVisibleCells := g.numOfVisibleCells + 1 }
          if g.doesCellHaveMine X Y then
            .ok { g with _checkedMine := true }
          else if g.numOfMinesAroundCell X Y = 0 then
            checkAroundCoordinate (checkFuel env fuel) g X Y
          else .ok g
        else .ok g

/-- The number of cells of the grid that satisfy `p`. -/
def countCells (p : Cell → Bool) (cells : List (List Cell)) : Nat :=
  (cells.map (List.countP p)).sum

/-- The number of cells that are not visible. -/
def Game.hiddenCount (g : Game) : Nat := countCells (fun c => !c.isVisible) g.cells

/-- `Game::checkInputCoordinates`: every nested call makes one more cell
visible before it recurses, so the depth of the recursion never exceeds the
number of hidden cells plus one. -/
def Game.checkInputCoordinates (env : RandomEnv) (g : Game) (X Y : Int) : Outcome :=
  checkFuel env (g.hiddenCount + 1) g X Y

/-! ## Predicates used in the statements -/

/-- The cells form `h` rows of `w` cells each. -/
def GridShape (h w : Nat) (cells : List (List Cell)) : Prop :=
  cells.map List.length = List.replicate h w

instance (h w : Nat) (cells : List (List Cell)) : Decidable (GridShape h w cells) := by
  unfold GridShape; exact inferInstance

/-- The pair `(X, Y)` is a coordinate of the grid. -/
def Game.InRange (g : Game) (X Y : Int) : Prop :=
  0 ≤ X ∧ X < g.gridWidth ∧ 0 ≤ Y ∧ Y < g.gridHeight

instance (g : Game) (X Y : Int) : Decidable (g.InRange X Y) := by
  unfold Game.InRange; exact inferInstance

/-- The class invariant on the grid: the dimensions are not negative and
`cells` holds `gridHeight` rows of `gridWidth` cells. -/
def Game.Shaped (g : Game) : Prop :=
  0 ≤ g.gridHeight ∧ 0 ≤ g.gridWidth ∧ GridShape g.gridHeight.toNat g.gridWidth.toNat g.cells

instance (g : Game) : Decidable g.Shaped := by
  unfold Game.Shaped; exact inferInstance

/-- The cell `(a, b)` is one of the eight cells around `(X, Y)`. -/
def Adjacent (X Y a b : Int) : Prop :=
  (a ≠ X ∨ b ≠ Y) ∧ X - 1 ≤ a ∧ a ≤ X + 1 ∧ Y - 1 ≤ b ∧ b ≤ Y + 1

instance (X Y a b : Int) : Decidable (Adjacent X Y a b) := by
  unfold Adjacent; exact inferInstance

/-- The eight steps from a cell to the cells around it. -/
def neighbourOffsets : List (Int × Int) :=
  [(-1, 0), (1, 0), (0, -1), (0, 1), (-1, -1), (1, -1), (-1, 1), (1, 1)]

/-- The up to eight cells of the grid around `(X, Y)`. -/
def Game.neighbours (g : Game) (X Y : Int) : List (Int × Int) :=
  (neighbourOffsets.map fun d => (X + d.1, Y + d.2)).filter fun p => decide (g.InRange p.1 p.2)

/-- The number of mine-bearing cells among the grid neighbours of `(X, Y)`. -/
def Game.minesAmongNeighbours (g : Game) (X Y : Int) : Nat :=
  (g.neighbours X Y).countP fun p => g.doesCellHaveMine p.1 p.2

/-- Every cell's stored count is the number of mines around it. -/
def Game.Consistent (g : Game) : Prop :=
  ∀ X Y : Int, g.InRange X Y → g.numOfMinesAroundCell X Y = g.minesAmongNeighbours X Y

/-- The random source `randomizeMineVector` resorts to: the member `random`
when it is set, otherwise the static `defaultRandom`. -/
def RandomEnv.source (env : RandomEnv) : Option Shuffle :=
  match env.random with
  | some r => some r
  | none => env.defaultRandom

/-- A random source is available and what it leaves in the vector is a
permutation of what the vector held. -/
def RandomEnv.Valid (env : RandomEnv) : Prop :=
  ∃ r, env.source = some r ∧ ∀ l : List Int, List.Perm (r l) l

/-- The state of the loop of `createMinesAndNums` once the spots `S` have been
used: the mines are exactly at the spots of `S`, and the counts agree. -/
structure Game.Placed (g : Game) (S : List Int) : Prop where
  shaped : g.Shaped
  consistent : g.Consistent
  mines : ∀ a b : Int, g.InRange a b →
    (g.doesCellHaveMine a b = true ↔ b * g.gridWidth + a ∈ S)
  count : countCells (fun c => c.hasMine) g.cells = S.length

/-- The game `g2` has the scalar members of `g1`, and every cell of the grid
has the visibility and the mark it has in `g1`. -/
structure SameButMines (g1 g2 : Game) : Prop where
  height : g2.gridHeight = g1.gridHeight
  width : g2.gridWidth = g1.gridWidth
  numOfMines : g2.numOfMines = g1.numOfMines
  markedMines : g2.numOfMarkedMines = g1.numOfMarkedMines
  wronglyMarked : g2.numOfWronglyMarkedCells = g1.numOfWronglyMarkedCells
  visibleCells : g2.numOfVisibleCells = g1.numOfVisibleCells
  checked : g2._checkedMine = g1._checkedMine
  minesSet : g2.minesHaveBeenSet = g1.minesHaveBeenSet
  cell : ∀ a b : Int, g1.InRange a b →
    (getCell g2.cells a b).isVisible = (getCell g1.cells a b).isVisible ∧
    (getCell g2.cells a b).isMarked = (getCell g1.cells a b).isMarked

/-- The two statements `makeCellVisible(X, Y); ++numOfVisibleCells;` of
`checkInputCoordinates`. -/
def Game.reveal (g : Game) (X Y : Int) : Game :=
  { g.makeCellVisible X Y with numOfVisibleCells := (g.makeCellVisible X Y).numOfVisibleCells + 1 }

/-- What a call of `checkInputCoordinates` may change once the mines are
placed: hidden cells become visible, `numOfVisibleCells` grows by the number
of cells that became visible, and `_checkedMine` may be raised. -/
structure Reveals (g1 g2 : Game) : Prop where
  height : g2.gridHeight = g1.gridHeight
  width : g2.gridWidth = g1.gridWidth
  numOfMines : g2.numOfMines = g1.numOfMines
  markedMines : g2.numOfMarkedMines = g1.numOfMarkedMines
  wronglyMarked : g2.numOfWronglyMarkedCells = g1.numOfWronglyMarkedCells
  minesSet : g2.minesHaveBeenSet = g1.minesHaveBeenSet
  shaped : g2.Shaped
  cell : ∀ a b : Int, g1.InRange a b →
    (getCell g2.cells a b).hasMine = (getCell g1.cells a b).hasMine ∧
    (getCell g2.cells a b).isMarked = (getCell g1.cells a b).isMarked ∧
    (getCell g2.cells a b).minesAround = (getCell g1.cells a b).minesAround ∧
    ((getCell g1.cells a b).isVisible = true → (getCell g2.cells a b).isVisible = true)
  checked : g1._checkedMine = true → g2._checkedMine = true
  counter : g2.numOfVisibleCells + g2.hiddenCount = g1.numOfVisibleCells + g1.hiddenCount
  hidden : g2.hiddenCount ≤ g1.hiddenCount

/-- No mine-bearing cell of the grid is visible. -/
def Game.NoVisibleMine (g : Game) : Prop :=
  ∀ a b : Int, g.InRange a b → g.doesCellHaveMine a b = true → g.isCellVisible a b = false

/-- A call a player makes on a game. -/
inductive Move where
  | check (X Y : Int)
  | mark (X Y : Int)
deriving DecidableEq, Repr

/-- The state a call leaves the game in, whether it returns or throws. -/
def Game.play (env : RandomEnv) (g : Game) : Move → Game
  | .check X Y => (g.checkInputCoordinates env X Y).state
  | .mark X Y => (g.markInputCoordinates X Y).state

/-- The state a sequence of calls leaves the game in. -/
def Game.playAll (env : RandomEnv) (g : Game) (moves : List Move) : Game :=
  moves.foldl (Game.play env) g

/-- The states a validly constructed game reaches by `checkInputCoordinates`
and `markInputCoordinates` calls, successful or failing. -/
inductive Reachable (env : RandomEnv) : Game → Prop where
  | new (h w n : Int) : ValidArgs h w n → Reachable env (Game.new h w n)
  | step (g : Game) (m : Move) : Reachable env g → Reachable env (g.play env m)

/-- The states a validly constructed game reaches by `checkInputCoordinates`
calls only, successful or failing. -/
inductive ReachableByChecks (env : RandomEnv) : Game → Prop where
  | new (h w n : Int) : ValidArgs h w n → ReachableByChecks env (Game.new h w n)
  | step (g : Game) (X Y : Int) :
      ReachableByChecks env g → ReachableByChecks env (g.play env (.check X Y))

/-- The number of visible cells of the grid. -/
def Game.visibleCount (g : Game) : Nat := countCells (fun c => c.isVisible) g.cells

/-- The number of mine-bearing cells of the grid. -/
def Game.mineCount (g : Game) : Nat := countCells (fun c => c.hasMine) g.cells

/-- The number of marked cells that have a mine. -/
def Game.markedMineCount (g : Game) : Nat :=
  countCells (fun c => c.isMarked && c.hasMine) g.cells

/-- The number of marked cells that have no mine. -/
def Game.wronglyMarkedCount (g : Game) : Nat :=
  countCells (fun c => c.isMarked && !c.hasMine) g.cells

/-- What holds of every reachable state. -/
structure Game.Inv (g : Game) : Prop where
  shaped : g.Shaped
  args : ValidArgs g.gridHeight g.gridWidth g.numOfMines
  consistent : g.Consistent
  visible : g.numOfVisibleCells + g.hiddenCount = g.gridHeight * g.gridWidth
  markedMines : g.numOfMarkedMines = g.markedMineCount
  wronglyMarked : g.numOfWronglyMarkedCells = g.wronglyMarkedCount
  mines : g.minesHaveBeenSet = true → (g.mineCount : Int) = g.numOfMines
  fresh : g.minesHaveBeenSet = false →
    g = Game.new g.gridHeight g.gridWidth g.numOfMines
  noVisibleMine : g._checkedMine = false → g.NoVisibleMine

/-- The cell `(a, b)` is joined to `(x, y)` by an 8-neighbour path of cells of
the grid that are mine-free and have `minesAround = 0`, both ends included. -/
inductive ZeroPath (g : Game) (x y : Int) : Int → Int → Prop where
  | start : g.InRange x y → g.doesCellHaveMine x y = false →
      g.numOfMinesAroundCell x y = 0 → ZeroPath g x y x y
  | step {a b c d : Int} : ZeroPath g x y a b → g.InRange c d → Adjacent a b c d →
      g.doesCellHaveMine c d = false → g.numOfMinesAroundCell c d = 0 → ZeroPath g x y c d

/-- The cell `(c, d)` is in the zero region of `(x, y)` or is around one of
its cells. -/
def NearZeroPath (g : Game) (x y c d : Int) : Prop :=
  ZeroPath g x y c d ∨ ∃ a b : Int, ZeroPath g x y a b ∧ Adjacent a b c d

/-- No cell of the grid is marked. -/
def Game.NoMarks (g : Game) : Prop :=
  ∀ a b : Int, g.InRange a b → g.isCellMarked a b = false

/-- Every visible, mine-free cell of the grid with `minesAround = 0`, apart
from the cells in `pending`, has all its grid neighbours visible. -/
def Game.ClosedExcept (pending : Int → Int → Prop) (g : Game) : Prop :=
  ∀ a b : Int, g.InRange a b → ¬ pending a b → g.isCellVisible a b = true →
    g.doesCellHaveMine a b = false → g.numOfMinesAroundCell a b = 0 →
    ∀ c d : Int, g.InRange c d → Adjacent a b c d → g.isCellVisible c d = true

/-! ## Example games -/

/-- A random source that reverses the vector; there is no default source. -/
def reverseEnv : RandomEnv := { random := some List.reverse, defaultRandom := none }

/-- The 4x4 game with 7 mines after a first check at `(0, 0)` with
`reverseEnv`: the mines are at `(1, 2)`, `(2, 2)`, `(3, 2)` and in the whole
row 3; the rows 0 and 1 are visible. -/
def exampleGame : Game := (Game.new 4 4 7).play reverseEnv (.check 0 0)

/-- The game of 1 row, 12 columns and 3 mines after a first check at `(11, 0)`
with `reverseEnv`: the mines are at `(7, 0)`, `(8, 0)`, `(9, 0)`, the cells
`(10, 0)` and `(11, 0)` are visible and the cells `(0, 0)` to `(6, 0)` are
hidden and mine-free. -/
def exampleStrip : Game := (Game.new 1 12 3).play reverseEnv (.check 11 0)

/-! ## Construction and validation -/

/-- `Game::verifyGridDimension`. -/
def Game.verifyGridDimension (gridDimension : Int) : Except Error Int :=
  if gridDimension < 0 then .error .outOfRange else .ok gridDimension

/-- The value a 32-bit `int` holds after an operation whose mathematical
result is `x`.  Signed overflow is undefined behaviour in C++; the result taken
here is the two's complement one the usual compilers produce. -/
def wrapInt (x : Int) : Int := (x + 2147483648) % 4294967296 - 2147483648

/-- `Game::maxNumOfMines`, the static method, with its throw; the product and
the difference are computed in `int`. -/
def Game.maxNumOfMines (gridH gridW : Int) : Except Error Int :=
  if gridH < 0 ∨ gridW < 0 then .error .outOfRange
  else .ok (max (wrapInt (wrapInt (gridH * gridW) - 9)) 0)

/-- `Game::verifyNumOfMines`; it reads the dimensions of the object. -/
def Game.verifyNumOfMines (t : Game) (numOfMines : Int) : Except Error Int :=
  match Game.maxNumOfMines t.gridHeight t.gridWidth with
  | .error e => .error e
  | .ok maxNumOfMinesForThisGrid =>
    if numOfMines > maxNumOfMinesForThisGrid then .error .outOfRange
    else if numOfMines < minNumOfMines then .error .outOfRange
    else .ok numOfMines

/-- `Game::verifyNumOfMarkedMines`; it reads `numOfMines` of the object. -/
def Game.verifyNumOfMarkedMines (t : Game) (numOfMarkedMines : Int) : Except Error Int :=
  if numOfMarkedMines > t.numOfMines then .error .outOfRange
  else if numOfMarkedMines < 0 then .error .outOfRange
  else .ok numOfMarkedMines

/-- `Game::verifyNumOfWronglyMarkedCells`; it reads the dimensions and
`numOfMines` of the object; the product and the difference are computed in
`int`. -/
def Game.verifyNumOfWronglyMarkedCells (t : Game) (numOfWronglyMarkedCells : Int) :
    Except Error Int :=
  let numOfMinelessCells := wrapInt (wrapInt (t.gridHeight * t.gridWidth) - t.numOfMines)
  if numOfWronglyMarkedCells > numOfMinelessCells then .error .outOfRange
  else if numOfWronglyMarkedCells < 0 then .error .outOfRange
  else .ok numOfWronglyMarkedCells

/-- `Game::verifyNumOfVisibleCells`; it reads the dimensions of the object; the
product is computed in `int`. -/
def Game.verifyNumOfVisibleCells (t : Game) (numOfVisibleCells : Int) : Except Error Int :=
  if numOfVisibleCells > wrapInt (t.gridHeight * t.gridWidth) then .error .outOfRange
  else if numOfVisibleCells < 0 then .error .outOfRange
  else .ok numOfVisibleCells

/-- Modelled from the spec: the object before the constructor's initialiser
list runs.  `minesweeper/game.h` is not among the sources; by the spec
(section 3, lifecycle) a game starts with its counters at 0 and its two flags
false, and the members are initialised in the order of the initialiser list
(`gridHeight`, `gridWidth`, `numOfMines`, `cells`). -/
def Game.blank : Game :=
  { gridHeight := 0, gridWidth := 0, numOfMines := 0, cells := [] }

/-- The constructor `Game::Game(int gridHeight, int gridWidth, int numOfMines,
IRandom* random)`: each member is initialised by its verification, in order;
an exception leaves no object. -/
def Game.construct (gridHeight gridWidth numOfMines : Int) : Except Error Game :=
  match Game.verifyGridDimension gridHeight with
  | .error e => .error e
  | .ok h =>
    let t := { Game.blank with gridHeight := h }
    match Game.verifyGridDimension gridWidth with
    | .error e => .error e
    | .ok w =>
      let t := { t with gridWidth := w }
      match t.verifyNumOfMines numOfMines with
      | .error e => .error e
      | .ok n =>
        let t := { t with numOfMines := n }
        .ok { t with cells := initCells t.gridHeight t.gridWidth }

/-! ## Documents -/

/-- A parsed document as `nlohmann::json` holds it.  The library is not part
of the repository; it is embedded at its interface: objects, arrays, strings,
booleans, null, and the numbers that are integers fitting `int`.  Writing a
document to a stream and parsing it back is taken to give the document. -/
inductive Json where
  | null
  | bool (b : Bool)
  | num (n : Int)
  | str (s : String)
  | arr (items : List Json)
  | obj (members : List (String × Json))

/-- The call `j.at(key)`: `json::type_error` when `j` is not an object,
`json::out_of_range` when the key is missing; `Game::deserialise` rethrows
both as `std::invalid_argument`. -/
def Json.getKey (j : Json) (key : String) : Except Error Json :=
  match j with
  | .obj members =>
    match members.lookup key with
    | some v => .ok v
    | none => .error .invalidArgument
  | _ => .error .invalidArgument

/-- The conversion of a document to `int`: a number, or a boolean as 0 or 1;
otherwise `json::type_error`, rethrown as `std::invalid_argument`. -/
def Json.toInt (j : Json) : Except Error Int :=
  match j with
  | .num n => .ok n
  | .bool b => .ok (if b then 1 else 0)
  | _ => .error .invalidArgument

/-- The conversion of a document to `bool`: a boolean; otherwise
`json::type_error`, rethrown as `std::invalid_argument`. -/
def Json.toBool (j : Json) : Except Error Bool :=
  match j with
  | .bool b => .ok b
  | _ => .error .invalidArgument

/-- The comparison `j == "text"`. -/
def Json.isString (j : Json) (text : String) : Bool :=
  match j with
  | .str s => s == text
  | _ => false

/-- The documents a range-based `for` over `j` visits: the elements of an
array, the values of an object, nothing for null, and `j` itself otherwise. -/
def Json.items (j : Json) : List Json :=
  match j with
  | .arr items => items
  | .obj members => members.map Prod.snd
  | .null => []
  | v => [v]

/-- The value `j.at("currentGame").at(key)` converted to `int`. -/
def Json.currentGameInt (j : Json) (key : String) : Except Error Int :=
  j.getKey "currentGame" >>= fun cg => cg.getKey key >>= Json.toInt

/-- The value `j.at("currentGame").at(key)` converted to `bool`. -/
def Json.currentGameBool (j : Json) (key : String) : Except Error Bool :=
  j.getKey "currentGame" >>= fun cg => cg.getKey key >>= Json.toBool

/-- Modelled from the spec: `Cell::serialise` (`cell.cpp` is not among the
sources); by the spec, section 6, a cell is written as
`{ "hasMine": bool, "isVisible": bool, "isMarked": bool, "minesAround": int }`. -/
def Cell.serialise (c : Cell) : Json :=
  .obj [("hasMine", .bool c.hasMine), ("isVisible", .bool c.isVisible),
    ("isMarked", .bool c.isMarked), ("minesAround", .num c.minesAround)]

/-- Modelled from the spec: `Cell::deserialise` (`cell.cpp` is not among the
sources); it reads the four keys of the shape `Cell::serialise` writes. -/
def Cell.deserialise (j : Json) : Except Error Cell :=
  j.getKey "hasMine" >>= Json.toBool >>= fun hasMine =>
  j.getKey "isVisible" >>= Json.toBool >>= fun isVisible =>
  j.getKey "isMarked" >>= Json.toBool >>= fun isMarked =>
  j.getKey "minesAround" >>= Json.toInt >>= fun minesAround =>
  .ok { hasMine := hasMine, isVisible := isVisible, isMarked := isMarked,
        minesAround := minesAround }

/-- The member `"key": value` of an object when `items` is not empty: the
first `push_back` on `j[key]` creates the array, and without a `push_back` the
key is never written. -/
def pushedArray (key : String) (items : List Json) : List (String × Json) :=
  if items.isEmpty then [] else [(key, .arr items)]

/-- The row object `jRowObject` of `Game::serialise` for the row `y`. -/
def Game.serialiseRow (g : Game) (y : Nat) : Json :=
  .obj (("rowNumber", .num y) ::
    pushedArray "rowCells" ((List.range g.gridWidth.toNat).map fun (x : Nat) =>
      Json.obj [("columnNumber", .num (x : Int)),
        ("cell", (getCell g.cells (x : Int) (y : Int)).serialise)]))

/-- `Game::serialise`: the document `j` it writes to the stream. -/
def Game.serialise (g : Game) : Json :=
  .obj [("magic", .str "Timi's Minesweeper"), ("version", .str "1.0"),
    ("currentGame", .obj ([("gridHeight", .num g.gridHeight), ("gridWidth", .num g.gridWidth),
      ("numOfMines", .num g.numOfMines), ("numOfMarkedMines", .num g.numOfMarkedMines),
      ("numOfWronglyMarkedCells", .num g.numOfWronglyMarkedCells),
      ("numOfVisibleCells", .num g.numOfVisibleCells),
      ("_checkedMine", .bool g._checkedMine),
      ("minesHaveBeenSet", .bool g.minesHaveBeenSet)] ++
      pushedArray "cells"
        (if g.gridHeight ≠ 0 ∧ g.gridWidth ≠ 0 then
          (List.range g.gridHeight.toNat).map g.serialiseRow
        else [])))]

/-- The call `v.resize(n)` of `std::vector`: the first `n` elements, then
value-initialised elements up to the size `n`. -/
def vectorResize {α : Type} (n : Nat) (fill : α) (v : List α) : List α :=
  v.take n ++ List.replicate (n - v.length) fill

/-- The body of the loop of `Game::resizeCells` for one row: new cells are
appended while the row is shorter than `gridWidth`, then the row is resized
(which can only shorten it).  `gridWidth` is not negative when this runs. -/
def resizeRow (gridWidth : Int) (cellRow : List Cell) : List Cell :=
  vectorResize gridWidth.toNat default
    (if cellRow.length < gridWidth.toNat then
      cellRow ++ List.replicate (gridWidth.toNat - cellRow.length) default
    else cellRow)

/-- `Game::resizeCells`.  `gridHeight` is not negative when this runs. -/
def Game.resizeCells (t : Game) : Game :=
  { t with cells := (vectorResize t.gridHeight.toNat [] t.cells).map (resizeRow t.gridWidth) }

/-- A step of `Game::deserialise` that reads the document: reading does not
change the object, so an exception leaves it in the state `t`. -/
def attempt {α : Type} (t : Game) (r : Except Error α) (k : α → Outcome) : Outcome :=
  match r with
  | .error e => .threw e t
  | .ok a => k a

/-- The access `cells[y][x]` stays inside the vectors. -/
def inBounds (cells : List (List Cell)) (x y : Int) : Prop :=
  0 ≤ y ∧ y.toNat < cells.length ∧ 0 ≤ x ∧ x.toNat < (cells.getD y.toNat []).length

instance (cells : List (List Cell)) (x y : Int) : Decidable (inBounds cells x y) := by
  unfold inBounds; exact inferInstance

/-- The body of the inner loop of `Game::deserialise` for one `jCellObject`:
`cells[y][x]->deserialise(jCellObject.at("cell"))`. -/
def Game.loadCell (y : Int) (t : Game) (jCellObject : Json) : Outcome :=
  attempt t (jCellObject.getKey "columnNumber" >>= Json.toInt) fun x =>
  if inBounds t.cells x y then
    attempt t (jCellObject.getKey "cell" >>= Cell.deserialise) fun c =>
    .ok { t with cells := modifyCell (fun _ => c) t.cells x y }
  else .threw .outOfBounds t

/-- The body of the outer loop of `Game::deserialise` for one `jRowObject`. -/
def Game.loadRow (t : Game) (jRowObject : Json) : Outcome :=
  attempt t (jRowObject.getKey "rowNumber" >>= Json.toInt) fun y =>
  attempt t (jRowObject.getKey "rowCells") fun rowCells =>
  rowCells.items.foldl (fun o jCellObject => o.andThen fun t => t.loadCell y jCellObject) (.ok t)

/-- The end of `Game::deserialise`: the grid is resized, then the cell data is
read. -/
def Game.loadGrid (t : Game) (j : Json) : Outcome :=
  let t := t.resizeCells
  if t.gridHeight ≠ 0 ∧ t.gridWidth ≠ 0 then
    attempt t (j.getKey "currentGame" >>= fun cg => cg.getKey "cells") fun cells =>
    cells.items.foldl (fun o jRowObject => o.andThen fun t => t.loadRow jRowObject) (.ok t)
  else .ok t

/-- The part of `Game::deserialise` that runs when magic and version match. -/
def Game.deserialiseCurrentGame (t : Game) (j : Json) : Outcome :=
  attempt t (j.currentGameInt "gridHeight" >>= Game.verifyGridDimension) fun h =>
  let t := { t with gridHeight := h }
  attempt t (j.currentGameInt "gridWidth" >>= Game.verifyGridDimension) fun w =>
  let t := { t with gridWidth := w }
  attempt t (j.currentGameInt "numOfMines" >>= t.verifyNumOfMines) fun n =>
  let t := { t with numOfMines := n }
  attempt t (j.currentGameInt "numOfMarkedMines" >>= t.verifyNumOfMarkedMines) fun mm =>
  let t := { t with numOfMarkedMines := mm }
  attempt t (j.currentGameInt "numOfWronglyMarkedCells" >>= t.verifyNumOfWronglyMarkedCells)
    fun wm =>
  let t := { t with numOfWronglyMarkedCells := wm }
  attempt t (j.currentGameInt "numOfVisibleCells" >>= t.verifyNumOfVisibleCells) fun v =>
  let t := { t with numOfVisibleCells := v }
  attempt t (j.currentGameBool "_checkedMine") fun checked =>
  let t := { t with _checkedMine := checked }
  attempt t (j.currentGameBool "minesHaveBeenSet") fun minesSet =>
  let t := { t with minesHaveBeenSet := minesSet }
  t.loadGrid j

/-- `Game::deserialise`.  The stream holds a document, or text that does not
parse (`none`): `json::parse_error`, rethrown as `std::invalid_argument`. -/
def Game.deserialise (t : Game) (inStream : Option Json) : Outcome :=
  match inStream with
  | none => .threw .invalidArgument t
  | some j =>
    attempt t (j.getKey "magic") fun magic =>
    if magic.isString "Timi's Minesweeper" then
      attempt t (j.getKey "version") fun version =>
      if version.isString "1.0" then t.deserialiseCurrentGame j
      else .ok t
    else .ok t

/-- A document with matching magic and version that holds the six scalars
given, both flags false, and no cell data. -/
def scalarDocument (h w n mm wm v : Int) : Json :=
  .obj [("magic", .str "Timi's Minesweeper"), ("version", .str "1.0"),
    ("currentGame", .obj [("gridHeight", .num h), ("gridWidth", .num w),
      ("numOfMines", .num n), ("numOfMarkedMines", .num mm),
      ("numOfWronglyMarkedCells", .num wm), ("numOfVisibleCells", .num v),
      ("_checkedMine", .bool false), ("minesHaveBeenSet", .bool false)])]

/-! ## The shuffle and the mine positions -/

/-- The linear indices `b * gridWidth + a` of the anchor `(X, Y)` and of the
cells of the grid around it: the anchor's clipped 3x3 neighbourhood. -/
def Game.anchorIndices (g : Game) (X Y : Int) : List Int :=
  ((X, Y) :: g.neighbours X Y).map fun c => c.2 * g.gridWidth + c.1

/-- The sequence `s` of the spec: `p` with every index of the anchor's clipped
3x3 neighbourhood removed, the rest in the order it has in `p`. -/
def Game.survivors (g : Game) (X Y : Int) (p : List Int) : List Int :=
  p.filter fun v => decide (v ∉ g.anchorIndices X Y)

/-- `std::iter_swap` on the positions `i` and `j` of a vector.  A position past
the last element is undefined behaviour in C++; here the vector is left as it
is. -/
def iterSwap (i j : Nat) (vec : List Int) : List Int :=
  if i < vec.length ∧ j < vec.length then (vec.set i (vec.getD j 0)).set j (vec.getD i 0)
  else vec

/-- `PutIntsToFrontRandom::shuffleVector` of `examples/minesweeper_examples.cpp`:
for each `num` of `intsToPutInFront`, `std::find` locates it in `vec` and
`std::iter_swap` exchanges it with the element at `toIt`, which then moves one
step on. -/
def putIntsToFront (intsToPutInFront : List Int) (vec : List Int) : List Int :=
  (intsToPutInFront.foldl
    (fun (state : List Int × Nat) (num : Int) =>
      (iterSwap state.2 (state.1.indexOf num) state.1, state.2 + 1))
    (vec, 0)).1

/-- The list `myDeterminedRandom` of `playGround1` is built from. -/
def playGround1Front : List Int :=
  [35, 37, 41, 31, 3, 9, 56, 52, 65, 69, 76, 66, 39, 7, 13, 29]

/-- The random source `myDeterminedRandom` of `playGround1`. -/
def playGround1Env : RandomEnv :=
  { random := some (putIntsToFront playGround1Front), defaultRandom := none }

/-- `Game::setDefaultRandom`: the static member `defaultRandom` is
overwritten. -/
def setDefaultRandom (env : RandomEnv) (defaultRandom : Option Shuffle) : RandomEnv :=
  { env with defaultRandom := defaultRandom }

/-- No random source at all: the member `random` and the static
`defaultRandom` are both `nullptr`. -/
def noRandomEnv : RandomEnv := { random := none, defaultRandom := none }

/-- The names of the members of an object; a document that is not an object
has none. -/
def Json.keys (j : Json) : List String :=
  match j with
  | .obj members => members.map Prod.fst
  | _ => []

/-! ## Documents with declared coordinates -/

/-- The cell entry `{ "columnNumber": x, "cell": cell }` of a document. -/
def cellEntry (x : Int) (cell : Json) : Json :=
  .obj [("columnNumber", .num x), ("cell", cell)]

/-- The row entry `{ "rowNumber": y, "rowCells": [...] }` of a document, its
cell entries in the order of `rowCells`. -/
def rowEntry (y : Int) (rowCells : List (Int × Json)) : Json :=
  .obj [("rowNumber", .num y), ("rowCells", .arr (rowCells.map fun e => cellEntry e.1 e.2))]

/-- The `(rowNumber, columnNumber, cell)` entries that the rows of a document
declare, in document order. -/
def declaredEntries (rows : List (Int × List (Int × Json))) : List (Int × Int × Json) :=
  rows.flatMap fun r => r.2.map fun e => (r.1, e.1, e.2)

/-- The grid after each entry, in turn, has replaced the cell at the place it
declares; an entry whose cell cannot be read replaces nothing. -/
def writeEntries (entries : List (Int × Int × Json)) (cells : List (List Cell)) :
    List (List Cell) :=
  entries.foldl
    (fun cells e =>
      match Cell.deserialise e.2.2 with
      | .ok c => modifyCell (fun _ => c) cells e.2.1 e.1
      | .error _ => cells)
    cells

/-- A document for a 2 by 2 grid without mines whose only cell entry declares
the row 5. -/
def outsideDocument : Json :=
  .obj [("magic", .str "Timi's Minesweeper"), ("version", .str "1.0"),
    ("currentGame", .obj [("gridHeight", .num 2), ("gridWidth", .num 2),
      ("numOfMines", .num 0), ("numOfMarkedMines", .num 0),
      ("numOfWronglyMarkedCells", .num 0), ("numOfVisibleCells", .num 0),
      ("_checkedMine", .bool false), ("minesHaveBeenSet", .bool false),
      ("cells", .arr [rowEntry 5 [(0, (default : Cell).serialise)]])])]

/-- A document for a 2 by 2 grid without mines, with mines placed and one
visible cell, whose "cells" holds the row entries given. -/
def smallDocument (rows : List Json) : Json :=
  .obj [("magic", .str "Timi's Minesweeper"), ("version", .str "1.0"),
    ("currentGame", .obj ([("gridHeight", .num 2), ("gridWidth", .num 2),
      ("numOfMines", .num 0), ("numOfMarkedMines", .num 0),
      ("numOfWronglyMarkedCells", .num 0), ("numOfVisibleCells", .num 1),
      ("_checkedMine", .bool false), ("minesHaveBeenSet", .bool true)] ++
      [("cells", .arr rows)]))]

/-- The four cells of a 2 by 2 grid, the cell at `(1, 0)` visible, listed with
the row 1 before the row 0 and, in each row, the column 1 before the column
0. -/
def reorderedRows : List (Int × List (Int × Json)) :=
  [(1, [(1, (default : Cell).serialise), (0, (default : Cell).serialise)]),
   (0, [(1, ({ isVisible := true } : Cell).serialise), (0, (default : Cell).serialise)])]

/-- The entries of `reorderedRows` in grid order. -/
def orderedRows : List (Int × List (Int × Json)) :=
  [(0, [(0, (default : Cell).serialise), (1, ({ isVisible := true } : Cell).serialise)]),
   (1, [(0, (default : Cell).serialise), (1, (default : Cell).serialise)])]

/-- The document that lists `reorderedRows`. -/
def reorderedDocument : Json := smallDocument (reorderedRows.map fun r => rowEntry r.1 r.2)

/-- The document that lists `orderedRows`. -/
def orderedDocument : Json := smallDocument (orderedRows.map fun r => rowEntry r.1 r.2)

/-! # Theorems -/

/-! ## Grid access -/

theorem getCell_eq (cells : List (List Cell)) (X Y : Int) :
    getCell cells X Y = ((cells[Y.toNat]?.getD [])[X.toNat]?).getD default := by
  simp [getCell]

theorem getCell_modifyCell (f : Cell → Cell) (cells : List (List Cell)) (X Y a b : Int) :
    getCell (modifyCell f cells X Y) a b =
      if a.toNat = X.toNat ∧ b.toNat = Y.toNat ∧ b.toNat < cells.length ∧
          a.toNat < (cells.getD b.toNat []).length
      then f (getCell cells a b) else getCell cells a b := by
  simp only [getCell_eq, modifyCell, List.getElem?_modify, List.getD_eq_getElem?_getD]
  by_cases hb : b.toNat < cells.length
  · rw [List.getElem?_eq_getElem hb]
    simp only [Option.map_eq_map, Option.map_some', Option.getD_some]
    by_cases hY : Y.toNat = b.toNat
    · simp only [hY, if_true, List.getElem?_modify]
      by_cases ha : a.toNat < (cells[b.toNat]).length
      · rw [List.getElem?_eq_getElem ha]
        by_cases hX : X.toNat = a.toNat
        · simp [hX, hb, ha]
        · have : ¬ a.toNat = X.toNat := fun h => hX h.symm
          simp [hX, this]
      · rw [List.getElem?_eq_none (by omega)]
        simp [ha]
    · have : ¬ b.toNat = Y.toNat := fun h => hY h.symm
      simp [hY, this]
  · have hn : cells[b.toNat]? = none := List.getElem?_eq_none (by omega)
    simp [hn, hb]

theorem map_modify_of_fixed {α β : Type} (G : α → β) (F : α → α) (hF : ∀ a, G (F a) = G a) :
    ∀ (n : Nat) (l : List α), (List.modify F n l).map G = l.map G := by
  intro n l
  induction l generalizing n with
  | nil => cases n <;> rfl
  | cons x xs ih =>
    cases n with
    | zero => simp [List.modify, hF]
    | succ n => simpa [List.modify] using ih n

theorem gridShape_modifyCell {h w : Nat} {cells : List (List Cell)} (hs : GridShape h w cells)
    (f : Cell → Cell) (X Y : Int) : GridShape h w (modifyCell f cells X Y) := by
  unfold GridShape modifyCell at *
  rw [map_modify_of_fixed List.length _ (fun row => List.length_modify f _ row)]
  exact hs

theorem gridShape_length {h w : Nat} {cells : List (List Cell)} (hs : GridShape h w cells) :
    cells.length = h := by
  have := congrArg List.length hs
  simpa using this

theorem gridShape_row {h w : Nat} {cells : List (List Cell)} (hs : GridShape h w cells)
    {i : Nat} (hi : i < cells.length) : (cells[i]).length = w := by
  have h1 : (cells.map List.length)[i]? = (List.replicate h w)[i]? := by rw [hs]
  have hh := gridShape_length hs
  rw [List.getElem?_map, List.getElem?_eq_getElem hi, List.getElem?_replicate] at h1
  simp [hh ▸ hi] at h1
  exact h1

theorem gridShape_getD {h w : Nat} {cells : List (List Cell)} (hs : GridShape h w cells)
    {i : Nat} (hi : i < h) : (cells.getD i []).length = w := by
  have hl := gridShape_length hs
  have hi2 : i < cells.length := by omega
  rw [List.getD_eq_getElem _ _ hi2]
  exact gridShape_row hs hi2

theorem gridShape_initCells (h w : Int) : GridShape h.toNat w.toNat (initCells h w) := by
  simp [GridShape, initCells]

/-! ## Counting cells -/

theorem sum_map_modify {α : Type} (G : α → Nat) (F : α → α) :
    ∀ (n : Nat) (l : List α) (hn : n < l.length),
      ((List.modify F n l).map G).sum + G l[n] = (l.map G).sum + G (F l[n]) := by
  intro n l
  induction l generalizing n with
  | nil => intro hn; simp at hn
  | cons x xs ih =>
    intro hn
    cases n with
    | zero => simp [List.modify]; omega
    | succ n =>
      have := ih n (by simpa using hn)
      simp [List.modify] at this ⊢
      omega

theorem countP_eq_sum_map (p : Cell → Bool) (l : List Cell) :
    l.countP p = (l.map (fun c => if p c then 1 else 0)).sum := by
  induction l with
  | nil => rfl
  | cons x xs ih => cases hx : p x <;> simp [List.countP_cons, hx, ih]; omega

theorem countP_modify (p : Cell → Bool) (f : Cell → Cell) (n : Nat) (l : List Cell)
    (hn : n < l.length) :
    (List.modify f n l).countP p + (if p l[n] then 1 else 0)
      = l.countP p + (if p (f l[n]) then 1 else 0) := by
  rw [countP_eq_sum_map, countP_eq_sum_map]
  exact sum_map_modify (fun c => if p c then 1 else 0) f n l hn

theorem getCell_eq_getElem {h w : Nat} {cells : List (List Cell)} (hs : GridShape h w cells)
    (X Y : Int) (hX : X.toNat < w) (hY : Y.toNat < h) :
    ∃ (hy : Y.toNat < cells.length) (hx : X.toNat < (cells[Y.toNat]).length),
      getCell cells X Y = (cells[Y.toNat])[X.toNat] := by
  have hy : Y.toNat < cells.length := by rw [gridShape_length hs]; exact hY
  have hx : X.toNat < (cells[Y.toNat]).length := by rw [gridShape_row hs hy]; exact hX
  refine ⟨hy, hx, ?_⟩
  simp [getCell, List.getD_eq_getElem _ _ hy, List.getElem?_eq_getElem hx, List.getElem?_eq_getElem hy]

theorem countCells_modifyCell {h w : Nat} {cells : List (List Cell)} (hs : GridShape h w cells)
    (p : Cell → Bool) (f : Cell → Cell) (X Y : Int) (hX : X.toNat < w) (hY : Y.toNat < h) :
    countCells p (modifyCell f cells X Y) + (if p (getCell cells X Y) then 1 else 0)
      = countCells p cells + (if p (f (getCell cells X Y)) then 1 else 0) := by
  obtain ⟨hy, hx, hget⟩ := getCell_eq_getElem hs X Y hX hY
  have h1 := sum_map_modify (List.countP p) (List.modify f X.toNat) Y.toNat cells hy
  have h2 := countP_modify p f X.toNat (cells[Y.toNat]) hx
  unfold countCells modifyCell
  rw [hget]
  omega

theorem countP_eq_iff_of_imp (p q : Cell → Bool) (l : List Cell)
    (hpq : ∀ c ∈ l, p c = true → q c = true) :
    l.countP p ≤ l.countP q ∧ (l.countP p = l.countP q ↔ ∀ c ∈ l, q c = true → p c = true) := by
  induction l with
  | nil => simp
  | cons x xs ih =>
    have ih1 := ih (fun c hc => hpq c (List.mem_cons_of_mem _ hc))
    have hx := hpq x (List.mem_cons_self _ _)
    simp only [List.countP_cons, List.forall_mem_cons]
    cases hp : p x <;> cases hq : q x
    · simp only [Bool.false_eq_true, if_false, false_implies, true_and]
      exact ⟨by omega, by rw [← ih1.2]; omega⟩
    · simp only [Bool.false_eq_true, if_true, if_false, true_implies, false_and, iff_false]
      exact ⟨by omega, by omega⟩
    · rw [hp, hq] at hx; simp at hx
    · simp only [if_true, true_implies, true_and]
      exact ⟨by omega, by rw [← ih1.2]; omega⟩

theorem countCells_eq_iff_of_imp (p q : Cell → Bool) (cells : List (List Cell))
    (hpq : ∀ row ∈ cells, ∀ c ∈ row, p c = true → q c = true) :
    countCells p cells ≤ countCells q cells ∧
      (countCells p cells = countCells q cells ↔
        ∀ row ∈ cells, ∀ c ∈ row, q c = true → p c = true) := by
  induction cells with
  | nil => simp [countCells]
  | cons r rs ih =>
    have ih1 := ih (fun row hrow => hpq row (List.mem_cons_of_mem _ hrow))
    have hr := countP_eq_iff_of_imp p q r (hpq r (List.mem_cons_self _ _))
    simp only [countCells, List.map_cons, List.sum_cons, List.forall_mem_cons] at ih1 ⊢
    constructor
    · omega
    · rw [← ih1.2, ← hr.2]; omega

theorem countCells_eq_zero_iff (p : Cell → Bool) (cells : List (List Cell)) :
    countCells p cells = 0 ↔ ∀ row ∈ cells, ∀ c ∈ row, ¬ p c = true := by
  induction cells with
  | nil => simp [countCells]
  | cons r rs ih =>
    simp only [countCells, List.map_cons, List.sum_cons, List.forall_mem_cons] at ih ⊢
    rw [← ih, Nat.add_eq_zero_iff, List.countP_eq_zero]

theorem forall_cells_iff {h w : Nat} {cells : List (List Cell)} (hs : GridShape h w cells)
    (P : Cell → Prop) :
    (∀ row ∈ cells, ∀ c ∈ row, P c) ↔
      ∀ X Y : Int, 0 ≤ X → X < w → 0 ≤ Y → Y < h → P (getCell cells X Y) := by
  constructor
  · intro hall X Y hX0 hX hY0 hY
    obtain ⟨hy, hx, hget⟩ := getCell_eq_getElem hs X Y (by omega) (by omega)
    rw [hget]
    exact hall _ (List.getElem_mem hy) _ (List.getElem_mem hx)
  · intro hall row hrow c hc
    obtain ⟨i, hi, rfl⟩ := List.getElem_of_mem hrow
    obtain ⟨j, hj, rfl⟩ := List.getElem_of_mem hc
    have hi2 : i < h := by rw [← gridShape_length hs]; exact hi
    have hj2 : j < w := by rw [← gridShape_row hs hi]; exact hj
    obtain ⟨hy, hx, hget⟩ := getCell_eq_getElem hs (j : Int) (i : Int) (by simpa using hj2)
      (by simpa using hi2)
    have := hall (j : Int) (i : Int) (by omega) (by omega) (by omega) (by omega)
    rw [hget] at this
    simpa using this

theorem countCells_initCells (p : Cell → Bool) (h w : Int) :
    countCells p (initCells h w) = if p default then h.toNat * w.toNat else 0 := by
  unfold countCells initCells
  by_cases hp : p default = true
  · simp [hp, List.countP_replicate]
  · simp [hp, List.countP_replicate]

/-! ## Neighbours -/

theorem getCell_modifyCell_inRange {h w : Nat} {cells : List (List Cell)}
    (hs : GridShape h w cells) (f : Cell → Cell) {X Y a b : Int}
    (hX : 0 ≤ X) (hY : 0 ≤ Y) (ha : 0 ≤ a) (haw : a < w) (hb : 0 ≤ b) (hbh : b < h) :
    getCell (modifyCell f cells X Y) a b =
      if a = X ∧ b = Y then f (getCell cells a b) else getCell cells a b := by
  rw [getCell_modifyCell]
  have h1 : b.toNat < cells.length := by rw [gridShape_length hs]; omega
  have h2 : a.toNat < (cells.getD b.toNat []).length := by
    rw [gridShape_getD hs (by omega)]; omega
  have h3 : (a.toNat = X.toNat ∧ b.toNat = Y.toNat ∧ b.toNat < cells.length ∧
      a.toNat < (cells.getD b.toNat []).length) ↔ (a = X ∧ b = Y) := by
    constructor
    · rintro ⟨h4, h5, _, _⟩; constructor <;> omega
    · rintro ⟨h4, h5⟩; exact ⟨by omega, by omega, h1, h2⟩
  simp only [h3]

theorem guarded_pos {σ : Type} {cond : Prop} [Decidable cond] (f : σ → σ) (s : σ) (h : cond) :
    guarded cond f s = f s := if_pos h

theorem guarded_neg {σ : Type} {cond : Prop} [Decidable cond] (f : σ → σ) (s : σ) (h : ¬ cond) :
    guarded cond f s = s := if_neg h

theorem guarded_modifyCell {h w : Nat} {cells : List (List Cell)}
    (hs : GridShape h w cells) (f : Cell → Cell) (cond : Prop) [Decidable cond] {X Y : Int}
    (hXY : cond → 0 ≤ X ∧ 0 ≤ Y) :
    GridShape h w (guarded cond (fun c => modifyCell f c X Y) cells) ∧
      ∀ a b : Int, 0 ≤ a → a < w → 0 ≤ b → b < h →
        getCell (guarded cond (fun c => modifyCell f c X Y) cells) a b =
          guarded (cond ∧ a = X ∧ b = Y) f (getCell cells a b) := by
  by_cases hc : cond
  · rw [guarded_pos _ _ hc]
    refine ⟨gridShape_modifyCell hs f X Y, ?_⟩
    intro a b ha haw hb hbh
    rw [getCell_modifyCell_inRange hs f (hXY hc).1 (hXY hc).2 ha haw hb hbh]
    by_cases hab : a = X ∧ b = Y
    · rw [if_pos hab, guarded_pos _ _ ⟨hc, hab⟩]
    · rw [if_neg hab, guarded_neg _ _ (fun hh => hab hh.2)]
  · rw [guarded_neg _ _ hc]
    refine ⟨hs, ?_⟩
    intro a b _ _ _ _
    rw [guarded_neg _ _ (fun hh => hc hh.1)]

theorem incrNumsAroundMine_spec (g : Game) (hs : g.Shaped) (X Y : Int) (hXY : g.InRange X Y) :
    (g.incrNumsAroundMine X Y).Shaped ∧
    ∀ a b : Int, g.InRange a b →
      getCell (g.incrNumsAroundMine X Y).cells a b =
        if Adjacent X Y a b then (getCell g.cells a b).incrNumOfMinesAround
        else getCell g.cells a b := by
  obtain ⟨hh, hw, hsh⟩ := hs
  obtain ⟨hX0, hXw, hY0, hYh⟩ := hXY
  obtain ⟨s1, e1⟩ := guarded_modifyCell hsh Cell.incrNumOfMinesAround (X > 0)
    (X := X - 1) (Y := Y) (fun _ => by omega)
  obtain ⟨s2, e2⟩ := guarded_modifyCell s1 Cell.incrNumOfMinesAround (X < g.gridWidth - 1)
    (X := X + 1) (Y := Y) (fun _ => by omega)
  obtain ⟨s3, e3⟩ := guarded_modifyCell s2 Cell.incrNumOfMinesAround (Y > 0)
    (X := X) (Y := Y - 1) (fun _ => by omega)
  obtain ⟨s4, e4⟩ := guarded_modifyCell s3 Cell.incrNumOfMinesAround (Y < g.gridHeight - 1)
    (X := X) (Y := Y + 1) (fun _ => by omega)
  obtain ⟨s5, e5⟩ := guarded_modifyCell s4 Cell.incrNumOfMinesAround (Y > 0 ∧ X > 0)
    (X := X - 1) (Y := Y - 1) (fun _ => by omega)
  obtain ⟨s6, e6⟩ := guarded_modifyCell s5 Cell.incrNumOfMinesAround
    (Y > 0 ∧ X < g.gridWidth - 1) (X := X + 1) (Y := Y - 1) (fun _ => by omega)
  obtain ⟨s7, e7⟩ := guarded_modifyCell s6 Cell.incrNumOfMinesAround
    (Y < g.gridHeight - 1 ∧ X > 0) (X := X - 1) (Y := Y + 1) (fun _ => by omega)
  obtain ⟨s8, e8⟩ := guarded_modifyCell s7 Cell.incrNumOfMinesAround
    (Y < g.gridHeight - 1 ∧ X < g.gridWidth - 1) (X := X + 1) (Y := Y + 1) (fun _ => by omega)
  refine ⟨⟨hh, hw, s8⟩, ?_⟩
  rintro a b ⟨ha0, haw, hb0, hbh⟩
  have ha' : a < (g.gridWidth.toNat : Int) := by omega
  have hb' : b < (g.gridHeight.toNat : Int) := by omega
  refine (e8 a b ha0 ha' hb0 hb').trans ?_
  rw [e7 a b ha0 ha' hb0 hb', e6 a b ha0 ha' hb0 hb',
    e5 a b ha0 ha' hb0 hb', e4 a b ha0 ha' hb0 hb', e3 a b ha0 ha' hb0 hb',
    e2 a b ha0 ha' hb0 hb', e1 a b ha0 ha' hb0 hb']
  show _ = guarded (Adjacent X Y a b) Cell.incrNumOfMinesAround _
  unfold Adjacent
  have hca : a = X - 1 ∨ a = X ∨ a = X + 1 ∨ a < X - 1 ∨ X + 1 < a := by omega
  have hcb : b = Y - 1 ∨ b = Y ∨ b = Y + 1 ∨ b < Y - 1 ∨ Y + 1 < b := by omega
  rcases hca with hca | hca | hca | hca | hca <;> rcases hcb with hcb | hcb | hcb | hcb | hcb <;>
    simp (disch := omega) only [guarded_pos, guarded_neg]

theorem mem_neighbours (g : Game) (X Y a b : Int) :
    (a, b) ∈ g.neighbours X Y ↔ g.InRange a b ∧ Adjacent X Y a b := by
  simp only [Game.neighbours, neighbourOffsets, List.map_cons, List.map_nil, List.mem_filter,
    List.mem_cons, Prod.mk.injEq, List.mem_nil_iff, or_false, decide_eq_true_eq, Adjacent]
  constructor
  · rintro ⟨h1, h2⟩
    refine ⟨h2, ?_⟩
    omega
  · rintro ⟨h1, h2⟩
    refine ⟨?_, h1⟩
    omega

theorem nodup_neighbours (g : Game) (X Y : Int) : (g.neighbours X Y).Nodup := by
  unfold Game.neighbours
  apply List.Nodup.filter
  apply List.Nodup.map
  · intro d1 d2 hd
    simp only [Prod.mk.injEq] at hd
    ext <;> omega
  · decide

theorem length_neighbours_le (g : Game) (X Y : Int) : (g.neighbours X Y).length ≤ 8 := by
  unfold Game.neighbours
  exact (List.length_filter_le _ _).trans (by simp [neighbourOffsets])

theorem minesAmongNeighbours_le (g : Game) (X Y : Int) : g.minesAmongNeighbours X Y ≤ 8 :=
  (List.countP_le_length _).trans (length_neighbours_le g X Y)

theorem countP_or_eq {α : Type} [DecidableEq α] (q : α → Bool) (m : α) (hm : q m = false) :
    ∀ (l : List α), l.Nodup →
      l.countP (fun p => decide (p = m) || q p) = l.countP q + (if m ∈ l then 1 else 0) := by
  intro l
  induction l with
  | nil => simp
  | cons x xs ih =>
    intro hnd
    rw [List.nodup_cons] at hnd
    have ih1 := ih hnd.2
    by_cases hx : x = m
    · subst hx
      have : ¬ x ∈ xs := hnd.1
      simp only [this, if_false, Nat.add_zero] at ih1
      simp [List.countP_cons, hm, ih1]
    · have hmx : ¬ m = x := fun h => hx h.symm
      simp only [List.countP_cons, List.mem_cons, hx, hmx, decide_False, Bool.false_or, false_or, ih1]
      omega

/-! ## Placing one mine -/

theorem createMine_incr_spec (g : Game) (hs : g.Shaped) (X Y : Int) (hXY : g.InRange X Y) :
    ((g.createMine X Y).incrNumsAroundMine X Y).Shaped ∧
    ∀ a b : Int, g.InRange a b →
      getCell ((g.createMine X Y).incrNumsAroundMine X Y).cells a b =
        { getCell g.cells a b with
          hasMine := decide (a = X ∧ b = Y) || (getCell g.cells a b).hasMine
          minesAround := (getCell g.cells a b).minesAround +
            if Adjacent X Y a b then 1 else 0 } := by
  have hs1 : (g.createMine X Y).Shaped :=
    ⟨hs.1, hs.2.1, gridShape_modifyCell hs.2.2 _ _ _⟩
  obtain ⟨hs2, e2⟩ := incrNumsAroundMine_spec (g.createMine X Y) hs1 X Y hXY
  refine ⟨hs2, ?_⟩
  intro a b hab
  rw [e2 a b hab]
  have e1 : getCell (g.createMine X Y).cells a b =
      if a = X ∧ b = Y then (getCell g.cells a b).putMine else getCell g.cells a b :=
    getCell_modifyCell_inRange hs.2.2 _ hXY.1 hXY.2.2.1 hab.1 (by have := hab.2.1; omega)
      hab.2.2.1 (by have := hab.2.2.2; omega)
  rw [e1]
  by_cases h1 : a = X ∧ b = Y
  · obtain ⟨rfl, rfl⟩ := h1
    have h2 : ¬ Adjacent a b a b := by unfold Adjacent; omega
    simp [h2, Cell.putMine]
  · by_cases h2 : Adjacent X Y a b
    · simp [h1, h2, Cell.incrNumOfMinesAround]
    · simp [h1, h2]

theorem countP_modify_of_fixed (p : Cell → Bool) (f : Cell → Cell) (hf : ∀ c, p (f c) = p c)
    (n : Nat) (l : List Cell) : (List.modify f n l).countP p = l.countP p := by
  rw [countP_eq_sum_map, countP_eq_sum_map]
  exact congrArg List.sum (map_modify_of_fixed _ f (fun a => by simp only [hf]) n l)

theorem countCells_modifyCell_of_fixed (p : Cell → Bool) (f : Cell → Cell)
    (hf : ∀ c, p (f c) = p c) (cells : List (List Cell)) (X Y : Int) :
    countCells p (modifyCell f cells X Y) = countCells p cells := by
  unfold countCells modifyCell
  exact congrArg List.sum
    (map_modify_of_fixed _ _ (fun row => countP_modify_of_fixed p f hf _ row) _ cells)

theorem countCells_guarded_incrAt (p : Cell → Bool)
    (hf : ∀ c, p c.incrNumOfMinesAround = p c) (cond : Prop) [Decidable cond]
    (cells : List (List Cell)) (X Y : Int) :
    countCells p (guarded cond (incrAt X Y) cells) = countCells p cells := by
  unfold guarded incrAt
  split
  · exact countCells_modifyCell_of_fixed p _ hf cells X Y
  · rfl

theorem countCells_incrNumsAroundMine (p : Cell → Bool)
    (hf : ∀ c, p c.incrNumOfMinesAround = p c) (g : Game) (X Y : Int) :
    countCells p (g.incrNumsAroundMine X Y).cells = countCells p g.cells := by
  simp only [Game.incrNumsAroundMine, countCells_guarded_incrAt p hf]

theorem countMines_createMine_incr (g : Game) (hs : g.Shaped) (X Y : Int) (hXY : g.InRange X Y)
    (hno : g.doesCellHaveMine X Y = false) :
    countCells (fun c => c.hasMine) ((g.createMine X Y).incrNumsAroundMine X Y).cells =
      countCells (fun c => c.hasMine) g.cells + 1 := by
  rw [countCells_incrNumsAroundMine (fun c => c.hasMine) (fun c => rfl)]
  obtain ⟨hX0, hXw, hY0, hYh⟩ := hXY
  have := countCells_modifyCell hs.2.2 (fun c => c.hasMine) Cell.putMine X Y
    (by omega) (by omega)
  unfold Game.doesCellHaveMine at hno
  simp only [hno, Cell.putMine, if_true] at this
  simpa [Game.createMine] using this

theorem consistent_createMine_incr (g : Game) (hs : g.Shaped) (X Y : Int) (hXY : g.InRange X Y)
    (hno : g.doesCellHaveMine X Y = false) (hc : g.Consistent) :
    ((g.createMine X Y).incrNumsAroundMine X Y).Consistent := by
  obtain ⟨hs2, e2⟩ := createMine_incr_spec g hs X Y hXY
  intro a b hab
  have hab0 : g.InRange a b := hab
  have hnb : ((g.createMine X Y).incrNumsAroundMine X Y).neighbours a b = g.neighbours a b := rfl
  unfold Game.numOfMinesAroundCell Game.minesAmongNeighbours
  rw [e2 a b hab0, hnb]
  have hcong : (g.neighbours a b).countP
      (fun p => ((g.createMine X Y).incrNumsAroundMine X Y).doesCellHaveMine p.1 p.2) =
      (g.neighbours a b).countP
        (fun p => decide (p = (X, Y)) || g.doesCellHaveMine p.1 p.2) := by
    apply List.countP_congr
    rintro ⟨u, v⟩ huv
    have hin := ((mem_neighbours g a b u v).1 huv).1
    simp only [Game.doesCellHaveMine, e2 u v hin, Prod.mk.injEq]
  rw [hcong, countP_or_eq (fun p => g.doesCellHaveMine p.1 p.2) (X, Y) hno _
    (nodup_neighbours g a b)]
  have hca := hc a b hab0
  unfold Game.numOfMinesAroundCell Game.minesAmongNeighbours at hca
  have hmem : (X, Y) ∈ g.neighbours a b ↔ Adjacent X Y a b := by
    rw [mem_neighbours]
    unfold Adjacent
    constructor
    · rintro ⟨_, h⟩; omega
    · intro h; exact ⟨hXY, by omega⟩
  simp only [hmem, hca]
  split <;> simp

/-! ## Choosing the mine spots -/

theorem randomizeMineVector_of_source {env : RandomEnv} {r : Shuffle} (hr : env.source = some r)
    (l : List Int) : randomizeMineVector env l = .ok (r l) := by
  unfold RandomEnv.source at hr
  unfold randomizeMineVector
  cases h1 : env.random with
  | some r1 => rw [h1] at hr; simp only [Option.some.injEq] at hr; rw [hr]
  | none =>
    rw [h1] at hr
    simp only at hr
    rw [hr]

theorem mem_eraseRemove (value v : Int) (l : List Int) :
    v ∈ eraseRemove value l ↔ v ∈ l ∧ v ≠ value := by
  simp [eraseRemove]

theorem length_eraseRemove (value : Int) (l : List Int) (hl : l.Nodup) :
    l.length ≤ (eraseRemove value l).length + 1 := by
  induction l with
  | nil => simp [eraseRemove]
  | cons x xs ih =>
    rw [List.nodup_cons] at hl
    by_cases hx : x = value
    · subst hx
      have : eraseRemove x (x :: xs) = xs := by
        unfold eraseRemove
        rw [List.filter_cons_of_neg (by simp)]
        apply List.filter_eq_self.2
        intro a ha
        have : a ≠ x := fun h => hl.1 (h ▸ ha)
        simpa using this
      rw [this]; simp
    · have : eraseRemove value (x :: xs) = x :: eraseRemove value xs := by
        unfold eraseRemove
        rw [List.filter_cons_of_pos (by simpa using hx)]
      rw [this]
      have := ih hl.2
      simp only [List.length_cons]
      omega

theorem guarded_eraseRemove_spec (cond : Prop) [Decidable cond] (value : Int) (l : List Int)
    (hl : l.Nodup) :
    (guarded cond (eraseRemove value) l).Nodup ∧
    l.length ≤ (guarded cond (eraseRemove value) l).length + 1 ∧
    ∀ v, v ∈ guarded cond (eraseRemove value) l ↔ v ∈ l ∧ (cond → v ≠ value) := by
  by_cases hc : cond
  · rw [guarded_pos _ _ hc]
    refine ⟨List.Nodup.filter _ hl, length_eraseRemove value l hl, ?_⟩
    intro v
    rw [mem_eraseRemove]
    simp [hc]
  · rw [guarded_neg _ _ hc]
    refine ⟨hl, by omega, ?_⟩
    intro v
    simp [hc]

theorem nodup_iota (size : Int) : (iota size).Nodup := by
  unfold iota
  exact List.Nodup.map (fun a b h => by simpa using h) (List.nodup_range _)

theorem mem_iota (size v : Int) : v ∈ iota size ↔ 0 ≤ v ∧ v < size := by
  unfold iota
  simp only [List.mem_map, List.mem_range]
  constructor
  · rintro ⟨i, hi, rfl⟩
    simp only [Int.ofNat_eq_coe]
    omega
  · rintro ⟨h0, h1⟩
    exact ⟨v.toNat, by omega, by simp only [Int.ofNat_eq_coe]; omega⟩

theorem length_iota (size : Int) : (iota size).length = size.toNat := by
  simp [iota]

theorem chooseRandomMineCells_spec (env : RandomEnv) (henv : env.Valid) (g : Game)
    (X Y : Int) (hXY : g.InRange X Y) :
    ∃ L, g.chooseRandomMineCells env X Y = .ok L ∧ L.Nodup ∧
      (g.gridWidth * g.gridHeight).toNat ≤ L.length + 9 ∧
      (∀ v ∈ L, 0 ≤ v ∧ v < g.gridWidth * g.gridHeight) ∧
      ∀ a b : Int, g.InRange a b → X - 1 ≤ a → a ≤ X + 1 → Y - 1 ≤ b → b ≤ Y + 1 →
        b * g.gridWidth + a ∉ L := by
  obtain ⟨r, hr, hperm⟩ := henv
  obtain ⟨hX0, hXw, hY0, hYh⟩ := hXY
  have hp := hperm (iota (g.gridWidth * g.gridHeight))
  have n0 : (r (iota (g.gridWidth * g.gridHeight))).Nodup := hp.nodup_iff.2 (nodup_iota _)
  have l0 : (r (iota (g.gridWidth * g.gridHeight))).length = (g.gridWidth * g.gridHeight).toNat := by
    rw [hp.length_eq, length_iota]
  have m0 : ∀ v, v ∈ r (iota (g.gridWidth * g.gridHeight)) ↔
      0 ≤ v ∧ v < g.gridWidth * g.gridHeight := fun v => by rw [hp.mem_iff, mem_iota]
  obtain ⟨n1, l1, m1⟩ := guarded_eraseRemove_spec True (Y * g.gridWidth + X) _ n0
  obtain ⟨n2, l2, m2⟩ := guarded_eraseRemove_spec (X > 0) (Y * g.gridWidth + X - 1) _ n1
  obtain ⟨n3, l3, m3⟩ := guarded_eraseRemove_spec (X < g.gridWidth - 1)
    (Y * g.gridWidth + X + 1) _ n2
  obtain ⟨n4, l4, m4⟩ := guarded_eraseRemove_spec (Y > 0) ((Y - 1) * g.gridWidth + X) _ n3
  obtain ⟨n5, l5, m5⟩ := guarded_eraseRemove_spec (Y < g.gridHeight - 1)
    ((Y + 1) * g.gridWidth + X) _ n4
  obtain ⟨n6, l6, m6⟩ := guarded_eraseRemove_spec (Y > 0 ∧ X > 0)
    ((Y - 1) * g.gridWidth + X - 1) _ n5
  obtain ⟨n7, l7, m7⟩ := guarded_eraseRemove_spec (Y > 0 ∧ X < g.gridWidth - 1)
    ((Y - 1) * g.gridWidth + X + 1) _ n6
  obtain ⟨n8, l8, m8⟩ := guarded_eraseRemove_spec (Y < g.gridHeight - 1 ∧ X > 0)
    ((Y + 1) * g.gridWidth + X - 1) _ n7
  obtain ⟨n9, l9, m9⟩ := guarded_eraseRemove_spec (Y < g.gridHeight - 1 ∧ X < g.gridWidth - 1)
    ((Y + 1) * g.gridWidth + X + 1) _ n8
  refine ⟨_, ?_, n9, ?_, ?_, ?_⟩
  · unfold Game.chooseRandomMineCells
    rw [randomizeMineVector_of_source hr]
    rfl
  · omega
  · intro v hv
    rw [m9, m8, m7, m6, m5, m4, m3, m2, m1, m0] at hv
    exact hv.1.1.1.1.1.1.1.1.1
  · intro a b hab h1 h2 h3 h4 hv
    obtain ⟨ha0, haw, hb0, hbh⟩ := hab
    rw [m9, m8, m7, m6, m5, m4, m3, m2, m1, m0] at hv
    obtain ⟨⟨⟨⟨⟨⟨⟨⟨⟨_, c1⟩, c2⟩, c3⟩, c4⟩, c5⟩, c6⟩, c7⟩, c8⟩, c9⟩ := hv
    have hca : a = X - 1 ∨ a = X ∨ a = X + 1 := by omega
    have hcb : b = Y - 1 ∨ b = Y ∨ b = Y + 1 := by omega
    rcases hca with rfl | rfl | rfl <;> rcases hcb with rfl | rfl | rfl
    · exact c6 ⟨by omega, by omega⟩ (by omega)
    · exact c2 (by omega) (by omega)
    · exact c8 ⟨by omega, by omega⟩ (by omega)
    · exact c4 (by omega) (by omega)
    · exact c1 trivial rfl
    · exact c5 (by omega) (by omega)
    · exact c7 ⟨by omega, by omega⟩ (by omega)
    · exact c3 (by omega) (by omega)
    · exact c9 ⟨by omega, by omega⟩ (by omega)

/-! ## From a spot to its coordinates -/

theorem spot_coords (w h v : Int) (hv0 : 0 ≤ v) (hv : v < w * h) (hw : 0 ≤ w) :
    0 ≤ Int.tmod v w ∧ Int.tmod v w < w ∧ 0 ≤ Int.tdiv v w ∧ Int.tdiv v w < h ∧
      Int.tdiv v w * w + Int.tmod v w = v := by
  have hw0 : 0 < w := by
    by_cases h1 : 0 < w
    · exact h1
    · have : w = 0 := by omega
      subst this
      simp at hv
      omega
  rw [Int.tmod_eq_emod hv0 hw, Int.tdiv_eq_ediv hv0 hw]
  refine ⟨Int.emod_nonneg _ (by omega), Int.emod_lt_of_pos _ hw0, Int.ediv_nonneg hv0 hw, ?_, ?_⟩
  · apply Int.ediv_lt_of_lt_mul hw0
    rw [Int.mul_comm]; exact hv
  · rw [Int.mul_comm]; exact Int.ediv_add_emod v w

theorem coords_of_spot (w v a b : Int) (hv0 : 0 ≤ v) (ha0 : 0 ≤ a) (haw : a < w)
    (hv : b * w + a = v) : a = Int.tmod v w ∧ b = Int.tdiv v w := by
  have hw : 0 ≤ w := by omega
  rw [Int.tmod_eq_emod hv0 hw, Int.tdiv_eq_ediv hv0 hw]
  subst hv
  constructor
  · rw [Int.add_comm, Int.add_mul_emod_self, Int.emod_eq_of_lt ha0 haw]
  · rw [Int.add_comm, Int.add_mul_ediv_right _ _ (by omega), Int.ediv_eq_zero_of_lt ha0 haw]
    simp

/-! ## The placement loop -/

theorem sameButMines_refl (g : Game) : SameButMines g g :=
  ⟨rfl, rfl, rfl, rfl, rfl, rfl, rfl, rfl, fun _ _ _ => ⟨rfl, rfl⟩⟩

theorem sameButMines_trans {g1 g2 g3 : Game} (h12 : SameButMines g1 g2)
    (h23 : SameButMines g2 g3) : SameButMines g1 g3 := by
  refine ⟨h23.height.trans h12.height, h23.width.trans h12.width,
    h23.numOfMines.trans h12.numOfMines, h23.markedMines.trans h12.markedMines,
    h23.wronglyMarked.trans h12.wronglyMarked, h23.visibleCells.trans h12.visibleCells,
    h23.checked.trans h12.checked, h23.minesSet.trans h12.minesSet, ?_⟩
  intro a b hab
  have hab2 : g2.InRange a b := by
    unfold Game.InRange at hab ⊢
    rw [h12.height, h12.width]
    exact hab
  exact ⟨(h23.cell a b hab2).1.trans (h12.cell a b hab).1,
    (h23.cell a b hab2).2.trans (h12.cell a b hab).2⟩

theorem placeMine_step (g : Game) (S : List Int) (hP : g.Placed S) (v : Int) (hvS : v ∉ S)
    (hv0 : 0 ≤ v) (hv : v < g.gridWidth * g.gridHeight) :
    (g.placeMine v).Placed (S ++ [v]) ∧ SameButMines g (g.placeMine v) := by
  obtain ⟨hX0, hXw, hY0, hYh, hsum⟩ := spot_coords g.gridWidth g.gridHeight v hv0 hv hP.shaped.2.1
  have hXY : g.InRange (Int.tmod v g.gridWidth) (Int.tdiv v g.gridWidth) := ⟨hX0, hXw, hY0, hYh⟩
  have hno : g.doesCellHaveMine (Int.tmod v g.gridWidth) (Int.tdiv v g.gridWidth) = false := by
    cases hm : g.doesCellHaveMine (Int.tmod v g.gridWidth) (Int.tdiv v g.gridWidth)
    · rfl
    · exfalso
      have := (hP.mines _ _ hXY).1 hm
      rw [hsum] at this
      exact hvS this
  obtain ⟨hs2, e2⟩ := createMine_incr_spec g hP.shaped _ _ hXY
  refine ⟨⟨hs2, consistent_createMine_incr g hP.shaped _ _ hXY hno hP.consistent, ?_, ?_⟩,
    ⟨rfl, rfl, rfl, rfl, rfl, rfl, rfl, rfl, ?_⟩⟩
  · intro a b hab
    have hab0 : g.InRange a b := hab
    show (getCell (g.placeMine v).cells a b).hasMine = true ↔ b * g.gridWidth + a ∈ S ++ [v]
    unfold Game.placeMine
    rw [e2 a b hab0]
    have hm := hP.mines a b hab0
    unfold Game.doesCellHaveMine at hm
    simp only [Bool.or_eq_true, decide_eq_true_eq, hm, List.mem_append, List.mem_singleton]
    constructor
    · rintro (⟨rfl, rfl⟩ | h)
      · exact Or.inr hsum
      · exact Or.inl h
    · rintro (h | h)
      · exact Or.inr h
      · exact Or.inl (coords_of_spot g.gridWidth v a b hv0 hab0.1 hab0.2.1 h)
  · have := countMines_createMine_incr g hP.shaped _ _ hXY hno
    unfold Game.placeMine
    rw [this, hP.count]
    simp
  · intro a b hab
    unfold Game.placeMine
    rw [e2 a b hab]
    exact ⟨rfl, rfl⟩

theorem placeMine_foldl (l : List Int) :
    ∀ (g : Game) (S : List Int), g.Placed S → (S ++ l).Nodup →
      (∀ v ∈ l, 0 ≤ v ∧ v < g.gridWidth * g.gridHeight) →
      (l.foldl Game.placeMine g).Placed (S ++ l) ∧ SameButMines g (l.foldl Game.placeMine g) := by
  induction l with
  | nil =>
    intro g S hP _ _
    simpa using ⟨hP, sameButMines_refl g⟩
  | cons v l ih =>
    intro g S hP hnd hl
    have hvS : v ∉ S := by
      intro hin
      have := List.nodup_append.1 hnd
      exact this.2.2 hin (List.mem_cons_self _ _) 
    have hv := hl v (List.mem_cons_self _ _)
    obtain ⟨hP1, hS1⟩ := placeMine_step g S hP v hvS hv.1 hv.2
    have hnd2 : ((S ++ [v]) ++ l).Nodup := by simpa using hnd
    have hl2 : ∀ u ∈ l, 0 ≤ u ∧ u < (g.placeMine v).gridWidth * (g.placeMine v).gridHeight := by
      intro u hu
      rw [hS1.width, hS1.height]
      exact hl u (List.mem_cons_of_mem _ hu)
    obtain ⟨hP2, hS2⟩ := ih (g.placeMine v) (S ++ [v]) hP1 hnd2 hl2
    rw [List.foldl_cons]
    refine ⟨?_, sameButMines_trans hS1 hS2⟩
    simpa using hP2

theorem foldl_range_getD (F : Game → Int → Game) (l : List Int) :
    ∀ (n : Nat) (g : Game), n ≤ l.length →
      (List.range n).foldl (fun acc i => F acc (l.getD i 0)) g = (l.take n).foldl F g := by
  intro n
  induction n with
  | zero => intro g _; simp
  | succ n ih =>
    intro g hn
    rw [List.range_succ, List.foldl_append, ih g (by omega)]
    have hlt : n < l.length := by omega
    rw [List.take_succ, List.foldl_append, List.getElem?_eq_getElem hlt]
    simp [List.getElem?_eq_getElem hlt]

/-! ## `createMinesAndNums` -/

theorem getCell_initCells (h w a b : Int) : getCell (initCells h w) a b = default := by
  unfold getCell initCells
  simp only [List.getD_eq_getElem?_getD, List.getElem?_replicate]
  split
  · simp only [Option.getD_some, List.getElem?_replicate]
    split <;> rfl
  · rfl

theorem default_cell : (default : Cell) =
    { hasMine := false, isVisible := false, isMarked := false, minesAround := 0 } := rfl

theorem placed_new (h w n : Int) (hh : 0 ≤ h) (hw : 0 ≤ w) : (Game.new h w n).Placed [] := by
  refine ⟨⟨hh, hw, gridShape_initCells h w⟩, ?_, ?_, ?_⟩
  · intro a b _
    unfold Game.numOfMinesAroundCell Game.minesAmongNeighbours Game.doesCellHaveMine
    simp [Game.new, getCell_initCells, default_cell]
  · intro a b _
    simp [Game.doesCellHaveMine, Game.new, getCell_initCells, default_cell]
  · simp [Game.new, countCells_initCells, default_cell]

theorem createMinesAndNums_spec (env : RandomEnv) (henv : env.Valid) (g : Game)
    (hP : g.Placed []) (hn : g.numOfMines ≤ maxNumOfMines g.gridHeight g.gridWidth)
    (X Y : Int) (hXY : g.InRange X Y) :
    ∃ g1, g.createMinesAndNums env X Y = .ok { g1 with minesHaveBeenSet := true } ∧
      SameButMines g g1 ∧ g1.Shaped ∧ g1.Consistent ∧
      countCells (fun c => c.hasMine) g1.cells = g.numOfMines.toNat ∧
      ∀ a b : Int, g.InRange a b → X - 1 ≤ a → a ≤ X + 1 → Y - 1 ≤ b → b ≤ Y + 1 →
        g1.doesCellHaveMine a b = false := by
  obtain ⟨L, hL, hnd, hlen, hrange, hsafe⟩ := chooseRandomMineCells_spec env henv g X Y hXY
  have hle : g.numOfMines.toNat ≤ L.length := by
    unfold maxNumOfMines at hn
    rw [Int.mul_comm] at hn
    omega
  obtain ⟨hP1, hS1⟩ := placeMine_foldl (L.take g.numOfMines.toNat) g [] hP
    (by simpa using hnd.sublist (List.take_sublist _ _))
    (fun v hv => hrange v (List.mem_of_mem_take hv))
  refine ⟨_, ?_, hS1, hP1.shaped, hP1.consistent, ?_, ?_⟩
  · unfold Game.createMinesAndNums
    rw [hL]
    simp only
    rw [foldl_range_getD Game.placeMine L _ g hle]
  · rw [hP1.count]
    simp [hle]
  · intro a b hab h1 h2 h3 h4
    have hab1 : (List.foldl Game.placeMine g (L.take g.numOfMines.toNat)).InRange a b := by
      unfold Game.InRange at hab ⊢
      rw [hS1.width, hS1.height]; exact hab
    cases hm : (List.foldl Game.placeMine g (L.take g.numOfMines.toNat)).doesCellHaveMine a b
    · rfl
    · exfalso
      have := (hP1.mines a b hab1).1 hm
      rw [hS1.width] at this
      simp only [List.nil_append] at this
      exact hsafe a b hab h1 h2 h3 h4 (List.mem_of_mem_take this)

/-! ## The reveal cascade -/

theorem reveals_refl (g : Game) (hs : g.Shaped) : Reveals g g :=
  ⟨rfl, rfl, rfl, rfl, rfl, rfl, hs, fun _ _ _ => ⟨rfl, rfl, rfl, id⟩, id, rfl, le_refl _⟩

theorem Reveals.inRange {g1 g2 : Game} (h : Reveals g1 g2) {a b : Int} :
    g2.InRange a b ↔ g1.InRange a b := by
  unfold Game.InRange
  rw [h.height, h.width]

theorem reveals_trans {g1 g2 g3 : Game} (h12 : Reveals g1 g2) (h23 : Reveals g2 g3) :
    Reveals g1 g3 := by
  refine ⟨h23.height.trans h12.height, h23.width.trans h12.width,
    h23.numOfMines.trans h12.numOfMines, h23.markedMines.trans h12.markedMines,
    h23.wronglyMarked.trans h12.wronglyMarked, h23.minesSet.trans h12.minesSet, h23.shaped,
    ?_, fun h => h23.checked (h12.checked h), h23.counter.trans h12.counter,
    h23.hidden.trans h12.hidden⟩
  intro a b hab
  have h1 := h12.cell a b hab
  have h2 := h23.cell a b (h12.inRange.2 hab)
  exact ⟨h2.1.trans h1.1, h2.2.1.trans h1.2.1, h2.2.2.1.trans h1.2.2.1,
    fun hv => h2.2.2.2 (h1.2.2.2 hv)⟩

theorem getCell_reveal (g : Game) (hs : g.Shaped) (X Y : Int) (hXY : g.InRange X Y)
    (a b : Int) (hab : g.InRange a b) :
    getCell (g.reveal X Y).cells a b =
      if a = X ∧ b = Y then (getCell g.cells a b).makeVisible else getCell g.cells a b := by
  obtain ⟨ha0, haw, hb0, hbh⟩ := hab
  exact getCell_modifyCell_inRange hs.2.2 _ hXY.1 hXY.2.2.1 ha0 (by omega) hb0 (by omega)

theorem reveals_reveal (g : Game) (hs : g.Shaped) (X Y : Int) (hXY : g.InRange X Y)
    (hv : g.isCellVisible X Y = false) :
    Reveals g (g.reveal X Y) ∧ (g.reveal X Y).hiddenCount + 1 = g.hiddenCount := by
  obtain ⟨hX0, hXw, hY0, hYh⟩ := hXY
  have hcount := countCells_modifyCell hs.2.2 (fun c => !c.isVisible) Cell.makeVisible X Y
    (by have := hs.2.1; omega) (by have := hs.1; omega)
  unfold Game.isCellVisible at hv
  simp only [hv, Cell.makeVisible, Bool.not_false, Bool.not_true, if_true, Bool.false_eq_true,
    if_false, Nat.add_zero] at hcount
  have hh : (g.reveal X Y).hiddenCount + 1 = g.hiddenCount := hcount
  refine ⟨⟨rfl, rfl, rfl, rfl, rfl, rfl, ⟨hs.1, hs.2.1, gridShape_modifyCell hs.2.2 _ _ _⟩,
    ?_, id, ?_, by omega⟩, hh⟩
  · intro a b hab
    rw [getCell_reveal g hs X Y ⟨hX0, hXw, hY0, hYh⟩ a b hab]
    split
    · exact ⟨rfl, rfl, rfl, fun _ => rfl⟩
    · exact ⟨rfl, rfl, rfl, id⟩
  · show g.numOfVisibleCells + 1 + ((g.reveal X Y).hiddenCount : Int) = _
    omega

theorem andThen_ok (g : Game) (f : Game → Outcome) : (Outcome.ok g).andThen f = f g := rfl

theorem checkAround_chain (check : Game → Int → Int → Outcome) (Inv : Game → Prop)
    (V : Int → Int → Game → Prop) (w h X Y : Int)
    (hdim : ∀ g, Inv g → g.gridWidth = w ∧ g.gridHeight = h)
    (hstep : ∀ g a b, Inv g → (0 ≤ a ∧ a < w ∧ 0 ≤ b ∧ b < h) → Adjacent X Y a b →
      ∃ g', check g a b = .ok g' ∧ Inv g' ∧ V a b g' ∧ ∀ a' b', V a' b' g → V a' b' g')
    (g0 : Game) (h0 : Inv g0) (hXY : 0 ≤ X ∧ X < w ∧ 0 ≤ Y ∧ Y < h) :
    ∃ gf, checkAroundCoordinate check g0 X Y = .ok gf ∧ Inv gf ∧
      ∀ a b, (0 ≤ a ∧ a < w ∧ 0 ≤ b ∧ b < h) → Adjacent X Y a b → V a b gf := by
  have one : ∀ (g : Game) (cond : Prop) [Decidable cond] (a b : Int), Inv g →
      (cond → (0 ≤ a ∧ a < w ∧ 0 ≤ b ∧ b < h) ∧ Adjacent X Y a b) →
      ∃ g', (if cond then check g a b else Outcome.ok g) = .ok g' ∧ Inv g' ∧
        (cond → V a b g') ∧ ∀ a' b', V a' b' g → V a' b' g' := by
    intro g cond _ a b hI hc
    by_cases hcond : cond
    · obtain ⟨g', e, hI', hV, hst⟩ := hstep g a b hI (hc hcond).1 (hc hcond).2
      exact ⟨g', by rw [if_pos hcond]; exact e, hI', fun _ => hV, hst⟩
    · exact ⟨g, by rw [if_neg hcond], hI, fun hh => absurd hh hcond, fun _ _ hh => hh⟩
  obtain ⟨hX0, hXw, hY0, hYh⟩ := hXY
  obtain ⟨g1, e1, i1, v1, t1⟩ := one g0 (X > 0) (X - 1) Y h0
    (fun _ => ⟨by omega, by unfold Adjacent; omega⟩)
  have d1 := hdim g1 i1
  obtain ⟨g2, e2, i2, v2, t2⟩ := one g1 (X < g1.gridWidth - 1) (X + 1) Y i1
    (fun _ => ⟨by omega, by unfold Adjacent; omega⟩)
  have d2 := hdim g2 i2
  obtain ⟨g3, e3, i3, v3, t3⟩ := one g2 (Y > 0) X (Y - 1) i2
    (fun _ => ⟨by omega, by unfold Adjacent; omega⟩)
  have d3 := hdim g3 i3
  obtain ⟨g4, e4, i4, v4, t4⟩ := one g3 (Y < g3.gridHeight - 1) X (Y + 1) i3
    (fun _ => ⟨by omega, by unfold Adjacent; omega⟩)
  have d4 := hdim g4 i4
  obtain ⟨g5, e5, i5, v5, t5⟩ := one g4 (X > 0 ∧ Y > 0) (X - 1) (Y - 1) i4
    (fun _ => ⟨by omega, by unfold Adjacent; omega⟩)
  have d5 := hdim g5 i5
  obtain ⟨g6, e6, i6, v6, t6⟩ := one g5 (Y > 0 ∧ X < g5.gridWidth - 1) (X + 1) (Y - 1) i5
    (fun _ => ⟨by omega, by unfold Adjacent; omega⟩)
  have d6 := hdim g6 i6
  obtain ⟨g7, e7, i7, v7, t7⟩ := one g6 (Y < g6.gridHeight - 1 ∧ X > 0) (X - 1) (Y + 1) i6
    (fun _ => ⟨by omega, by unfold Adjacent; omega⟩)
  have d7 := hdim g7 i7
  obtain ⟨g8, e8, i8, v8, t8⟩ := one g7 (X < g7.gridWidth - 1 ∧ Y < g7.gridHeight - 1)
    (X + 1) (Y + 1) i7 (fun _ => ⟨by omega, by unfold Adjacent; omega⟩)
  have d0 := hdim g0 h0
  refine ⟨g8, ?_, i8, ?_⟩
  · unfold checkAroundCoordinate
    rw [e1, andThen_ok, e2, andThen_ok, e3, andThen_ok, e4, andThen_ok, e5, andThen_ok, e6,
      andThen_ok, e7, andThen_ok, e8]
  · rintro a b ⟨ha0, haw, hb0, hbh⟩ hadj
    unfold Adjacent at hadj
    have hca : a = X - 1 ∨ a = X ∨ a = X + 1 := by omega
    have hcb : b = Y - 1 ∨ b = Y ∨ b = Y + 1 := by omega
    rcases hca with rfl | rfl | rfl <;> rcases hcb with rfl | rfl | rfl
    · exact t8 _ _ (t7 _ _ (t6 _ _ (v5 (by omega))))
    · exact t8 _ _ (t7 _ _ (t6 _ _ (t5 _ _ (t4 _ _ (t3 _ _ (t2 _ _ (v1 (by omega))))))))
    · exact t8 _ _ (v7 (by omega))
    · exact t8 _ _ (t7 _ _ (t6 _ _ (t5 _ _ (t4 _ _ (v3 (by omega))))))
    · omega
    · exact t8 _ _ (t7 _ _ (t6 _ _ (t5 _ _ (v4 (by omega)))))
    · exact t8 _ _ (t7 _ _ (v6 (by omega)))
    · exact t8 _ _ (t7 _ _ (t6 _ _ (t5 _ _ (t4 _ _ (t3 _ _ (v2 (by omega)))))))
    · exact v8 (by omega)

theorem checkFuel_succ (env : RandomEnv) (fuel : Nat) (g : Game) (X Y : Int)
    (hset : g.minesHaveBeenSet = true) (hXY : g.InRange X Y) :
    checkFuel env (fuel + 1) g X Y =
      if (!(g.isCellVisible X Y) && !(g.isCellMarked X Y)) = true then
        if (g.reveal X Y).doesCellHaveMine X Y = true then
          .ok { g.reveal X Y with _checkedMine := true }
        else if (g.reveal X Y).numOfMinesAroundCell X Y = 0 then
          checkAroundCoordinate (checkFuel env fuel) (g.reveal X Y) X Y
        else .ok (g.reveal X Y)
      else .ok g := by
  obtain ⟨hX0, hXw, hY0, hYh⟩ := hXY
  rw [checkFuel, if_neg (by omega)]
  simp only [hset, Bool.not_true, Bool.false_eq_true, if_false, andThen_ok]
  rfl

theorem check_total (env : RandomEnv) (fuel : Nat) :
    ∀ (g : Game) (X Y : Int), g.Shaped → g.minesHaveBeenSet = true → g.InRange X Y →
      g.hiddenCount < fuel → ∃ g', checkFuel env fuel g X Y = .ok g' ∧ Reveals g g' := by
  induction fuel with
  | zero => intro g X Y _ _ _ hlt; omega
  | succ fuel ih =>
    intro g X Y hs hset hXY hlt
    rw [checkFuel_succ env fuel g X Y hset hXY]
    by_cases hvm : (!(g.isCellVisible X Y) && !(g.isCellMarked X Y)) = true
    · rw [if_pos hvm]
      have hv : g.isCellVisible X Y = false := by
        simp only [Bool.and_eq_true, Bool.not_eq_true'] at hvm; exact hvm.1
      obtain ⟨hR, hh⟩ := reveals_reveal g hs X Y hXY hv
      by_cases hm : (g.reveal X Y).doesCellHaveMine X Y = true
      · rw [if_pos hm]
        refine ⟨_, rfl, ?_⟩
        exact ⟨hR.height, hR.width, hR.numOfMines, hR.markedMines, hR.wronglyMarked, hR.minesSet,
          hR.shaped, hR.cell, fun _ => rfl, hR.counter, hR.hidden⟩
      · rw [if_neg hm]
        by_cases hz : (g.reveal X Y).numOfMinesAroundCell X Y = 0
        · rw [if_pos hz]
          obtain ⟨gf, e, hI, _⟩ := checkAround_chain (checkFuel env fuel)
            (fun g' => Reveals (g.reveal X Y) g') (fun _ _ _ => True)
            g.gridWidth g.gridHeight X Y
            (fun g' hI => ⟨hI.width, hI.height⟩)
            (fun g' a b hI hab _ => by
              obtain ⟨g'', e, hR'⟩ := ih g' a b hI.shaped (hI.minesSet.trans hset)
                (hI.inRange.2 hab) (by have := hI.hidden; omega)
              exact ⟨g'', e, reveals_trans hI hR', trivial, fun _ _ _ => trivial⟩)
            (g.reveal X Y) (reveals_refl _ hR.shaped) hXY
          exact ⟨gf, e, reveals_trans hR hI⟩
        · rw [if_neg hz]
          exact ⟨_, rfl, hR⟩
    · rw [if_neg hvm]
      exact ⟨g, rfl, reveals_refl g hs⟩

theorem neighbours_congr {g1 g2 : Game} (hh : g2.gridHeight = g1.gridHeight)
    (hw : g2.gridWidth = g1.gridWidth) (X Y : Int) : g2.neighbours X Y = g1.neighbours X Y := by
  unfold Game.neighbours
  apply List.filter_congr
  intro p _
  apply decide_eq_decide.2
  unfold Game.InRange
  rw [hh, hw]

theorem minesAmongNeighbours_congr {g1 g2 : Game} (hh : g2.gridHeight = g1.gridHeight)
    (hw : g2.gridWidth = g1.gridWidth)
    (hc : ∀ a b : Int, g1.InRange a b →
      (getCell g2.cells a b).hasMine = (getCell g1.cells a b).hasMine) (X Y : Int) :
    g2.minesAmongNeighbours X Y = g1.minesAmongNeighbours X Y := by
  unfold Game.minesAmongNeighbours
  rw [neighbours_congr hh hw]
  apply List.countP_congr
  rintro ⟨u, v⟩ huv
  have hin := ((mem_neighbours g1 X Y u v).1 huv).1
  simp only [Game.doesCellHaveMine, hc u v hin]

theorem Reveals.consistent {g1 g2 : Game} (h : Reveals g1 g2) (hc : g1.Consistent) :
    g2.Consistent := by
  intro a b hab
  have hab1 := h.inRange.1 hab
  rw [minesAmongNeighbours_congr h.height h.width (fun a b hab => (h.cell a b hab).1)]
  unfold Game.numOfMinesAroundCell
  rw [(h.cell a b hab1).2.2.1]
  exact hc a b hab1

theorem no_mine_around_zero (g : Game) (hc : g.Consistent) (X Y : Int) (hXY : g.InRange X Y)
    (hz : g.numOfMinesAroundCell X Y = 0) (a b : Int) (hab : g.InRange a b)
    (hadj : Adjacent X Y a b) : g.doesCellHaveMine a b = false := by
  have h1 := hc X Y hXY
  rw [hz] at h1
  have h2 : g.minesAmongNeighbours X Y = 0 := by omega
  unfold Game.minesAmongNeighbours at h2
  rw [List.countP_eq_zero] at h2
  have := h2 (a, b) ((mem_neighbours g X Y a b).2 ⟨hab, hadj⟩)
  simpa using this

theorem check_safe (env : RandomEnv) (fuel : Nat) :
    ∀ (g : Game) (X Y : Int) (g' : Game), g.Shaped → g.minesHaveBeenSet = true →
      g.InRange X Y → g.Consistent → g.NoVisibleMine → g.doesCellHaveMine X Y = false →
      g.hiddenCount < fuel → checkFuel env fuel g X Y = .ok g' →
      g'.NoVisibleMine ∧ g'._checkedMine = g._checkedMine := by
  induction fuel with
  | zero => intro g X Y g' _ _ _ _ _ _ hlt; omega
  | succ fuel ih =>
    intro g X Y g' hs hset hXY hc hnv hnm hlt hres
    rw [checkFuel_succ env fuel g X Y hset hXY] at hres
    by_cases hvm : (!(g.isCellVisible X Y) && !(g.isCellMarked X Y)) = true
    · rw [if_pos hvm] at hres
      have hv : g.isCellVisible X Y = false := by
        simp only [Bool.and_eq_true, Bool.not_eq_true'] at hvm; exact hvm.1
      obtain ⟨hR, hh⟩ := reveals_reveal g hs X Y hXY hv
      have hm3 : (g.reveal X Y).doesCellHaveMine X Y = false := by
        unfold Game.doesCellHaveMine
        rw [(hR.cell X Y hXY).1]; exact hnm
      have hnv3 : (g.reveal X Y).NoVisibleMine := by
        intro a b hab hmine
        have hab0 := hR.inRange.1 hab
        unfold Game.isCellVisible
        unfold Game.doesCellHaveMine at hmine
        rw [(hR.cell a b hab0).1] at hmine
        rw [getCell_reveal g hs X Y hXY a b hab0]
        by_cases hxy : a = X ∧ b = Y
        · obtain ⟨rfl, rfl⟩ := hxy
          unfold Game.doesCellHaveMine at hnm
          rw [hnm] at hmine
          exact absurd hmine (by decide)
        · rw [if_neg hxy]
          exact hnv a b hab0 hmine
      rw [if_neg (by rw [hm3]; decide)] at hres
      by_cases hz : (g.reveal X Y).numOfMinesAroundCell X Y = 0
      · rw [if_pos hz] at hres
        have hc3 := hR.consistent hc
        obtain ⟨gf, e, hI, _⟩ := checkAround_chain (checkFuel env fuel)
          (fun g' => Reveals (g.reveal X Y) g' ∧ g'.NoVisibleMine ∧
            g'._checkedMine = g._checkedMine) (fun _ _ _ => True)
          g.gridWidth g.gridHeight X Y
          (fun g' hI => ⟨hI.1.width, hI.1.height⟩)
          (fun g1 a b hI hab hadj => by
            obtain ⟨hI1, hI2, hI3⟩ := hI
            have hab1 := hI1.inRange.2 hab
            have hlt1 : g1.hiddenCount < fuel := by have := hI1.hidden; omega
            obtain ⟨g2, e, hR'⟩ := check_total env fuel g1 a b hI1.shaped
              (hI1.minesSet.trans hset) hab1 hlt1
            have hnm1 : g1.doesCellHaveMine a b = false := by
              unfold Game.doesCellHaveMine
              rw [(hI1.cell a b hab).1]
              exact no_mine_around_zero _ hc3 X Y hXY hz a b hab hadj
            obtain ⟨k1, k2⟩ := ih g1 a b g2 hI1.shaped (hI1.minesSet.trans hset) hab1
              (hI1.consistent hc3) hI2 hnm1 hlt1 e
            exact ⟨g2, e, ⟨reveals_trans hI1 hR', k1, k2.trans hI3⟩, trivial, fun _ _ _ => trivial⟩)
          (g.reveal X Y) ⟨reveals_refl _ hR.shaped, hnv3, rfl⟩ hXY
        rw [e] at hres
        cases hres
        exact ⟨hI.2.1, hI.2.2⟩
      · rw [if_neg hz] at hres
        cases hres
        exact ⟨hnv3, rfl⟩
    · rw [if_neg hvm] at hres
      cases hres
      exact ⟨hnv, rfl⟩

/-! ## Counting by coordinates -/

theorem grid_tabulate {h w : Nat} {cells : List (List Cell)} (hs : GridShape h w cells) :
    cells = (List.range h).map
      (fun (i : Nat) => (List.range w).map
        (fun (j : Nat) => getCell cells (Int.ofNat j) (Int.ofNat i))) := by
  have hl := gridShape_length hs
  apply List.ext_getElem
  · simp [hl]
  · intro i hi1 hi2
    have hrow := gridShape_row hs hi1
    simp only [List.getElem_map, List.getElem_range]
    apply List.ext_getElem
    · simp [hrow]
    · intro j hj1 hj2
      simp only [List.getElem_map, List.getElem_range]
      obtain ⟨hy, hx, hget⟩ := getCell_eq_getElem hs (Int.ofNat j) (Int.ofNat i)
        (by simp; omega) (by simp; omega)
      rw [hget]
      simp

theorem countCells_congr {h w : Nat} {c1 c2 : List (List Cell)} (hs1 : GridShape h w c1)
    (hs2 : GridShape h w c2) (p q : Cell → Bool)
    (hpq : ∀ a b : Int, 0 ≤ a → a < w → 0 ≤ b → b < h →
      p (getCell c1 a b) = q (getCell c2 a b)) :
    countCells p c1 = countCells q c2 := by
  rw [grid_tabulate hs1, grid_tabulate hs2]
  unfold countCells
  rw [List.map_map, List.map_map]
  congr 1
  apply List.map_congr_left
  intro i hi
  simp only [Function.comp, List.countP_map]
  apply List.countP_congr
  intro j hj
  rw [List.mem_range] at hi hj
  simp only [Function.comp]
  rw [hpq (Int.ofNat j) (Int.ofNat i) (by simp) (by simp; omega) (by simp) (by simp; omega)]

theorem countCells_add_not {h w : Nat} {cells : List (List Cell)} (hs : GridShape h w cells)
    (p : Cell → Bool) :
    countCells p cells + countCells (fun c => !p c) cells = h * w := by
  unfold countCells GridShape at *
  induction cells generalizing h with
  | nil =>
    cases h with
    | zero => simp
    | succ h => simp [List.replicate_succ] at hs
  | cons r rs ih =>
    cases h with
    | zero => simp at hs
    | succ h =>
      simp only [List.map_cons, List.replicate_succ, List.cons.injEq] at hs
      have := ih hs.2
      have hr := List.length_eq_countP_add_countP p r
      simp only [List.map_cons, List.sum_cons]
      have e : List.countP (fun c => !p c) r = List.countP (fun a => decide ¬p a = true) r := by
        apply List.countP_congr; intro c _; simp
      rw [e]
      rw [Nat.succ_mul]
      omega

/-! ## The invariant of the reachable states -/

theorem inv_new (h w n : Int) (hargs : ValidArgs h w n) : (Game.new h w n).Inv := by
  have hP := placed_new h w n hargs.1 hargs.2.1
  refine ⟨hP.shaped, hargs, hP.consistent, ?_, ?_, ?_, ?_, ?_, ?_⟩
  · show (0 : Int) + ((countCells (fun c => !c.isVisible) (initCells h w) : Nat) : Int) = h * w
    rw [countCells_initCells]
    obtain ⟨h1, h2, _⟩ := hargs
    simp [default_cell, Int.toNat_of_nonneg h1, Int.toNat_of_nonneg h2]
  · show (0 : Int) = ((countCells (fun c => c.isMarked && c.hasMine) (initCells h w) : Nat) : Int)
    rw [countCells_initCells]
    simp [default_cell]
  · show (0 : Int) = ((countCells (fun c => c.isMarked && !c.hasMine) (initCells h w) : Nat) : Int)
    rw [countCells_initCells]
    simp [default_cell]
  · intro h1; exact absurd h1 (by simp [Game.new])
  · intro _; rfl
  · intro _ a b _ hm
    simp [Game.doesCellHaveMine, Game.new, getCell_initCells, default_cell] at hm

theorem checkFuel_outOfRange (env : RandomEnv) (fuel : Nat) (g : Game) (X Y : Int)
    (hXY : ¬ g.InRange X Y) : (checkFuel env fuel g X Y).state = g := by
  cases fuel with
  | zero => rfl
  | succ fuel =>
    rw [checkFuel, if_pos (by unfold Game.InRange at hXY; omega)]
    rfl

theorem checkFuel_first (env : RandomEnv) (fuel : Nat) (g g1 : Game) (X Y : Int)
    (hset : g.minesHaveBeenSet = false) (hXY : g.InRange X Y)
    (hcreate : g.createMinesAndNums env X Y = .ok g1) (hset1 : g1.minesHaveBeenSet = true)
    (hh : g1.gridHeight = g.gridHeight) (hw : g1.gridWidth = g.gridWidth) :
    checkFuel env (fuel + 1) g X Y = checkFuel env (fuel + 1) g1 X Y := by
  obtain ⟨hX0, hXw, hY0, hYh⟩ := hXY
  have hng : ¬ (X < 0 ∨ Y < 0 ∨ X ≥ g.gridWidth ∨ Y ≥ g.gridHeight) := by omega
  have hng1 : ¬ (X < 0 ∨ Y < 0 ∨ X ≥ g1.gridWidth ∨ Y ≥ g1.gridHeight) := by
    rw [hh, hw]; exact hng
  conv_lhs => rw [checkFuel, if_neg hng]
  conv_rhs => rw [checkFuel, if_neg hng1]
  simp only [hset, hset1, Bool.not_true, Bool.not_false, Bool.false_eq_true, if_true, if_false,
    hcreate, andThen_ok]

theorem hiddenCount_new (h w n : Int) (hargs : ValidArgs h w n) :
    ((Game.new h w n).hiddenCount : Int) = h * w := by
  have := (inv_new h w n hargs).visible
  simpa [Game.new] using this

theorem createMines_new (env : RandomEnv) (henv : env.Valid) (h w n : Int)
    (hargs : ValidArgs h w n) (X Y : Int) (hXY : (Game.new h w n).InRange X Y) :
    ∃ g1, (Game.new h w n).createMinesAndNums env X Y = .ok g1 ∧ g1.Inv ∧
      g1.minesHaveBeenSet = true ∧ g1.gridHeight = h ∧ g1.gridWidth = w ∧ g1.numOfMines = n ∧
      g1._checkedMine = false ∧ g1.hiddenCount = (Game.new h w n).hiddenCount ∧
      (∀ a b : Int, g1.InRange a b →
        g1.isCellVisible a b = false ∧ g1.isCellMarked a b = false) ∧
      ∀ a b : Int, g1.InRange a b → X - 1 ≤ a → a ≤ X + 1 → Y - 1 ≤ b → b ≤ Y + 1 →
        g1.doesCellHaveMine a b = false := by
  have hP := placed_new h w n hargs.1 hargs.2.1
  have hI := inv_new h w n hargs
  have hn0 : 0 ≤ n := by have := hargs.2.2.2; unfold minNumOfMines at this; omega
  have hn1 : n ≤ maxNumOfMines h w := by have := hargs.2.2.1; omega
  obtain ⟨g1, hc, hS, hs1, hc1, hcount, hsafe⟩ :=
    createMinesAndNums_spec env henv (Game.new h w n) hP hn1 X Y hXY
  have hcell : ∀ a b : Int, (Game.new h w n).InRange a b →
      (getCell g1.cells a b).isVisible = false ∧ (getCell g1.cells a b).isMarked = false := by
    intro a b hab
    have := hS.cell a b hab
    simpa [Game.new, getCell_initCells, default_cell] using this
  have hdimH : g1.gridHeight = h := hS.height
  have hdimW : g1.gridWidth = w := hS.width
  have hsh : GridShape h.toNat w.toNat g1.cells := by
    have := hs1.2.2; rw [hdimH, hdimW] at this; exact this
  have hin : ∀ a b : Int, 0 ≤ a → a < (w.toNat : Int) → 0 ≤ b → b < (h.toNat : Int) →
      (Game.new h w n).InRange a b := by
    intro a b h1 h2 h3 h4
    exact ⟨h1, by show a < w; omega, h3, by show b < h; omega⟩
  have hhid : g1.hiddenCount = (Game.new h w n).hiddenCount := by
    apply countCells_congr hsh (gridShape_initCells h w)
    intro a b h1 h2 h3 h4
    rw [(hcell a b (hin a b h1 h2 h3 h4)).1]
    simp [getCell_initCells, default_cell]
  have hmm : g1.markedMineCount = 0 := by
    unfold Game.markedMineCount
    rw [countCells_eq_zero_iff, forall_cells_iff hsh]
    intro a b h1 h2 h3 h4
    rw [(hcell a b (hin a b h1 h2 h3 h4)).2]
    simp
  have hwm : g1.wronglyMarkedCount = 0 := by
    unfold Game.wronglyMarkedCount
    rw [countCells_eq_zero_iff, forall_cells_iff hsh]
    intro a b h1 h2 h3 h4
    rw [(hcell a b (hin a b h1 h2 h3 h4)).2]
    simp
  have hinr : ∀ a b : Int, g1.InRange a b → (Game.new h w n).InRange a b := by
    intro a b hab
    unfold Game.InRange at hab ⊢
    rw [hdimH, hdimW] at hab
    exact hab
  refine ⟨_, hc, ⟨hs1, ?_, hc1, ?_, ?_, ?_, ?_, ?_, ?_⟩, rfl, hdimH, hdimW, hS.numOfMines,
    hS.checked, hhid, ?_, ?_⟩
  · show ValidArgs g1.gridHeight g1.gridWidth g1.numOfMines
    rw [hdimH, hdimW, hS.numOfMines]; exact hargs
  · show g1.numOfVisibleCells + (g1.hiddenCount : Int) = g1.gridHeight * g1.gridWidth
    rw [hhid, hS.visibleCells, hdimH, hdimW]
    exact hI.visible
  · show g1.numOfMarkedMines = (g1.markedMineCount : Int)
    rw [hmm, hS.markedMines]; rfl
  · show g1.numOfWronglyMarkedCells = (g1.wronglyMarkedCount : Int)
    rw [hwm, hS.wronglyMarked]; rfl
  · intro _
    show ((countCells (fun c => c.hasMine) g1.cells : Nat) : Int) = g1.numOfMines
    rw [hcount, hS.numOfMines]
    show ((n.toNat : Nat) : Int) = n
    omega
  · intro hf
    exact absurd hf (by simp)
  · intro _ a b hab _
    exact (hcell a b (hinr a b hab)).1
  · intro a b hab
    exact hcell a b (hinr a b hab)
  · intro a b hab
    exact hsafe a b (hinr a b hab)

theorem Reveals.counts {g1 g2 : Game} (h : Reveals g1 g2) (hs : g1.Shaped) :
    g2.mineCount = g1.mineCount ∧ g2.markedMineCount = g1.markedMineCount ∧
      g2.wronglyMarkedCount = g1.wronglyMarkedCount := by
  have hs2 : GridShape g1.gridHeight.toNat g1.gridWidth.toNat g2.cells := by
    have := h.shaped.2.2; rw [h.height, h.width] at this; exact this
  have hin : ∀ a b : Int, 0 ≤ a → a < (g1.gridWidth.toNat : Int) → 0 ≤ b →
      b < (g1.gridHeight.toNat : Int) → g1.InRange a b := by
    intro a b h1 h2 h3 h4
    have := hs.1; have := hs.2.1
    exact ⟨h1, by omega, h3, by omega⟩
  refine ⟨?_, ?_, ?_⟩
  · apply countCells_congr hs2 hs.2.2
    intro a b h1 h2 h3 h4
    exact (h.cell a b (hin a b h1 h2 h3 h4)).1
  · apply countCells_congr hs2 hs.2.2
    intro a b h1 h2 h3 h4
    have := h.cell a b (hin a b h1 h2 h3 h4)
    simp only [this.1, this.2.1]
  · apply countCells_congr hs2 hs.2.2
    intro a b h1 h2 h3 h4
    have := h.cell a b (hin a b h1 h2 h3 h4)
    simp only [this.1, this.2.1]

theorem check_noVisibleMine (env : RandomEnv) (fuel : Nat) (g : Game) (X Y : Int) (g' : Game)
    (hs : g.Shaped) (hset : g.minesHaveBeenSet = true) (hXY : g.InRange X Y)
    (hc : g.Consistent) (hnv : g._checkedMine = false → g.NoVisibleMine)
    (hlt : g.hiddenCount < fuel) (hres : checkFuel env fuel g X Y = .ok g') :
    g'._checkedMine = false → g'.NoVisibleMine := by
  intro hc'
  obtain ⟨g2, e2, hR⟩ := check_total env fuel g X Y hs hset hXY hlt
  rw [hres] at e2
  cases e2
  have hcg : g._checkedMine = false := by
    cases hcm : g._checkedMine
    · rfl
    · have := hR.checked hcm
      rw [hc'] at this
      exact absurd this (by decide)
  cases hm : g.doesCellHaveMine X Y
  · exact (check_safe env fuel g X Y g' hs hset hXY hc (hnv hcg) hm hlt hres).1
  · cases fuel with
    | zero => omega
    | succ fuel =>
      rw [checkFuel_succ env fuel g X Y hset hXY] at hres
      by_cases hvm : (!(g.isCellVisible X Y) && !(g.isCellMarked X Y)) = true
      · rw [if_pos hvm] at hres
        have hv : g.isCellVisible X Y = false := by
          simp only [Bool.and_eq_true, Bool.not_eq_true'] at hvm; exact hvm.1
        obtain ⟨hR3, _⟩ := reveals_reveal g hs X Y hXY hv
        have hm3 : (g.reveal X Y).doesCellHaveMine X Y = true := by
          unfold Game.doesCellHaveMine
          rw [(hR3.cell X Y hXY).1]; exact hm
        rw [if_pos hm3] at hres
        cases hres
        exact absurd hc' (by simp)
      · rw [if_neg hvm] at hres
        cases hres
        exact hnv hcg

theorem inv_check (env : RandomEnv) (fuel : Nat) (g : Game) (X Y : Int) (hI : g.Inv)
    (hset : g.minesHaveBeenSet = true) (hXY : g.InRange X Y) (hlt : g.hiddenCount < fuel) :
    ∃ g', checkFuel env fuel g X Y = .ok g' ∧ Reveals g g' ∧ g'.Inv := by
  obtain ⟨g', e, hR⟩ := check_total env fuel g X Y hI.shaped hset hXY hlt
  obtain ⟨k1, k2, k3⟩ := hR.counts hI.shaped
  refine ⟨g', e, hR, hR.shaped, ?_, hR.consistent hI.consistent, ?_, ?_, ?_, ?_, ?_,
    check_noVisibleMine env fuel g X Y g' hI.shaped hset hXY hI.consistent hI.noVisibleMine
      hlt e⟩
  · rw [hR.height, hR.width, hR.numOfMines]; exact hI.args
  · rw [hR.counter, hR.height, hR.width]; exact hI.visible
  · rw [hR.markedMines, k2]; exact hI.markedMines
  · rw [hR.wronglyMarked, k3]; exact hI.wronglyMarked
  · intro _
    rw [k1, hR.numOfMines]; exact hI.mines hset
  · intro hf
    rw [hR.minesSet, hset] at hf
    exact absurd hf (by decide)

/-! ## Marking -/

theorem toggle_spec (g : Game) (hs : g.Shaped) (X Y : Int) (hXY : g.InRange X Y)
    (f : Cell → Cell) (hf : ∀ c, f c = { c with isMarked := (f c).isMarked })
    (hflip : (f (getCell g.cells X Y)).isMarked = !(getCell g.cells X Y).isMarked) :
    GridShape g.gridHeight.toNat g.gridWidth.toNat (modifyCell f g.cells X Y) ∧
    (∀ a b : Int, g.InRange a b → getCell (modifyCell f g.cells X Y) a b =
      if a = X ∧ b = Y then
        { getCell g.cells a b with isMarked := !(getCell g.cells a b).isMarked }
      else getCell g.cells a b) ∧
    countCells (fun c => !c.isVisible) (modifyCell f g.cells X Y) = g.hiddenCount ∧
    countCells (fun c => c.hasMine) (modifyCell f g.cells X Y) = g.mineCount ∧
    (countCells (fun c => c.isMarked && c.hasMine) (modifyCell f g.cells X Y) : Int) =
      g.markedMineCount + (if g.doesCellHaveMine X Y = true then
        (if g.isCellMarked X Y = true then -1 else 1) else 0) ∧
    (countCells (fun c => c.isMarked && !c.hasMine) (modifyCell f g.cells X Y) : Int) =
      g.wronglyMarkedCount + (if g.doesCellHaveMine X Y = true then 0 else
        (if g.isCellMarked X Y = true then -1 else 1)) := by
  obtain ⟨hX0, hXw, hY0, hYh⟩ := hXY
  have hh := hs.1
  have hw := hs.2.1
  have hvis : ∀ c, (f c).isVisible = c.isVisible := fun c => by rw [hf c]
  have hmine : ∀ c, (f c).hasMine = c.hasMine := fun c => by rw [hf c]
  refine ⟨gridShape_modifyCell hs.2.2 f X Y, ?_, ?_, ?_, ?_, ?_⟩
  · rintro a b ⟨ha0, haw, hb0, hbh⟩
    rw [getCell_modifyCell_inRange hs.2.2 f hX0 hY0 ha0 (by omega) hb0 (by omega)]
    by_cases hab : a = X ∧ b = Y
    · obtain ⟨rfl, rfl⟩ := hab
      simp only [and_self, if_true]
      rw [hf, hflip]
    · rw [if_neg hab, if_neg hab]
  · exact countCells_modifyCell_of_fixed _ f (fun c => by simp only [hvis]) g.cells X Y
  · exact countCells_modifyCell_of_fixed _ f (fun c => by simp only [hmine]) g.cells X Y
  · have := countCells_modifyCell hs.2.2 (fun c => c.isMarked && c.hasMine) f X Y
      (by omega) (by omega)
    simp only [hmine, hflip] at this
    unfold Game.markedMineCount Game.doesCellHaveMine Game.isCellMarked
    cases h1 : (getCell g.cells X Y).isMarked <;> cases h2 : (getCell g.cells X Y).hasMine <;>
      simp [h1, h2] at this ⊢ <;> omega
  · have := countCells_modifyCell hs.2.2 (fun c => c.isMarked && !c.hasMine) f X Y
      (by omega) (by omega)
    simp only [hmine, hflip] at this
    unfold Game.wronglyMarkedCount Game.doesCellHaveMine Game.isCellMarked
    cases h1 : (getCell g.cells X Y).isMarked <;> cases h2 : (getCell g.cells X Y).hasMine <;>
      simp [h1, h2] at this ⊢ <;> omega

theorem markInputCoordinates_spec (g : Game) (hs : g.Shaped) (hset : g.minesHaveBeenSet = true)
    (X Y : Int) (hXY : g.InRange X Y) :
    ∃ g', g.markInputCoordinates X Y = .ok g' ∧ g'.Shaped ∧
      g'.gridHeight = g.gridHeight ∧ g'.gridWidth = g.gridWidth ∧
      g'.numOfMines = g.numOfMines ∧ g'.numOfVisibleCells = g.numOfVisibleCells ∧
      g'._checkedMine = g._checkedMine ∧ g'.minesHaveBeenSet = g.minesHaveBeenSet ∧
      (∀ a b : Int, g.InRange a b → getCell g'.cells a b =
        if a = X ∧ b = Y then
          { getCell g.cells a b with isMarked := !(getCell g.cells a b).isMarked }
        else getCell g.cells a b) ∧
      g'.numOfMarkedMines = g.numOfMarkedMines + (if g.doesCellHaveMine X Y = true then
        (if g.isCellMarked X Y = true then -1 else 1) else 0) ∧
      g'.numOfWronglyMarkedCells = g.numOfWronglyMarkedCells +
        (if g.doesCellHaveMine X Y = true then 0 else
          (if g.isCellMarked X Y = true then -1 else 1)) ∧
      g'.hiddenCount = g.hiddenCount ∧ g'.mineCount = g.mineCount ∧
      (g'.markedMineCount : Int) = g.markedMineCount + (if g.doesCellHaveMine X Y = true then
        (if g.isCellMarked X Y = true then -1 else 1) else 0) ∧
      (g'.wronglyMarkedCount : Int) = g.wronglyMarkedCount +
        (if g.doesCellHaveMine X Y = true then 0 else
          (if g.isCellMarked X Y = true then -1 else 1)) := by
  have hng : ¬ (X < 0 ∨ Y < 0 ∨ X ≥ g.gridWidth ∨ Y ≥ g.gridHeight) := by
    obtain ⟨hX0, hXw, hY0, hYh⟩ := hXY; omega
  unfold Game.markInputCoordinates
  rw [if_neg hng]
  simp only [hset, Bool.not_true, Bool.false_eq_true, if_false]
  cases hm : g.isCellMarked X Y
  · have hm' : (getCell g.cells X Y).isMarked = false := hm
    obtain ⟨t1, t2, t3, t4, t5, t6⟩ := toggle_spec g hs X Y hXY Cell.markCell (fun c => rfl)
      (by rw [hm']; rfl)
    have hmine : (g.markCell X Y).doesCellHaveMine X Y = g.doesCellHaveMine X Y := by
      unfold Game.doesCellHaveMine Game.markCell
      rw [t2 X Y hXY]; simp
    simp only [Bool.false_eq_true, if_false, hmine]
    rw [hm] at t5 t6
    cases hmn : g.doesCellHaveMine X Y
    · simp only [Bool.false_eq_true, if_false]
      rw [hmn] at t5 t6
      exact ⟨_, rfl, ⟨hs.1, hs.2.1, t1⟩, rfl, rfl, rfl, rfl, rfl, hset, t2, by simp [Game.markCell],
        rfl, t3, t4, t5, t6⟩
    · simp only [if_true]
      rw [hmn] at t5 t6
      exact ⟨_, rfl, ⟨hs.1, hs.2.1, t1⟩, rfl, rfl, rfl, rfl, rfl, hset, t2, rfl,
        by simp [Game.markCell], t3, t4, t5, t6⟩
  · have hm' : (getCell g.cells X Y).isMarked = true := hm
    obtain ⟨t1, t2, t3, t4, t5, t6⟩ := toggle_spec g hs X Y hXY Cell.unmarkCell (fun c => rfl)
      (by rw [hm']; rfl)
    have hmine : (g.unmarkCell X Y).doesCellHaveMine X Y = g.doesCellHaveMine X Y := by
      unfold Game.doesCellHaveMine Game.unmarkCell
      rw [t2 X Y hXY]; simp
    simp only [if_true, hmine]
    rw [hm] at t5 t6
    cases hmn : g.doesCellHaveMine X Y
    · simp only [Bool.false_eq_true, if_false]
      rw [hmn] at t5 t6
      exact ⟨_, rfl, ⟨hs.1, hs.2.1, t1⟩, rfl, rfl, rfl, rfl, rfl, hset, t2,
        by simp [Game.unmarkCell], by simp [Game.unmarkCell]; rfl, t3, t4, t5, t6⟩
    · simp only [if_true]
      rw [hmn] at t5 t6
      exact ⟨_, rfl, ⟨hs.1, hs.2.1, t1⟩, rfl, rfl, rfl, rfl, rfl, hset, t2,
        by simp [Game.unmarkCell]; rfl, by simp [Game.unmarkCell], t3, t4, t5, t6⟩

theorem mark_failing (g : Game) (X Y : Int)
    (h : ¬ g.InRange X Y ∨ g.minesHaveBeenSet = false) :
    (g.markInputCoordinates X Y).state = g := by
  unfold Game.markInputCoordinates
  by_cases hr : X < 0 ∨ Y < 0 ∨ X ≥ g.gridWidth ∨ Y ≥ g.gridHeight
  · rw [if_pos hr]; rfl
  · rw [if_neg hr]
    rcases h with h | h
    · exact absurd (show g.InRange X Y by unfold Game.InRange; omega) h
    · simp only [h, Bool.not_false, if_true]; rfl

theorem inv_mark (g : Game) (X Y : Int) (hI : g.Inv) : (g.markInputCoordinates X Y).state.Inv := by
  by_cases hXY : g.InRange X Y
  · cases hset : g.minesHaveBeenSet
    · rw [mark_failing g X Y (Or.inr hset)]; exact hI
    · obtain ⟨g', e, hs', e1, e2, e3, e4, e5, e6, hcell, e7, e8, c1, c2, c3, c4⟩ :=
        markInputCoordinates_spec g hI.shaped hset X Y hXY
      rw [e]
      show g'.Inv
      have hin : ∀ a b : Int, g'.InRange a b → g.InRange a b := by
        intro a b hab
        unfold Game.InRange at hab ⊢
        rw [e1, e2] at hab; exact hab
      have hmine : ∀ a b : Int, g.InRange a b →
          (getCell g'.cells a b).hasMine = (getCell g.cells a b).hasMine := by
        intro a b hab
        rw [hcell a b hab]; split <;> rfl
      refine ⟨hs', ?_, ?_, ?_, ?_, ?_, ?_, ?_, ?_⟩
      · rw [e1, e2, e3]; exact hI.args
      · intro a b hab
        rw [minesAmongNeighbours_congr e1 e2 hmine]
        unfold Game.numOfMinesAroundCell
        rw [hcell a b (hin a b hab)]
        have := hI.consistent a b (hin a b hab)
        unfold Game.numOfMinesAroundCell at this
        split <;> exact this
      · rw [e4, c1, e1, e2]; exact hI.visible
      · rw [e7, c3, hI.markedMines]
      · rw [e8, c4, hI.wronglyMarked]
      · intro _
        rw [c2, e3]; exact hI.mines hset
      · intro hf
        rw [e6, hset] at hf
        exact absurd hf (by decide)
      · intro hc a b hab hm
        rw [e5] at hc
        have hab0 := hin a b hab
        unfold Game.doesCellHaveMine at hm
        rw [hmine a b hab0] at hm
        have := hI.noVisibleMine hc a b hab0 hm
        unfold Game.isCellVisible at this ⊢
        rw [hcell a b hab0]
        split <;> exact this
  · rw [mark_failing g X Y (Or.inl hXY)]; exact hI

theorem inv_checkInput (env : RandomEnv) (henv : env.Valid) (g : Game) (X Y : Int)
    (hI : g.Inv) : (g.checkInputCoordinates env X Y).state.Inv := by
  unfold Game.checkInputCoordinates
  by_cases hXY : g.InRange X Y
  · cases hset : g.minesHaveBeenSet
    · have hfresh := hI.fresh hset
      have hXY' : (Game.new g.gridHeight g.gridWidth g.numOfMines).InRange X Y := hXY
      obtain ⟨g1, hc, hI1, hset1, hh1, hw1, _, _, hhid, _, _⟩ :=
        createMines_new env henv _ _ _ hI.args X Y hXY'
      rw [← hfresh] at hc hhid
      rw [checkFuel_first env _ g g1 X Y hset hXY hc hset1 hh1 hw1]
      obtain ⟨g', e, _, hI'⟩ := inv_check env (g.hiddenCount + 1) g1 X Y hI1 hset1
        (by unfold Game.InRange at hXY ⊢; rw [hh1, hw1]; exact hXY) (by omega)
      rw [e]; exact hI'
    · obtain ⟨g', e, _, hI'⟩ := inv_check env (g.hiddenCount + 1) g X Y hI hset hXY (by omega)
      rw [e]; exact hI'
  · rw [checkFuel_outOfRange env _ g X Y hXY]; exact hI

theorem reachable_inv (env : RandomEnv) (henv : env.Valid) (g : Game) (hr : Reachable env g) :
    g.Inv := by
  induction hr with
  | new h w n hargs => exact inv_new h w n hargs
  | step g m _ ih =>
    cases m with
    | check X Y => exact inv_checkInput env henv g X Y ih
    | mark X Y => exact inv_mark g X Y ih

/-! ## The first check -/

theorem first_check (env : RandomEnv) (henv : env.Valid) (h w n : Int)
    (hargs : ValidArgs h w n) (X Y : Int) (hXY : (Game.new h w n).InRange X Y) :
    ∃ g1 g', (Game.new h w n).createMinesAndNums env X Y = .ok g1 ∧
      (Game.new h w n).checkInputCoordinates env X Y = .ok g' ∧
      checkFuel env (g1.hiddenCount + 1) g1 X Y = .ok g' ∧
      g1.Inv ∧ g1.minesHaveBeenSet = true ∧ g1.gridHeight = h ∧ g1.gridWidth = w ∧
      g1.numOfMines = n ∧ g1._checkedMine = false ∧
      (∀ a b : Int, g1.InRange a b →
        g1.isCellVisible a b = false ∧ g1.isCellMarked a b = false) ∧
      (∀ a b : Int, g1.InRange a b → X - 1 ≤ a → a ≤ X + 1 → Y - 1 ≤ b → b ≤ Y + 1 →
        g1.doesCellHaveMine a b = false) ∧
      Reveals g1 g' ∧ g'.Inv := by
  obtain ⟨g1, hc, hI1, hset1, hh1, hw1, hn1, hck1, hhid, hcells, hsafe⟩ :=
    createMines_new env henv h w n hargs X Y hXY
  have hXY1 : g1.InRange X Y := by
    unfold Game.InRange at hXY ⊢; rw [hh1, hw1]; exact hXY
  obtain ⟨g', e, hR, hI'⟩ := inv_check env (g1.hiddenCount + 1) g1 X Y hI1 hset1 hXY1 (by omega)
  refine ⟨g1, g', hc, ?_, e, hI1, hset1, hh1, hw1, hn1, hck1, hcells, hsafe, hR, hI'⟩
  unfold Game.checkInputCoordinates
  rw [checkFuel_first env _ _ g1 X Y rfl hXY hc hset1 hh1 hw1, ← hhid]
  exact e

/-! ## The claims -/

/-- C1: on a validly constructed game on which no mines are placed yet, with a
random source that returns a permutation, the first
`checkInputCoordinates(x, y)` with `(x, y)` in range returns, and afterwards
exactly `n` cells of the grid (which keeps its `h` rows of `w` cells) have a
mine and no cell `(a, b)` of the grid with `|a - x| ≤ 1` and `|b - y| ≤ 1` has
one. -/
theorem first_check_places_mines (env : RandomEnv) (henv : env.Valid) (h w n : Int)
    (hargs : ValidArgs h w n) (x y : Int) (hxy : (Game.new h w n).InRange x y) :
    ∃ g', (Game.new h w n).checkInputCoordinates env x y = .ok g' ∧
      g'.Shaped ∧ g'.gridHeight = h ∧ g'.gridWidth = w ∧
      (g'.mineCount : Int) = n ∧
      ∀ a b : Int, g'.InRange a b → x - 1 ≤ a → a ≤ x + 1 → y - 1 ≤ b → b ≤ y + 1 →
        g'.doesCellHaveMine a b = false := by
  obtain ⟨g1, g', _, hres, _, hI1, hset1, hh1, hw1, hn1, _, _, hsafe, hR, hI'⟩ :=
    first_check env henv h w n hargs x y hxy
  refine ⟨g', hres, hI'.shaped, hR.height.trans hh1, hR.width.trans hw1, ?_, ?_⟩
  · rw [hI'.mines (hR.minesSet.trans hset1), hR.numOfMines, hn1]
  · intro a b hab h1 h2 h3 h4
    have hab1 := hR.inRange.1 hab
    unfold Game.doesCellHaveMine
    rw [(hR.cell a b hab1).1]
    exact hsafe a b hab1 h1 h2 h3 h4

/-- The source that reverses the vector is a valid random source. -/
theorem valid_reverse : reverseEnv.Valid :=
  ⟨List.reverse, rfl, fun l => List.reverse_perm l⟩

/-- C1 at a 4x4 game with 7 mines, first check at `(0, 0)`, the shuffle
reversing the vector. -/
theorem first_check_places_mines_witness :
    RandomEnv.Valid reverseEnv ∧ ValidArgs 4 4 7 ∧
      (Game.new 4 4 7).InRange 0 0 ∧
      ∃ g', (Game.new 4 4 7).checkInputCoordinates reverseEnv 0 0 = .ok g' ∧
        g'.Shaped ∧ g'.gridHeight = 4 ∧ g'.gridWidth = 4 ∧
        (g'.mineCount : Int) = 7 ∧
        ∀ a b : Int, g'.InRange a b → 0 - 1 ≤ a → a ≤ 0 + 1 → 0 - 1 ≤ b → b ≤ 0 + 1 →
          g'.doesCellHaveMine a b = false :=
  ⟨valid_reverse, by decide, by decide,
    first_check_places_mines _ valid_reverse 4 4 7 (by decide) 0 0 (by decide)⟩

/-- C2: the first move never loses.  On a validly constructed game with no
mines placed yet, with a random source that returns a permutation, the first
`checkInputCoordinates(x, y)` with `(x, y)` in range returns, and after it
(cascade included) `playerHasLost()` is false and no mine-bearing cell of the
grid is visible. -/
theorem first_check_never_loses (env : RandomEnv) (henv : env.Valid) (h w n : Int)
    (hargs : ValidArgs h w n) (x y : Int) (hxy : (Game.new h w n).InRange x y) :
    ∃ g', (Game.new h w n).checkInputCoordinates env x y = .ok g' ∧
      g'.playerHasLost = false ∧
      ∀ a b : Int, g'.InRange a b → g'.doesCellHaveMine a b = true →
        g'.isCellVisible a b = false := by
  obtain ⟨g1, g', _, hres, hfuel, hI1, hset1, hh1, hw1, _, hck1, hcells, hsafe, hR, hI'⟩ :=
    first_check env henv h w n hargs x y hxy
  have hxy1 : g1.InRange x y := by
    unfold Game.InRange at hxy ⊢; rw [hh1, hw1]; exact hxy
  have hnv1 : g1.NoVisibleMine := fun a b hab _ => (hcells a b hab).1
  obtain ⟨k1, k2⟩ := check_safe env _ g1 x y g' hI1.shaped hset1 hxy1 hI1.consistent hnv1
    (hsafe x y hxy1 (by omega) (by omega) (by omega) (by omega)) (by omega) hfuel
  refine ⟨g', hres, ?_, k1⟩
  unfold Game.playerHasLost Game.checkedMine
  rw [k2, hck1]; rfl

/-- C2 at a 4x4 game with 7 mines, first check at `(0, 0)`, the shuffle
reversing the vector. -/
theorem first_check_never_loses_witness :
    RandomEnv.Valid reverseEnv ∧ ValidArgs 4 4 7 ∧
      (Game.new 4 4 7).InRange 0 0 ∧
      ∃ g', (Game.new 4 4 7).checkInputCoordinates reverseEnv 0 0 = .ok g' ∧
        g'.playerHasLost = false ∧
        ∀ a b : Int, g'.InRange a b → g'.doesCellHaveMine a b = true →
          g'.isCellVisible a b = false :=
  ⟨valid_reverse, by decide, by decide,
    first_check_never_loses _ valid_reverse 4 4 7 (by decide) 0 0 (by decide)⟩

/-- C4: in every state a validly constructed game reaches by check and mark
calls (so after mine placement and in every state reached afterwards), with a
random source that returns a permutation, `numOfMinesAroundCell(x, y)` of
every cell of the grid is the number of mine-bearing cells among its up to
eight grid neighbours, the cell itself not counted; the right-hand side reads
no visibility and no mark; and the value lies in `[0, 8]`. -/
theorem minesAround_counts_neighbours (env : RandomEnv) (henv : env.Valid) (g : Game)
    (hr : Reachable env g) (x y : Int) (hxy : g.InRange x y) :
    g.numOfMinesAroundCell x y =
        ((g.neighbours x y).countP fun p => g.doesCellHaveMine p.1 p.2) ∧
      (∀ a b : Int, (a, b) ∈ g.neighbours x y ↔ g.InRange a b ∧ Adjacent x y a b) ∧
      0 ≤ g.numOfMinesAroundCell x y ∧ g.numOfMinesAroundCell x y ≤ 8 := by
  have hI := reachable_inv env henv g hr
  have h1 := hI.consistent x y hxy
  have h2 := minesAmongNeighbours_le g x y
  refine ⟨h1, fun a b => mem_neighbours g x y a b, ?_, ?_⟩
  · rw [h1]; omega
  · rw [h1]; omega

/-- C4 at the state a 4x4 game with 7 mines reaches by a check at `(0, 0)` and a
mark at `(3, 3)`, for the cell `(1, 1)`. -/
theorem minesAround_counts_neighbours_witness :
    RandomEnv.Valid reverseEnv ∧
      Reachable reverseEnv (exampleGame.play reverseEnv (.mark 3 3)) ∧
      (exampleGame.play reverseEnv (.mark 3 3)).InRange 1 1 ∧
      (exampleGame.play reverseEnv (.mark 3 3)).numOfMinesAroundCell 1 1 = 2 :=
  ⟨valid_reverse, .step _ _ (.step _ _ (.new 4 4 7 (by decide))), by decide,
    ((minesAround_counts_neighbours _ valid_reverse _
      (.step _ (.mark 3 3) (.step _ (.check 0 0) (.new 4 4 7 (by decide)))) 1 1
      (by decide)).1).trans (by decide)⟩

theorem andThen_state (P : Game → Prop) (o : Outcome) (f : Game → Outcome)
    (ho : P o.state) (hf : ∀ g, P g → P (f g).state) : P (o.andThen f).state := by
  cases o with
  | ok g => exact hf g ho
  | threw e g => exact ho

theorem guardedCheck_state (P : Game → Prop) (check : Game → Int → Int → Outcome)
    (hcheck : ∀ g a b, P g → P (check g a b).state) (cond : Prop) [Decidable cond]
    (g : Game) (a b : Int) (hg : P g) :
    P (if cond then check g a b else Outcome.ok g).state := by
  split
  · exact hcheck g a b hg
  · exact hg

theorem checkAround_state (P : Game → Prop) (check : Game → Int → Int → Outcome)
    (hcheck : ∀ g a b, P g → P (check g a b).state) (g : Game) (X Y : Int) (hg : P g) :
    P (checkAroundCoordinate check g X Y).state := by
  unfold checkAroundCoordinate
  refine andThen_state P _ _ (guardedCheck_state P check hcheck _ g _ _ hg) fun g hg => ?_
  refine andThen_state P _ _ (guardedCheck_state P check hcheck _ g _ _ hg) fun g hg => ?_
  refine andThen_state P _ _ (guardedCheck_state P check hcheck _ g _ _ hg) fun g hg => ?_
  refine andThen_state P _ _ (guardedCheck_state P check hcheck _ g _ _ hg) fun g hg => ?_
  refine andThen_state P _ _ (guardedCheck_state P check hcheck _ g _ _ hg) fun g hg => ?_
  refine andThen_state P _ _ (guardedCheck_state P check hcheck _ g _ _ hg) fun g hg => ?_
  refine andThen_state P _ _ (guardedCheck_state P check hcheck _ g _ _ hg) fun g hg => ?_
  exact guardedCheck_state P check hcheck _ g _ _ hg

theorem placeMine_foldl_checked (F : Game → Nat → Int) (l : List Nat) (g : Game) :
    (l.foldl (fun acc i => acc.placeMine (F acc i)) g)._checkedMine = g._checkedMine := by
  induction l generalizing g with
  | nil => rfl
  | cons i l ih => rw [List.foldl_cons, ih]; rfl

theorem createMinesAndNums_checked (env : RandomEnv) (g : Game) (X Y : Int) :
    (g.createMinesAndNums env X Y).state._checkedMine = g._checkedMine := by
  unfold Game.createMinesAndNums
  split
  · rfl
  · exact placeMine_foldl_checked (fun _ i => _) _ g

theorem checkFuel_checked (env : RandomEnv) (fuel : Nat) :
    ∀ (g : Game) (X Y : Int), g._checkedMine = true →
      (checkFuel env fuel g X Y).state._checkedMine = true := by
  induction fuel with
  | zero => intro g X Y hg; exact hg
  | succ fuel ih =>
    intro g X Y hg
    rw [checkFuel]
    split
    · exact hg
    · refine andThen_state (fun g => g._checkedMine = true) _ _ ?_ fun g1 hg1 => ?_
      · split
        · show (g.createMinesAndNums env X Y).state._checkedMine = true
          rw [createMinesAndNums_checked]; exact hg
        · exact hg
      · split
        · dsimp only
          split
          · rfl
          · split
            · exact checkAround_state (fun g => g._checkedMine = true) _
                (fun g a b h => ih g a b h) _ X Y hg1
            · exact hg1
        · exact hg1

theorem mark_checked (g : Game) (X Y : Int) :
    (g.markInputCoordinates X Y).state._checkedMine = g._checkedMine := by
  unfold Game.markInputCoordinates
  split
  · rfl
  · split
    · rfl
    · split <;> (dsimp only; split <;> rfl)

theorem playAll_checked (env : RandomEnv) (moves : List Move) :
    ∀ g : Game, g._checkedMine = true → (g.playAll env moves)._checkedMine = true := by
  induction moves with
  | nil => intro g hg; exact hg
  | cons m ms ih =>
    intro g hg
    apply ih
    cases m with
    | check X Y => exact checkFuel_checked env _ g X Y hg
    | mark X Y => exact (mark_checked g X Y).trans hg

/-- C5: revealing a mine latches the loss.  On every state (with the grid of
its declared size) on which the mines are placed, for every cell `(x, y)` of
the grid that is hidden, unmarked and has a mine, `checkInputCoordinates(x, y)`
returns; it makes that cell visible, increments `numOfVisibleCells` by exactly
one, makes `playerHasLost()` true, and changes nothing else: the other members
keep their values, every cell keeps its mine, its mark and its count, and
every other cell keeps its visibility.  And from every state whatsoever in
which `playerHasLost()` is true, it is still true after every sequence of
check and mark calls, successful or failing, whatever the random source. -/
theorem reveal_mine_latches_loss (env : RandomEnv) (g : Game) (x y : Int) (hs : g.Shaped)
    (hset : g.minesHaveBeenSet = true) (hxy : g.InRange x y)
    (hv : g.isCellVisible x y = false) (hm : g.isCellMarked x y = false)
    (hmine : g.doesCellHaveMine x y = true) :
    (∃ g', g.checkInputCoordinates env x y = .ok g' ∧
      g'.isCellVisible x y = true ∧
      g'.numOfVisibleCells = g.numOfVisibleCells + 1 ∧
      g'.playerHasLost = true ∧
      g'.gridHeight = g.gridHeight ∧ g'.gridWidth = g.gridWidth ∧
      g'.numOfMines = g.numOfMines ∧ g'.numOfMarkedMines = g.numOfMarkedMines ∧
      g'.numOfWronglyMarkedCells = g.numOfWronglyMarkedCells ∧
      g'.minesHaveBeenSet = g.minesHaveBeenSet ∧ g'.Shaped ∧
      ∀ a b : Int, g.InRange a b →
        g'.doesCellHaveMine a b = g.doesCellHaveMine a b ∧
        g'.isCellMarked a b = g.isCellMarked a b ∧
        g'.numOfMinesAroundCell a b = g.numOfMinesAroundCell a b ∧
        (¬ (a = x ∧ b = y) → g'.isCellVisible a b = g.isCellVisible a b)) ∧
    ∀ (env0 : RandomEnv) (g0 : Game) (moves : List Move), g0.playerHasLost = true →
      (g0.playAll env0 moves).playerHasLost = true := by
  constructor
  · obtain ⟨hR, _⟩ := reveals_reveal g hs x y hxy hv
    have hm3 : (g.reveal x y).doesCellHaveMine x y = true := by
      unfold Game.doesCellHaveMine
      rw [(hR.cell x y hxy).1]; exact hmine
    refine ⟨{ g.reveal x y with _checkedMine := true }, ?_, ?_, rfl, rfl, rfl, rfl, rfl, rfl,
      rfl, rfl, hR.shaped, ?_⟩
    · unfold Game.checkInputCoordinates
      rw [checkFuel_succ env _ g x y hset hxy, if_pos (by rw [hv, hm]; rfl), if_pos hm3]
    · show (getCell (g.reveal x y).cells x y).isVisible = true
      rw [getCell_reveal g hs x y hxy x y hxy]
      simp [Cell.makeVisible]
    · intro a b hab
      have hc := getCell_reveal g hs x y hxy a b hab
      refine ⟨(hR.cell a b hab).1, (hR.cell a b hab).2.1, (hR.cell a b hab).2.2.1, ?_⟩
      intro hne
      show (getCell (g.reveal x y).cells a b).isVisible = _
      rw [hc, if_neg hne]
      rfl
  · intro env0 g0 moves h0
    have h1 : g0._checkedMine = true := by
      unfold Game.playerHasLost Game.checkedMine at h0
      cases hc : g0._checkedMine
      · rw [hc] at h0; exact absurd h0 (by decide)
      · rfl
    have := playAll_checked env0 moves g0 h1
    unfold Game.playerHasLost Game.checkedMine
    rw [this]; rfl

/-- C5 at `exampleGame`, for the hidden, unmarked mine cell `(3, 3)`. -/
theorem reveal_mine_latches_loss_witness :
    exampleGame.Shaped ∧ exampleGame.minesHaveBeenSet = true ∧ exampleGame.InRange 3 3 ∧
      exampleGame.isCellVisible 3 3 = false ∧ exampleGame.isCellMarked 3 3 = false ∧
      exampleGame.doesCellHaveMine 3 3 = true ∧
      ∃ g', exampleGame.checkInputCoordinates reverseEnv 3 3 = .ok g' ∧
        g'.isCellVisible 3 3 = true ∧
        g'.numOfVisibleCells = exampleGame.numOfVisibleCells + 1 ∧
        g'.playerHasLost = true :=
  ⟨by decide, by decide, by decide, by decide, by decide, by decide,
    match (reveal_mine_latches_loss reverseEnv exampleGame 3 3 (by decide) (by decide)
      (by decide) (by decide) (by decide) (by decide)).1 with
    | ⟨g', h1, h2, h3, h4, _⟩ => ⟨g', h1, h2, h3, h4⟩⟩

/-- C6: on every state on which the mines are placed, for every cell `(x, y)`
of the grid that is already visible or is marked, `checkInputCoordinates(x, y)`
returns and leaves the whole game state as it was (every cell, every counter,
`_checkedMine`, `minesHaveBeenSet`); so a marked mine cell is not revealed. -/
theorem check_visible_or_marked_is_noop (env : RandomEnv) (g : Game) (x y : Int)
    (hset : g.minesHaveBeenSet = true) (hxy : g.InRange x y)
    (h : g.isCellVisible x y = true ∨ g.isCellMarked x y = true) :
    g.checkInputCoordinates env x y = .ok g := by
  unfold Game.checkInputCoordinates
  rw [checkFuel_succ env _ g x y hset hxy, if_neg]
  rcases h with h | h <;> simp [h]

/-- C6 at `exampleGame` for the visible cell `(0, 0)`. -/
theorem check_visible_or_marked_is_noop_witness :
    exampleGame.minesHaveBeenSet = true ∧ exampleGame.InRange 0 0 ∧
      (exampleGame.isCellVisible 0 0 = true ∨ exampleGame.isCellMarked 0 0 = true) ∧
      exampleGame.checkInputCoordinates reverseEnv 0 0 = .ok exampleGame :=
  ⟨by decide, by decide, Or.inl (by decide),
    check_visible_or_marked_is_noop reverseEnv exampleGame 0 0 (by decide) (by decide)
      (Or.inl (by decide))⟩

/-- C10: on every state (with the grid of its declared size) on which the
mines are placed, for every cell `(x, y)` of the grid, visible or not,
`markInputCoordinates(x, y)` returns; it flips the mark of `(x, y)` and
adjusts exactly one counter by one, `numOfMarkedMines` when the cell has a
mine and `numOfWronglyMarkedCells` otherwise, by `+1` when the cell becomes
marked and by `-1` when it becomes unmarked; every cell keeps its visibility,
its mine and its count, every other cell keeps its mark, and the other
counter, `numOfVisibleCells`, `_checkedMine`, `minesHaveBeenSet`, the
dimensions and `numOfMines` keep their values. -/
theorem mark_toggles_one_cell (g : Game) (x y : Int) (hs : g.Shaped)
    (hset : g.minesHaveBeenSet = true) (hxy : g.InRange x y) :
    ∃ g', g.markInputCoordinates x y = .ok g' ∧
      g'.isCellMarked x y = !g.isCellMarked x y ∧
      (g.doesCellHaveMine x y = true →
        g'.numOfMarkedMines =
            g.numOfMarkedMines + (if g'.isCellMarked x y = true then 1 else -1) ∧
          g'.numOfWronglyMarkedCells = g.numOfWronglyMarkedCells) ∧
      (g.doesCellHaveMine x y = false →
        g'.numOfWronglyMarkedCells =
            g.numOfWronglyMarkedCells + (if g'.isCellMarked x y = true then 1 else -1) ∧
          g'.numOfMarkedMines = g.numOfMarkedMines) ∧
      (∀ a b : Int, g.InRange a b →
        g'.isCellVisible a b = g.isCellVisible a b ∧
        g'.doesCellHaveMine a b = g.doesCellHaveMine a b ∧
        g'.numOfMinesAroundCell a b = g.numOfMinesAroundCell a b ∧
        (¬ (a = x ∧ b = y) → g'.isCellMarked a b = g.isCellMarked a b)) ∧
      g'.numOfVisibleCells = g.numOfVisibleCells ∧ g'._checkedMine = g._checkedMine ∧
      g'.minesHaveBeenSet = g.minesHaveBeenSet ∧ g'.gridHeight = g.gridHeight ∧
      g'.gridWidth = g.gridWidth ∧ g'.numOfMines = g.numOfMines ∧ g'.Shaped := by
  obtain ⟨g', e, hs', e1, e2, e3, e4, e5, e6, hcell, e7, e8, _⟩ :=
    markInputCoordinates_spec g hs hset x y hxy
  have hflip : g'.isCellMarked x y = !g.isCellMarked x y := by
    unfold Game.isCellMarked
    rw [hcell x y hxy]; simp
  refine ⟨g', e, hflip, ?_, ?_, ?_, e4, e5, e6, e1, e2, e3, hs'⟩
  · intro hm
    rw [e7, e8, hflip, hm]
    cases g.isCellMarked x y <;> simp
  · intro hm
    rw [e7, e8, hflip, hm]
    cases g.isCellMarked x y <;> simp
  · intro a b hab
    unfold Game.isCellVisible Game.doesCellHaveMine Game.numOfMinesAroundCell Game.isCellMarked
    rw [hcell a b hab]
    by_cases hne : a = x ∧ b = y
    · rw [if_pos hne]; exact ⟨rfl, rfl, rfl, fun h => absurd hne h⟩
    · rw [if_neg hne]; exact ⟨rfl, rfl, rfl, fun _ => rfl⟩

/-- C10 at `exampleGame` for the visible, mine-free cell `(1, 1)`. -/
theorem mark_toggles_one_cell_witness :
    exampleGame.Shaped ∧ exampleGame.minesHaveBeenSet = true ∧ exampleGame.InRange 1 1 ∧
      ∃ g', exampleGame.markInputCoordinates 1 1 = .ok g' ∧
        g'.isCellMarked 1 1 = !exampleGame.isCellMarked 1 1 :=
  ⟨by decide, by decide, by decide,
    match mark_toggles_one_cell exampleGame 1 1 (by decide) (by decide) (by decide) with
    | ⟨g', h1, h2, _⟩ => ⟨g', h1, h2⟩⟩

theorem forall_inRange_iff (g : Game) (hs : g.Shaped) (P : Cell → Prop) :
    (∀ row ∈ g.cells, ∀ c ∈ row, P c) ↔ ∀ a b : Int, g.InRange a b → P (getCell g.cells a b) := by
  rw [forall_cells_iff hs.2.2]
  have hh := hs.1
  have hw := hs.2.1
  constructor
  · rintro h a b ⟨h1, h2, h3, h4⟩
    exact h a b h1 (by omega) h3 (by omega)
  · intro h a b h1 h2 h3 h4
    exact h a b ⟨h1, by omega, h3, by omega⟩

/-- C7: win by revealing.  In every state a validly constructed game reaches by
check and mark calls, with a random source that returns a permutation, in
which no mine has been revealed (`_checkedMine` is false),
`allNonMinesVisible()` is true if and only if every mine-free cell of the grid
is visible; and then `playerHasWon()` is true. -/
theorem allNonMinesVisible_iff (env : RandomEnv) (henv : env.Valid) (g : Game)
    (hr : Reachable env g) (hck : g._checkedMine = false) :
    (g.allNonMinesVisible = true ↔
      ∀ a b : Int, g.InRange a b → g.doesCellHaveMine a b = false →
        g.isCellVisible a b = true) ∧
    ((∀ a b : Int, g.InRange a b → g.doesCellHaveMine a b = false →
        g.isCellVisible a b = true) → g.playerHasWon = true) := by
  have hI := reachable_inv env henv g hr
  have hvis := hI.visible
  have hall : g.allNonMinesVisible = true ↔ g.numOfMines = (g.hiddenCount : Int) := by
    unfold Game.allNonMinesVisible
    rw [Int.mul_comm]
    simp only [hck, Bool.false_eq_true, not_false_eq_true, and_true]
    constructor
    · intro h
      by_cases h1 : g.numOfVisibleCells + g.numOfMines = g.gridHeight * g.gridWidth
      · omega
      · rw [if_neg h1] at h; exact absurd h (by decide)
    · intro h
      rw [if_pos (by omega)]
  have hiff : g.allNonMinesVisible = true ↔
      ∀ a b : Int, g.InRange a b → g.doesCellHaveMine a b = false →
        g.isCellVisible a b = true := by
    rw [hall]
    cases hset : g.minesHaveBeenSet
    · have hfresh := hI.fresh hset
      obtain ⟨hh, hw, hmax, hmin⟩ := hI.args
      have hhid : (g.hiddenCount : Int) = g.gridHeight * g.gridWidth := by
        rw [hfresh]; exact hiddenCount_new _ _ _ hI.args
      have hcell : ∀ a b : Int, getCell g.cells a b = default := by
        intro a b; rw [hfresh]; exact getCell_initCells _ _ _ _
      unfold maxNumOfMines at hmax
      unfold minNumOfMines at hmin
      rw [hhid]
      constructor
      · intro hn a b hab
        exfalso
        have hpos : 0 < g.gridHeight * g.gridWidth :=
          Int.mul_pos (by have := hab.2.2.1; have := hab.2.2.2; omega)
            (by have := hab.1; have := hab.2.1; omega)
        omega
      · intro hR
        by_cases hpos : 0 < g.gridWidth ∧ 0 < g.gridHeight
        · have := hR 0 0 ⟨le_refl _, hpos.1, le_refl _, hpos.2⟩
            (by unfold Game.doesCellHaveMine; rw [hcell]; rfl)
          unfold Game.isCellVisible at this
          rw [hcell] at this
          exact absurd this (by decide)
        · have hz : g.gridHeight * g.gridWidth = 0 := by
            rcases (by omega : g.gridWidth = 0 ∨ g.gridHeight = 0) with h0 | h0 <;> simp [h0]
          omega
    · have hmc := hI.mines hset
      have hnv := hI.noVisibleMine hck
      have himp : ∀ row ∈ g.cells, ∀ c ∈ row,
          (fun c : Cell => c.hasMine) c = true → (fun c : Cell => !c.isVisible) c = true := by
        rw [forall_inRange_iff g hI.shaped
          (fun c => (fun c : Cell => c.hasMine) c = true → (fun c : Cell => !c.isVisible) c = true)]
        intro a b hab hm
        have := hnv a b hab hm
        unfold Game.isCellVisible at this
        simp only [this, Bool.not_false]
      have hcnt := (countCells_eq_iff_of_imp _ _ g.cells himp).2
      rw [forall_inRange_iff g hI.shaped
        (fun c => (fun c : Cell => !c.isVisible) c = true → (fun c : Cell => c.hasMine) c = true)]
        at hcnt
      beta_reduce at hcnt
      have e1 : g.numOfMines = (g.hiddenCount : Int) ↔
          countCells (fun c => c.hasMine) g.cells = countCells (fun c => !c.isVisible) g.cells := by
        unfold Game.mineCount at hmc
        unfold Game.hiddenCount
        omega
      rw [e1, hcnt]
      constructor
      · intro h a b hab hm
        cases hv : g.isCellVisible a b
        · have := h a b hab (by unfold Game.isCellVisible at hv; simp [hv])
          unfold Game.doesCellHaveMine at hm
          rw [hm] at this
          exact absurd this (by decide)
        · rfl
      · intro h a b hab hv
        cases hm : (getCell g.cells a b).hasMine
        · have := h a b hab hm
          unfold Game.isCellVisible at this
          simp [this] at hv
        · rfl
  refine ⟨hiff, ?_⟩
  intro hR
  have := hiff.2 hR
  unfold Game.playerHasWon Game.playerHasLost Game.checkedMine
  simp [hck, this]

/-- C7 at `exampleGame`, where no mine has been revealed. -/
theorem allNonMinesVisible_iff_witness :
    reverseEnv.Valid ∧ Reachable reverseEnv exampleGame ∧ exampleGame._checkedMine = false ∧
      (exampleGame.allNonMinesVisible = true ↔
        ∀ a b : Int, exampleGame.InRange a b → exampleGame.doesCellHaveMine a b = false →
          exampleGame.isCellVisible a b = true) :=
  ⟨valid_reverse, .step _ _ (.new 4 4 7 (by decide)), by decide,
    (allNonMinesVisible_iff reverseEnv valid_reverse exampleGame
      (.step _ (.check 0 0) (.new 4 4 7 (by decide))) (by decide)).1⟩

/-- C8: win by marking.  In every state a validly constructed game reaches by
check and mark calls, with a random source that returns a permutation, on
which the mines are placed and no mine has been revealed (`_checkedMine` is
false), `allMinesMarked() and noNonMinesMarked()` holds if and only if the
marked cells of the grid are exactly its mine-bearing cells; and then
`playerHasWon()` is true. -/
theorem marked_all_mines_iff (env : RandomEnv) (henv : env.Valid) (g : Game)
    (hr : Reachable env g) (hset : g.minesHaveBeenSet = true)
    (hck : g._checkedMine = false) :
    ((g.allMinesMarked = true ∧ g.noNonMinesMarked = true) ↔
      ∀ a b : Int, g.InRange a b →
        (g.isCellMarked a b = true ↔ g.doesCellHaveMine a b = true)) ∧
    ((∀ a b : Int, g.InRange a b →
        (g.isCellMarked a b = true ↔ g.doesCellHaveMine a b = true)) →
      g.playerHasWon = true) := by
  have hI := reachable_inv env henv g hr
  have hmc := hI.mines hset
  have hmm := hI.markedMines
  have hwm := hI.wronglyMarked
  have himp : ∀ row ∈ g.cells, ∀ c ∈ row,
      (fun c : Cell => c.isMarked && c.hasMine) c = true → (fun c : Cell => c.hasMine) c = true := by
    intro _ _ c _ h
    simp only [Bool.and_eq_true] at h
    exact h.2
  have h1 := (countCells_eq_iff_of_imp _ _ g.cells himp).2
  rw [forall_inRange_iff g hI.shaped
    (fun c => (fun c : Cell => c.hasMine) c = true →
      (fun c : Cell => c.isMarked && c.hasMine) c = true)] at h1
  have h2 := countCells_eq_zero_iff (fun c : Cell => c.isMarked && !c.hasMine) g.cells
  rw [forall_inRange_iff g hI.shaped
    (fun c => ¬ (fun c : Cell => c.isMarked && !c.hasMine) c = true)] at h2
  beta_reduce at h1 h2
  have e1 : g.allMinesMarked = true ↔
      countCells (fun c => c.isMarked && c.hasMine) g.cells =
        countCells (fun c => c.hasMine) g.cells := by
    unfold Game.allMinesMarked
    unfold Game.mineCount at hmc
    unfold Game.markedMineCount at hmm
    constructor
    · intro h
      by_cases hc : g.numOfMines = g.numOfMarkedMines
      · omega
      · rw [if_neg hc] at h; exact absurd h (by decide)
    · intro h
      rw [if_pos (by omega)]
  have e2 : g.noNonMinesMarked = true ↔
      countCells (fun c => c.isMarked && !c.hasMine) g.cells = 0 := by
    unfold Game.noNonMinesMarked
    unfold Game.wronglyMarkedCount at hwm
    constructor
    · intro h
      by_cases hc : g.numOfWronglyMarkedCells = 0
      · omega
      · rw [if_neg hc] at h; exact absurd h (by decide)
    · intro h
      rw [if_pos (by omega)]
  have hiff : (g.allMinesMarked = true ∧ g.noNonMinesMarked = true) ↔
      ∀ a b : Int, g.InRange a b →
        (g.isCellMarked a b = true ↔ g.doesCellHaveMine a b = true) := by
    rw [e1, e2, h1, h2]
    unfold Game.isCellMarked Game.doesCellHaveMine
    constructor
    · rintro ⟨k1, k2⟩ a b hab
      have k1' := k1 a b hab
      have k2' := k2 a b hab
      cases hm : (getCell g.cells a b).hasMine <;> cases hk : (getCell g.cells a b).isMarked <;>
        simp [hm, hk] at k1' k2' ⊢
    · intro k
      constructor
      · intro a b hab hm
        have := (k a b hab).2 hm
        simp [this, hm]
      · intro a b hab hk
        simp only [Bool.and_eq_true, Bool.not_eq_true'] at hk
        have := (k a b hab).1 hk.1
        rw [hk.2] at this
        exact absurd this (by decide)
  refine ⟨hiff, ?_⟩
  intro hR
  obtain ⟨k1, k2⟩ := hiff.2 hR
  unfold Game.playerHasWon Game.playerHasLost Game.checkedMine
  simp [hck, k1, k2]

/-- C8 at `exampleGame`, on which the mines are placed and none is revealed. -/
theorem marked_all_mines_iff_witness :
    reverseEnv.Valid ∧ Reachable reverseEnv exampleGame ∧
      exampleGame.minesHaveBeenSet = true ∧ exampleGame._checkedMine = false ∧
      ((exampleGame.allMinesMarked = true ∧ exampleGame.noNonMinesMarked = true) ↔
        ∀ a b : Int, exampleGame.InRange a b →
          (exampleGame.isCellMarked a b = true ↔ exampleGame.doesCellHaveMine a b = true)) :=
  ⟨valid_reverse, .step _ _ (.new 4 4 7 (by decide)), by decide, by decide,
    (marked_all_mines_iff reverseEnv valid_reverse exampleGame
      (.step _ (.check 0 0) (.new 4 4 7 (by decide))) (by decide) (by decide)).1⟩

/-! ## The cascade reveals the zero region and its border -/

theorem check_closed (env : RandomEnv) (fuel : Nat) :
    ∀ (g : Game) (X Y : Int) (g' : Game) (P : Int → Int → Prop), g.Shaped →
      g.minesHaveBeenSet = true → g.InRange X Y → g.NoMarks → g.ClosedExcept P →
      g.hiddenCount < fuel → checkFuel env fuel g X Y = .ok g' →
      g'.ClosedExcept P ∧ g'.isCellVisible X Y = true := by
  induction fuel with
  | zero => intro g X Y g' P _ _ _ _ _ hlt; omega
  | succ fuel ih =>
    intro g X Y g' P hs hset hXY hnm hcl hlt hres
    rw [checkFuel_succ env fuel g X Y hset hXY] at hres
    by_cases hvm : (!(g.isCellVisible X Y) && !(g.isCellMarked X Y)) = true
    · rw [if_pos hvm] at hres
      have hv : g.isCellVisible X Y = false := by
        simp only [Bool.and_eq_true, Bool.not_eq_true'] at hvm; exact hvm.1
      obtain ⟨hR, hh⟩ := reveals_reveal g hs X Y hXY hv
      have hvis3 : (g.reveal X Y).isCellVisible X Y = true := by
        unfold Game.isCellVisible
        rw [getCell_reveal g hs X Y hXY X Y hXY]
        simp [Cell.makeVisible]
      -- every other visible cell of the revealed state was visible before
      have hold : ∀ a b : Int, g.InRange a b → ¬ (a = X ∧ b = Y) →
          (g.reveal X Y).isCellVisible a b = true → g.isCellVisible a b = true := by
        intro a b hab hne hvab
        unfold Game.isCellVisible at hvab ⊢
        rw [getCell_reveal g hs X Y hXY a b hab, if_neg hne] at hvab
        exact hvab
      have hcl3 : (g.reveal X Y).ClosedExcept (fun a b => P a b ∨ (a = X ∧ b = Y)) := by
        intro a b hab hnp hvab hmab hzab c d hcd hadj
        have hab0 := hR.inRange.1 hab
        have hcd0 := hR.inRange.1 hcd
        have hne : ¬ (a = X ∧ b = Y) := fun h => hnp (Or.inr h)
        have h1 := hold a b hab0 hne hvab
        unfold Game.doesCellHaveMine at hmab
        unfold Game.numOfMinesAroundCell at hzab
        rw [(hR.cell a b hab0).1] at hmab
        rw [(hR.cell a b hab0).2.2.1] at hzab
        have := hcl a b hab0 (fun h => hnp (Or.inl h)) h1 hmab hzab c d hcd0 hadj
        exact (hR.cell c d hcd0).2.2.2 this
      -- when the revealed cell is not a mine-free cell of count 0, it needs no exception
      have hweak : ∀ g2 : Game, Reveals (g.reveal X Y) g2 →
          g2.ClosedExcept (fun a b => P a b ∨ (a = X ∧ b = Y)) →
          ((g.reveal X Y).doesCellHaveMine X Y = false →
            (g.reveal X Y).numOfMinesAroundCell X Y = 0 →
            ∀ c d : Int, g2.InRange c d → Adjacent X Y c d → g2.isCellVisible c d = true) →
          g2.ClosedExcept P := by
        intro g2 hR2 hc2 hxy a b hab hnp hvab hmab hzab c d hcd hadj
        by_cases hne : a = X ∧ b = Y
        · obtain ⟨rfl, rfl⟩ := hne
          have hab3 := hR2.inRange.1 hab
          unfold Game.doesCellHaveMine at hmab
          unfold Game.numOfMinesAroundCell at hzab
          rw [(hR2.cell a b hab3).1] at hmab
          rw [(hR2.cell a b hab3).2.2.1] at hzab
          exact hxy hmab hzab c d hcd hadj
        · exact hc2 a b hab (fun h => h.elim hnp hne) hvab hmab hzab c d hcd hadj
      by_cases hm : (g.reveal X Y).doesCellHaveMine X Y = true
      · rw [if_pos hm] at hres
        cases hres
        refine ⟨?_, hvis3⟩
        exact hweak { g.reveal X Y with _checkedMine := true }
          ⟨rfl, rfl, rfl, rfl, rfl, rfl, hR.shaped, fun _ _ _ => ⟨rfl, rfl, rfl, id⟩,
            fun _ => rfl, rfl, le_refl _⟩ hcl3
          (fun h => by rw [hm] at h; exact absurd h (by decide))
      · rw [if_neg hm] at hres
        by_cases hz : (g.reveal X Y).numOfMinesAroundCell X Y = 0
        · rw [if_pos hz] at hres
          have hnm3 : (g.reveal X Y).NoMarks := by
            intro a b hab
            have hab0 := hR.inRange.1 hab
            unfold Game.isCellMarked
            rw [(hR.cell a b hab0).2.1]
            exact hnm a b hab0
          obtain ⟨gf, e, hI, hV⟩ := checkAround_chain (checkFuel env fuel)
            (fun g' => Reveals (g.reveal X Y) g' ∧
              g'.ClosedExcept (fun a b => P a b ∨ (a = X ∧ b = Y)))
            (fun a b g' => g'.InRange a b ∧ g'.isCellVisible a b = true)
            g.gridWidth g.gridHeight X Y
            (fun g' hI => ⟨hI.1.width, hI.1.height⟩)
            (fun g1 a b hI hab _ => by
              obtain ⟨hI1, hI2⟩ := hI
              have hab1 := hI1.inRange.2 hab
              have hlt1 : g1.hiddenCount < fuel := by have := hI1.hidden; omega
              have hset1 := hI1.minesSet.trans hset
              obtain ⟨g2, e, hR'⟩ := check_total env fuel g1 a b hI1.shaped hset1 hab1 hlt1
              have hnm1 : g1.NoMarks := by
                intro u v huv
                have huv3 := hI1.inRange.1 huv
                unfold Game.isCellMarked
                rw [(hI1.cell u v huv3).2.1]
                exact hnm3 u v huv3
              obtain ⟨k1, k2⟩ := ih g1 a b g2 _ hI1.shaped hset1 hab1 hnm1 hI2 hlt1 e
              refine ⟨g2, e, ⟨reveals_trans hI1 hR', k1⟩, ⟨hR'.inRange.2 hab1, k2⟩, ?_⟩
              rintro u v ⟨huv, hvis⟩
              exact ⟨hR'.inRange.2 huv, (hR'.cell u v huv).2.2.2 hvis⟩)
            (g.reveal X Y) ⟨reveals_refl _ hR.shaped, hcl3⟩ hXY
          rw [e] at hres
          cases hres
          refine ⟨hweak g' hI.1 hI.2 (fun _ _ c d hcd hadj => ?_), ?_⟩
          · have hcd0 : g.InRange c d := hR.inRange.1 (hI.1.inRange.1 hcd)
            exact (hV c d hcd0 hadj).2
          · exact (hI.1.cell X Y hXY).2.2.2 hvis3
        · rw [if_neg hz] at hres
          cases hres
          exact ⟨hweak _ (reveals_refl _ hR.shaped) hcl3 (fun _ h => absurd h hz), hvis3⟩
    · rw [if_neg hvm] at hres
      cases hres
      refine ⟨hcl, ?_⟩
      have := hnm X Y hXY
      simp only [this, Bool.not_false, Bool.and_true, Bool.not_eq_true', Bool.not_eq_false] at hvm
      exact hvm

theorem zeroPath_congr {g1 g2 : Game} (hh : g2.gridHeight = g1.gridHeight)
    (hw : g2.gridWidth = g1.gridWidth)
    (hc : ∀ a b : Int, g1.InRange a b →
      (getCell g2.cells a b).hasMine = (getCell g1.cells a b).hasMine ∧
      (getCell g2.cells a b).minesAround = (getCell g1.cells a b).minesAround)
    {x y a b : Int} (hp : ZeroPath g1 x y a b) : ZeroPath g2 x y a b := by
  have hin : ∀ a b : Int, g1.InRange a b → g2.InRange a b := by
    intro a b hab
    unfold Game.InRange at hab ⊢
    rw [hh, hw]; exact hab
  induction hp with
  | start h1 h2 h3 =>
    refine .start (hin _ _ h1) ?_ ?_
    · unfold Game.doesCellHaveMine at h2 ⊢; rw [(hc _ _ h1).1]; exact h2
    · unfold Game.numOfMinesAroundCell at h3 ⊢; rw [(hc _ _ h1).2]; exact h3
  | step _ h1 hadj h2 h3 ih =>
    refine .step ih (hin _ _ h1) hadj ?_ ?_
    · unfold Game.doesCellHaveMine at h2 ⊢; rw [(hc _ _ h1).1]; exact h2
    · unfold Game.numOfMinesAroundCell at h3 ⊢; rw [(hc _ _ h1).2]; exact h3

theorem zeroPath_start {g : Game} {x y a b : Int} (hp : ZeroPath g x y a b) :
    ZeroPath g x y x y := by
  induction hp with
  | start h1 h2 h3 => exact .start h1 h2 h3
  | step _ _ _ _ _ ih => exact ih

theorem zeroPath_end {g : Game} {x y a b : Int} (hp : ZeroPath g x y a b) :
    g.InRange a b ∧ g.doesCellHaveMine a b = false ∧ g.numOfMinesAroundCell a b = 0 := by
  cases hp with
  | start h1 h2 h3 => exact ⟨h1, h2, h3⟩
  | step _ h1 _ h2 h3 => exact ⟨h1, h2, h3⟩

theorem zeroPath_trans {g : Game} {x y a b c d : Int} (h1 : ZeroPath g x y a b)
    (h2 : ZeroPath g a b c d) : ZeroPath g x y c d := by
  induction h2 with
  | start _ _ _ => exact h1
  | step _ k1 hadj k2 k3 ih => exact .step ih k1 hadj k2 k3

theorem nearZeroPath_trans {g : Game} {x y a b c d : Int} (h1 : ZeroPath g x y a b)
    (h2 : NearZeroPath g a b c d) : NearZeroPath g x y c d := by
  rcases h2 with h2 | ⟨u, v, h2, hadj⟩
  · exact Or.inl (zeroPath_trans h1 h2)
  · exact Or.inr ⟨u, v, zeroPath_trans h1 h2, hadj⟩

theorem nearZeroPath_congr {g1 g2 : Game} (hh : g2.gridHeight = g1.gridHeight)
    (hw : g2.gridWidth = g1.gridWidth)
    (hc : ∀ a b : Int, g1.InRange a b →
      (getCell g2.cells a b).hasMine = (getCell g1.cells a b).hasMine ∧
      (getCell g2.cells a b).minesAround = (getCell g1.cells a b).minesAround)
    {x y a b : Int} (hp : NearZeroPath g1 x y a b) : NearZeroPath g2 x y a b := by
  rcases hp with hp | ⟨u, v, hp, hadj⟩
  · exact Or.inl (zeroPath_congr hh hw hc hp)
  · exact Or.inr ⟨u, v, zeroPath_congr hh hw hc hp, hadj⟩

theorem Reveals.nearZeroPath_back {g1 g2 : Game} (h : Reveals g1 g2) {x y a b : Int}
    (hp : NearZeroPath g2 x y a b) : NearZeroPath g1 x y a b := by
  refine nearZeroPath_congr h.height.symm h.width.symm ?_ hp
  intro u v huv
  have := h.cell u v (h.inRange.1 huv)
  exact ⟨this.1.symm, this.2.2.1.symm⟩

theorem check_newly_visible (env : RandomEnv) (fuel : Nat) :
    ∀ (g : Game) (X Y : Int) (g' : Game), g.Shaped → g.minesHaveBeenSet = true →
      g.InRange X Y → g.hiddenCount < fuel → checkFuel env fuel g X Y = .ok g' →
      ∀ c d : Int, g.InRange c d → g.isCellVisible c d = false →
        g'.isCellVisible c d = true → (c = X ∧ d = Y) ∨ NearZeroPath g X Y c d := by
  induction fuel with
  | zero => intro g X Y g' _ _ _ hlt; omega
  | succ fuel ih =>
    intro g X Y g' hs hset hXY hlt hres c d hcd hvc hvc'
    rw [checkFuel_succ env fuel g X Y hset hXY] at hres
    by_cases hvm : (!(g.isCellVisible X Y) && !(g.isCellMarked X Y)) = true
    · rw [if_pos hvm] at hres
      have hv : g.isCellVisible X Y = false := by
        simp only [Bool.and_eq_true, Bool.not_eq_true'] at hvm; exact hvm.1
      obtain ⟨hR, hh⟩ := reveals_reveal g hs X Y hXY hv
      by_cases hne : c = X ∧ d = Y
      · exact Or.inl hne
      · right
        have hvc3 : (g.reveal X Y).isCellVisible c d = false := by
          unfold Game.isCellVisible at hvc ⊢
          rw [getCell_reveal g hs X Y hXY c d hcd, if_neg hne]
          exact hvc
        by_cases hm : (g.reveal X Y).doesCellHaveMine X Y = true
        · rw [if_pos hm] at hres
          cases hres
          rw [show Game.isCellVisible { g.reveal X Y with _checkedMine := true } c d =
            (g.reveal X Y).isCellVisible c d from rfl, hvc3] at hvc'
          exact absurd hvc' (by decide)
        · rw [if_neg hm] at hres
          by_cases hz : (g.reveal X Y).numOfMinesAroundCell X Y = 0
          · rw [if_pos hz] at hres
            have hstart : ZeroPath g X Y X Y := by
              refine .start hXY ?_ ?_
              · unfold Game.doesCellHaveMine at hm ⊢
                rw [(hR.cell X Y hXY).1] at hm
                simpa using hm
              · unfold Game.numOfMinesAroundCell at hz ⊢
                rw [(hR.cell X Y hXY).2.2.1] at hz
                exact hz
            obtain ⟨gf, e, hI, _⟩ := checkAround_chain (checkFuel env fuel)
              (fun g' => Reveals (g.reveal X Y) g' ∧
                ∀ c d : Int, g.InRange c d → (g.reveal X Y).isCellVisible c d = false →
                  g'.isCellVisible c d = true → NearZeroPath g X Y c d)
              (fun _ _ _ => True)
              g.gridWidth g.gridHeight X Y
              (fun g' hI => ⟨hI.1.width, hI.1.height⟩)
              (fun g1 a b hI hab hadj => by
                obtain ⟨hI1, hI2⟩ := hI
                have hab1 := hI1.inRange.2 hab
                have hlt1 : g1.hiddenCount < fuel := by have := hI1.hidden; omega
                have hset1 := hI1.minesSet.trans hset
                obtain ⟨g2, e, hR'⟩ := check_total env fuel g1 a b hI1.shaped hset1 hab1 hlt1
                refine ⟨g2, e, ⟨reveals_trans hI1 hR', ?_⟩, trivial, fun _ _ _ => trivial⟩
                intro u v huv hu3 hu2
                cases hu1 : g1.isCellVisible u v
                · have huv1 : g1.InRange u v := hI1.inRange.2 huv
                  rcases ih g1 a b g2 hI1.shaped hset1 hab1 hlt1 e u v huv1 hu1 hu2 with
                    ⟨rfl, rfl⟩ | hnear
                  · exact Or.inr ⟨X, Y, hstart, hadj⟩
                  · have hnear0 : NearZeroPath g a b u v :=
                      (reveals_trans hR hI1).nearZeroPath_back hnear
                    have hab_start : ZeroPath g a b a b := by
                      rcases hnear0 with h | ⟨_, _, h, _⟩
                      · exact zeroPath_start h
                      · exact zeroPath_start h
                    obtain ⟨k1, k2, k3⟩ := zeroPath_end hab_start
                    exact nearZeroPath_trans (.step hstart k1 hadj k2 k3) hnear0
                · exact hI2 u v huv hu3 hu1)
              (g.reveal X Y)
              ⟨reveals_refl _ hR.shaped, fun u v _ h1 h2 => by
                rw [h1] at h2; exact absurd h2 (by decide)⟩ hXY
            rw [e] at hres
            cases hres
            exact hI.2 c d hcd hvc3 hvc'
          · rw [if_neg hz] at hres
            cases hres
            rw [hvc3] at hvc'
            exact absurd hvc' (by decide)
    · rw [if_neg hvm] at hres
      cases hres
      rw [hvc] at hvc'
      exact absurd hvc' (by decide)

theorem Reveals.noMarks {g1 g2 : Game} (h : Reveals g1 g2) (hn : g1.NoMarks) : g2.NoMarks := by
  intro a b hab
  have hab1 := h.inRange.1 hab
  unfold Game.isCellMarked
  rw [(h.cell a b hab1).2.1]
  exact hn a b hab1

theorem check_step_spec (env : RandomEnv) (henv : env.Valid) (g : Game) (X Y : Int)
    (hI : g.Inv) (hnm : g.NoMarks) (hcl : g.ClosedExcept (fun _ _ => False))
    (hXY : g.InRange X Y) :
    ∃ g1 g', g.checkInputCoordinates env X Y = .ok g' ∧
      checkFuel env (g1.hiddenCount + 1) g1 X Y = .ok g' ∧
      g1.Inv ∧ g1.minesHaveBeenSet = true ∧ g1.NoMarks ∧ g1.ClosedExcept (fun _ _ => False) ∧
      g1.gridHeight = g.gridHeight ∧ g1.gridWidth = g.gridWidth ∧
      (∀ a b : Int, g.InRange a b → g1.isCellVisible a b = g.isCellVisible a b) ∧
      (g.minesHaveBeenSet = true → g1 = g) ∧
      (g.doesCellHaveMine X Y = false → g.numOfMinesAroundCell X Y = 0 →
        g1.doesCellHaveMine X Y = false ∧ g1.numOfMinesAroundCell X Y = 0) ∧
      Reveals g1 g' ∧ g'.Inv := by
  cases hset : g.minesHaveBeenSet
  · have hfresh := hI.fresh hset
    have hXY' : (Game.new g.gridHeight g.gridWidth g.numOfMines).InRange X Y := hXY
    obtain ⟨g1, g', _, hres, hfuel, hI1, hset1, hh1, hw1, _, _, hcells, hsafe, hR, hI'⟩ :=
      first_check env henv _ _ _ hI.args X Y hXY'
    rw [← hfresh] at hres
    have hin : ∀ a b : Int, g.InRange a b → g1.InRange a b := by
      intro a b hab
      unfold Game.InRange at hab ⊢
      rw [hh1, hw1]; exact hab
    refine ⟨g1, g', hres, hfuel, hI1, hset1, fun a b hab => (hcells a b hab).2, ?_, hh1, hw1,
      ?_, fun h => absurd h (by decide), ?_, hR, hI'⟩
    · intro a b hab _ hvab
      rw [(hcells a b hab).1] at hvab
      exact absurd hvab (by decide)
    · intro a b hab
      rw [(hcells a b (hin a b hab)).1]
      unfold Game.isCellVisible
      rw [hfresh, show (Game.new g.gridHeight g.gridWidth g.numOfMines).cells =
        initCells g.gridHeight g.gridWidth from rfl, getCell_initCells]
      rfl
    · intro _ _
      have hXY1 := hin X Y hXY
      refine ⟨hsafe X Y hXY1 (by omega) (by omega) (by omega) (by omega), ?_⟩
      rw [hI1.consistent X Y hXY1]
      have : g1.minesAmongNeighbours X Y = 0 := by
        unfold Game.minesAmongNeighbours
        rw [List.countP_eq_zero]
        rintro ⟨u, v⟩ huv
        obtain ⟨h1, h2⟩ := (mem_neighbours g1 X Y u v).1 huv
        unfold Adjacent at h2
        rw [hsafe u v h1 (by omega) (by omega) (by omega) (by omega)]
        decide
      rw [this]; rfl
  · obtain ⟨g', e, hR, hI'⟩ := inv_check env (g.hiddenCount + 1) g X Y hI hset hXY (by omega)
    exact ⟨g, g', e, e, hI, hset, hnm, hcl, rfl, rfl, fun _ _ _ => rfl, fun _ => rfl,
      fun h1 h2 => ⟨h1, h2⟩, hR, hI'⟩

theorem reachableByChecks_reachable (env : RandomEnv) (g : Game)
    (hr : ReachableByChecks env g) : Reachable env g := by
  induction hr with
  | new h w n hargs => exact .new h w n hargs
  | step g X Y _ ih => exact .step g (.check X Y) ih

theorem reachableByChecks_inv (env : RandomEnv) (henv : env.Valid) (g : Game)
    (hr : ReachableByChecks env g) : g.NoMarks ∧ g.ClosedExcept (fun _ _ => False) := by
  induction hr with
  | new h w n hargs =>
    constructor
    · intro a b _
      unfold Game.isCellMarked
      rw [show (Game.new h w n).cells = initCells h w from rfl, getCell_initCells]; rfl
    · intro a b _ _ hv
      unfold Game.isCellVisible at hv
      rw [show (Game.new h w n).cells = initCells h w from rfl, getCell_initCells] at hv
      exact absurd hv (by decide)
  | step g X Y hr ih =>
    have hI := reachable_inv env henv g (reachableByChecks_reachable env g hr)
    show (g.checkInputCoordinates env X Y).state.NoMarks ∧
      (g.checkInputCoordinates env X Y).state.ClosedExcept (fun _ _ => False)
    by_cases hXY : g.InRange X Y
    · obtain ⟨g1, g', hres, hfuel, hI1, hset1, hnm1, hcl1, hh1, hw1, _, _, _, hR, _⟩ :=
        check_step_spec env henv g X Y hI ih.1 ih.2 hXY
      have hXY1 : g1.InRange X Y := by
        unfold Game.InRange at hXY ⊢; rw [hh1, hw1]; exact hXY
      rw [hres]
      exact ⟨hR.noMarks hnm1,
        (check_closed env _ g1 X Y g' _ hI1.shaped hset1 hXY1 hnm1 hcl1 (by omega) hfuel).1⟩
    · unfold Game.checkInputCoordinates
      rw [checkFuel_outOfRange env _ g X Y hXY]
      exact ih

/-- C3: the cascade reveals exactly the zero region and its border.  In every
state `g` a validly constructed game reaches by check calls only, with a
random source that returns a permutation, no cell is marked; and when
`checkInputCoordinates(x, y)` is called on a cell of the grid that is hidden,
mine-free and has `minesAround = 0`, the call returns, and in the state `g'`
after it, where `(x, y)` is still mine-free with `minesAround = 0`:
(a) every cell joined to `(x, y)` by an 8-neighbour path of mine-free cells
with `minesAround = 0` is visible; (b) every grid neighbour of such a cell is
visible; (c) every cell that was hidden before the call and is visible after
it is such a cell or a neighbour of one.  The path is read in `g'`: when the
mines were placed before the call, every cell has in `g'` the mine and the
count it had in `g`; when the call is the first check, it is the call that
places the mines. -/
theorem cascade_reveals_zero_region (env : RandomEnv) (henv : env.Valid) (g : Game)
    (hr : ReachableByChecks env g) (x y : Int) (hxy : g.InRange x y)
    (hv : g.isCellVisible x y = false) (hm : g.doesCellHaveMine x y = false)
    (hz : g.numOfMinesAroundCell x y = 0) :
    (∀ a b : Int, g.InRange a b → g.isCellMarked a b = false) ∧
    ∃ g', g.checkInputCoordinates env x y = .ok g' ∧
      ZeroPath g' x y x y ∧
      (∀ a b : Int, ZeroPath g' x y a b → g'.isCellVisible a b = true) ∧
      (∀ a b c d : Int, ZeroPath g' x y a b → g'.InRange c d → Adjacent a b c d →
        g'.isCellVisible c d = true) ∧
      (∀ c d : Int, g.InRange c d → g.isCellVisible c d = false →
        g'.isCellVisible c d = true →
        ZeroPath g' x y c d ∨ ∃ a b : Int, ZeroPath g' x y a b ∧ Adjacent a b c d) ∧
      (g.minesHaveBeenSet = true → ∀ a b : Int, g.InRange a b →
        g'.doesCellHaveMine a b = g.doesCellHaveMine a b ∧
        g'.numOfMinesAroundCell a b = g.numOfMinesAroundCell a b) := by
  have hI := reachable_inv env henv g (reachableByChecks_reachable env g hr)
  obtain ⟨hnm, hcl⟩ := reachableByChecks_inv env henv g hr
  refine ⟨hnm, ?_⟩
  obtain ⟨g1, g', hres, hfuel, hI1, hset1, hnm1, hcl1, hh1, hw1, hvis1, hsame, hzero, hR, _⟩ :=
    check_step_spec env henv g x y hI hnm hcl hxy
  have hin : ∀ a b : Int, g.InRange a b → g1.InRange a b := by
    intro a b hab
    unfold Game.InRange at hab ⊢
    rw [hh1, hw1]; exact hab
  have hxy1 := hin x y hxy
  obtain ⟨hcl', hvis'⟩ :=
    check_closed env _ g1 x y g' _ hI1.shaped hset1 hxy1 hnm1 hcl1 (by omega) hfuel
  obtain ⟨hm1, hz1⟩ := hzero hm hz
  have hcong : ∀ a b : Int, g1.InRange a b →
      (getCell g'.cells a b).hasMine = (getCell g1.cells a b).hasMine ∧
      (getCell g'.cells a b).minesAround = (getCell g1.cells a b).minesAround :=
    fun a b hab => ⟨(hR.cell a b hab).1, (hR.cell a b hab).2.2.1⟩
  have hstart : ZeroPath g' x y x y :=
    zeroPath_congr hR.height hR.width hcong (.start hxy1 hm1 hz1)
  have ha : ∀ a b : Int, ZeroPath g' x y a b → g'.isCellVisible a b = true := by
    intro a b hp
    induction hp with
    | start _ _ _ => exact hvis'
    | step hp k1 hadj _ _ ih =>
      obtain ⟨e1, e2, e3⟩ := zeroPath_end hp
      exact hcl' _ _ e1 (fun h => h) ih e2 e3 _ _ k1 hadj
  refine ⟨g', hres, hstart, ha, ?_, ?_, ?_⟩
  · intro a b c d hp hcd hadj
    obtain ⟨e1, e2, e3⟩ := zeroPath_end hp
    exact hcl' a b e1 (fun h => h) (ha a b hp) e2 e3 c d hcd hadj
  · intro c d hcd hvc hvc'
    have hvc1 : g1.isCellVisible c d = false := by rw [hvis1 c d hcd]; exact hvc
    rcases check_newly_visible env _ g1 x y g' hI1.shaped hset1 hxy1 (by omega) hfuel c d
      (hin c d hcd) hvc1 hvc' with ⟨rfl, rfl⟩ | hnear
    · exact Or.inl hstart
    · exact nearZeroPath_congr hR.height hR.width hcong hnear
  · intro hset a b hab
    have := hsame hset
    subst this
    exact ⟨(hR.cell a b hab).1, (hR.cell a b hab).2.2.1⟩

/-- C3 at `exampleStrip`, on which the mines are placed, for the hidden,
mine-free cell `(2, 0)` of count 0. -/
theorem cascade_reveals_zero_region_witness :
    reverseEnv.Valid ∧ ReachableByChecks reverseEnv exampleStrip ∧
      exampleStrip.InRange 2 0 ∧ exampleStrip.isCellVisible 2 0 = false ∧
      exampleStrip.doesCellHaveMine 2 0 = false ∧
      exampleStrip.numOfMinesAroundCell 2 0 = 0 ∧
      ∃ g', exampleStrip.checkInputCoordinates reverseEnv 2 0 = .ok g' ∧
        ZeroPath g' 2 0 2 0 ∧
        (∀ a b : Int, ZeroPath g' 2 0 a b → g'.isCellVisible a b = true) ∧
        (∀ a b c d : Int, ZeroPath g' 2 0 a b → g'.InRange c d → Adjacent a b c d →
          g'.isCellVisible c d = true) :=
  ⟨valid_reverse, .step _ 11 0 (.new 1 12 3 (by decide)), by decide, by decide, by decide,
    by decide,
    match (cascade_reveals_zero_region reverseEnv valid_reverse exampleStrip
      (.step _ 11 0 (.new 1 12 3 (by decide))) 2 0 (by decide) (by decide) (by decide)
      (by decide)).2 with
    | ⟨g', h1, h2, h3, h4, _⟩ => ⟨g', h1, h2, h3, h4⟩⟩

/-! ## Double toggle, construction, errors of check and mark -/

theorem grid_ext {h w : Nat} {c1 c2 : List (List Cell)} (hs1 : GridShape h w c1)
    (hs2 : GridShape h w c2)
    (hc : ∀ a b : Int, 0 ≤ a → a < w → 0 ≤ b → b < h → getCell c1 a b = getCell c2 a b) :
    c1 = c2 := by
  rw [grid_tabulate hs1, grid_tabulate hs2]
  apply List.map_congr_left
  intro i hi
  apply List.map_congr_left
  intro j hj
  rw [List.mem_range] at hi hj
  exact hc (Int.ofNat j) (Int.ofNat i) (by simp) (by simp; omega) (by simp) (by simp; omega)

theorem game_ext_of_shaped (g1 g2 : Game) (hs1 : g1.Shaped) (hs2 : g2.Shaped)
    (e1 : g2.gridHeight = g1.gridHeight) (e2 : g2.gridWidth = g1.gridWidth)
    (e3 : g2.numOfMines = g1.numOfMines) (e4 : g2.numOfMarkedMines = g1.numOfMarkedMines)
    (e5 : g2.numOfWronglyMarkedCells = g1.numOfWronglyMarkedCells)
    (e6 : g2.numOfVisibleCells = g1.numOfVisibleCells)
    (e7 : g2._checkedMine = g1._checkedMine) (e8 : g2.minesHaveBeenSet = g1.minesHaveBeenSet)
    (hc : ∀ a b : Int, g1.InRange a b → getCell g2.cells a b = getCell g1.cells a b) :
    g2 = g1 := by
  have hcells : g2.cells = g1.cells := by
    have hs2' : GridShape g1.gridHeight.toNat g1.gridWidth.toNat g2.cells := by
      have := hs2.2.2; rw [e1, e2] at this; exact this
    apply grid_ext hs2' hs1.2.2
    intro a b h1 h2 h3 h4
    have := hs1.1; have := hs1.2.1
    exact hc a b ⟨h1, by omega, h3, by omega⟩
  cases g1; cases g2
  simp only at e1 e2 e3 e4 e5 e6 e7 e8 hcells
  simp only [Game.mk.injEq]
  exact ⟨e1, e2, e3, e4, e5, e6, e7, e8, hcells⟩

/-- C11: double toggle is the identity.  On every state (with the grid of its
declared size) on which the mines are placed, for every cell `(x, y)` of the
grid, `markInputCoordinates(x, y)` returns, a second `markInputCoordinates(x, y)`
returns too, and the state after the second call is the state before the
first: the mark of the cell, `numOfMarkedMines`, `numOfWronglyMarkedCells` and
every other member and cell; so a cell that starts unmarked ends unmarked. -/
theorem mark_twice_is_identity (g : Game) (x y : Int) (hs : g.Shaped)
    (hset : g.minesHaveBeenSet = true) (hxy : g.InRange x y) :
    ∃ g1, g.markInputCoordinates x y = .ok g1 ∧ g1.markInputCoordinates x y = .ok g ∧
      g1.isCellMarked x y = !g.isCellMarked x y := by
  obtain ⟨g1, r1, hs1, h1, w1, n1, v1, c1, s1, cell1, mm1, wm1, _⟩ :=
    markInputCoordinates_spec g hs hset x y hxy
  have hxy1 : g1.InRange x y := by
    unfold Game.InRange at hxy ⊢; rw [h1, w1]; exact hxy
  obtain ⟨g2, r2, hs2, h2, w2, n2, v2, c2, s2, cell2, mm2, wm2, _⟩ :=
    markInputCoordinates_spec g1 hs1 (s1.trans hset) x y hxy1
  have hmine : g1.doesCellHaveMine x y = g.doesCellHaveMine x y := by
    unfold Game.doesCellHaveMine; rw [cell1 x y hxy]; simp
  have hmark : g1.isCellMarked x y = !g.isCellMarked x y := by
    unfold Game.isCellMarked; rw [cell1 x y hxy]; simp
  refine ⟨g1, r1, ?_, hmark⟩
  rw [r2]
  congr 1
  apply game_ext_of_shaped g g2 hs hs2 (h2.trans h1) (w2.trans w1) (n2.trans n1) ?_ ?_
    (v2.trans v1) (c2.trans c1) (s2.trans s1) ?_
  · rw [mm2, mm1, hmine, hmark]
    cases g.doesCellHaveMine x y <;> cases g.isCellMarked x y <;> simp
  · rw [wm2, wm1, hmine, hmark]
    cases g.doesCellHaveMine x y <;> cases g.isCellMarked x y <;> simp
  · intro a b hab
    have hab1 : g1.InRange a b := by
      unfold Game.InRange at hab ⊢; rw [h1, w1]; exact hab
    rw [cell2 a b hab1, cell1 a b hab]
    by_cases hne : a = x ∧ b = y
    · simp [hne]
    · simp [hne]

/-- C11 at `exampleGame` for the hidden mine cell `(3, 3)`. -/
theorem mark_twice_is_identity_witness :
    exampleGame.Shaped ∧ exampleGame.minesHaveBeenSet = true ∧ exampleGame.InRange 3 3 ∧
      ∃ g1, exampleGame.markInputCoordinates 3 3 = .ok g1 ∧
        g1.markInputCoordinates 3 3 = .ok exampleGame ∧
        g1.isCellMarked 3 3 = !exampleGame.isCellMarked 3 3 :=
  ⟨by decide, by decide, by decide,
    mark_twice_is_identity exampleGame 3 3 (by decide) (by decide) (by decide)⟩

theorem wrapInt_of_fits (x : Int) (h1 : -2147483648 ≤ x) (h2 : x ≤ 2147483647) :
    wrapInt x = x := by
  unfold wrapInt
  omega

theorem wrapInt_max (h w : Int) (hh : 0 ≤ h) (hw : 0 ≤ w) (hfit : h * w ≤ 2147483647) :
    wrapInt (wrapInt (h * w) - 9) = h * w - 9 := by
  have hmul := Int.mul_nonneg hh hw
  rw [wrapInt_of_fits (h * w) (by omega) hfit, wrapInt_of_fits _ (by omega) (by omega)]

theorem construct_eq (h w n : Int) :
    Game.construct h w n =
      if h < 0 ∨ w < 0 ∨ n < 0 ∨ n > max (wrapInt (wrapInt (h * w) - 9)) 0 then
        .error .outOfRange
      else .ok (Game.new h w n) := by
  unfold Game.construct Game.verifyGridDimension
  by_cases hh : h < 0
  · simp [hh]
  · by_cases hw : w < 0
    · simp [hh, hw]
    · simp only [hh, hw, if_false, false_or]
      unfold Game.verifyNumOfMines Game.maxNumOfMines minNumOfMines
      simp only [Game.blank, hh, hw, or_self, if_false]
      by_cases hn : n > max (wrapInt (wrapInt (h * w) - 9)) 0
      · simp [hn]
      · by_cases hn0 : n < 0
        · simp [hn, hn0]
        · simp only [hn, hn0, if_false, or_self]
          rfl

theorem construct_eq_fits (h w n : Int) (hfit : 0 ≤ h → 0 ≤ w → h * w ≤ 2147483647) :
    Game.construct h w n =
      if h < 0 ∨ w < 0 ∨ n < 0 ∨ n > max (h * w - 9) 0 then .error .outOfRange
      else .ok (Game.new h w n) := by
  rw [construct_eq]
  by_cases hneg : h < 0 ∨ w < 0
  · rw [if_pos (by omega), if_pos (by omega)]
  · rw [wrapInt_max h w (by omega) (by omega) (hfit (by omega) (by omega))]

/-- The claim C13 as stated fails on the code: `Game(50000, 50000, 1)` meets
its precondition, `0 ≤ 1 ≤ max(50000*50000 - 9, 0)`, and the constructor
throws `std::out_of_range`, because `Game::maxNumOfMines` computes
`50000 * 50000` in `int`. -/
theorem construct_large_grid_fails :
    (0 : Int) ≤ 50000 ∧ (0 : Int) ≤ 1 ∧ (1 : Int) ≤ max (50000 * 50000 - 9) 0 ∧
      Game.construct 50000 50000 1 = .error .outOfRange ∧
      ¬ ∃ g, Game.construct 50000 50000 1 = .ok g := by
  have key : Game.construct 50000 50000 1 = .error .outOfRange := by
    rw [construct_eq, if_pos (by decide)]
  refine ⟨by decide, by decide, by decide, key, ?_⟩
  rintro ⟨g, hg⟩
  rw [key] at hg
  cases hg

/-- C13, amended: for all `h ≥ 0`, `w ≥ 0` with `h*w ≤ INT_MAX` and `n` with
`0 ≤ n ≤ max(h*w - 9, 0)`, constructing `Game(h, w, n)` does not fail; the game
has `gridHeight = h`, `gridWidth = w`, `numOfMines = n`, a grid of exactly `h`
rows of `w` cells in which every cell is mine-free, invisible, unmarked and has
`minesAround = 0`, the three counters at 0 and both flags false. -/
theorem construct_valid (h w n : Int) (hh : 0 ≤ h) (hw : 0 ≤ w) (hn0 : 0 ≤ n)
    (hn : n ≤ max (h * w - 9) 0) (hfit : h * w ≤ 2147483647) :
    ∃ g, Game.construct h w n = .ok g ∧
      g.gridHeight = h ∧ g.gridWidth = w ∧ g.numOfMines = n ∧
      g.cells.length = h.toNat ∧ (∀ row ∈ g.cells, row.length = w.toNat) ∧
      (∀ row ∈ g.cells, ∀ c ∈ row,
        c.hasMine = false ∧ c.isVisible = false ∧ c.isMarked = false ∧ c.minesAround = 0) ∧
      (∀ x y : Int, g.InRange x y →
        g.doesCellHaveMine x y = false ∧ g.isCellVisible x y = false ∧
        g.isCellMarked x y = false ∧ g.numOfMinesAroundCell x y = 0) ∧
      g.numOfMarkedMines = 0 ∧ g.numOfWronglyMarkedCells = 0 ∧ g.numOfVisibleCells = 0 ∧
      g._checkedMine = false ∧ g.minesHaveBeenSet = false := by
  refine ⟨Game.new h w n, ?_, rfl, rfl, rfl, ?_, ?_, ?_, ?_, rfl, rfl, rfl, rfl, rfl⟩
  · rw [construct_eq_fits h w n (fun _ _ => hfit), if_neg (by omega)]
  · simp [Game.new, initCells]
  · intro row hrow
    simp only [Game.new, initCells, List.mem_replicate] at hrow
    rw [hrow.2]; simp
  · intro row hrow c hc
    simp only [Game.new, initCells, List.mem_replicate] at hrow
    rw [hrow.2] at hc
    simp only [List.mem_replicate] at hc
    rw [hc.2]
    exact ⟨rfl, rfl, rfl, rfl⟩
  · intro x y _
    unfold Game.doesCellHaveMine Game.isCellVisible Game.isCellMarked Game.numOfMinesAroundCell
    rw [show (Game.new h w n).cells = initCells h w from rfl, getCell_initCells]
    exact ⟨rfl, rfl, rfl, rfl⟩

/-- C13, amended, at `Game(10, 12, 22)`, the game of `usageExamples`. -/
theorem construct_valid_witness :
    (0 : Int) ≤ 10 ∧ (0 : Int) ≤ 12 ∧ (0 : Int) ≤ 22 ∧ (22 : Int) ≤ max (10 * 12 - 9) 0 ∧
      (10 : Int) * 12 ≤ 2147483647 ∧
      ∃ g, Game.construct 10 12 22 = .ok g ∧ g.gridHeight = 10 ∧ g.gridWidth = 12 ∧
        g.numOfMines = 22 :=
  ⟨by decide, by decide, by decide, by decide, by decide,
    match construct_valid 10 12 22 (by decide) (by decide) (by decide) (by decide)
      (by decide) with
    | ⟨g, h1, h2, h3, h4, _⟩ => ⟨g, h1, h2, h3, h4⟩⟩

/-- The claim C14 as stated fails on the code: `maxNumOfMines(50000, 50000)`
returns 0, not `max(50000*50000 - 9, 0) = 2499999991`, because the product is
computed in `int`; and so `Game(50000, 50000, 1)` fails with an out-of-range
error although none of `h < 0`, `w < 0`, `n < 0`, `n > max(h*w - 9, 0)`
holds. -/
theorem maxNumOfMines_wraps :
    Game.maxNumOfMines 50000 50000 = .ok 0 ∧
      max ((50000 : Int) * 50000 - 9) 0 = 2499999991 ∧
      Game.construct 50000 50000 1 = .error .outOfRange ∧
      ¬ ((50000 : Int) < 0 ∨ (50000 : Int) < 0 ∨ (1 : Int) < 0 ∨
        (1 : Int) > max (50000 * 50000 - 9) 0) := by
  refine ⟨?_, by decide, ?_, by decide⟩
  · unfold Game.maxNumOfMines
    rw [if_neg (by decide)]
    have : max (wrapInt (wrapInt (50000 * 50000) - 9)) 0 = 0 := by decide
    rw [this]
  · rw [construct_eq, if_pos (by decide)]

/-- C14, amended: when the product `h*w` fits `int` (it is computed only for
`h, w ≥ 0`), constructing `Game(h, w, n)` fails, with an out-of-range error, if
and only if `h < 0` or `w < 0` or `n < 0` or `n > max(h*w - 9, 0)`, and
otherwise returns the game; `maxNumOfMines(h, w)` is `max(h*w - 9, 0)` for all
`h, w ≥ 0` with `h*w ≤ INT_MAX`; and `Game(3, 3, 1)` fails, the maximum for a
3x3 grid being 0. -/
theorem construct_fails_iff :
    (∀ h w n : Int, (0 ≤ h → 0 ≤ w → h * w ≤ 2147483647) →
      (Game.construct h w n = .error .outOfRange ↔
        (h < 0 ∨ w < 0 ∨ n < 0 ∨ n > max (h * w - 9) 0)) ∧
      ((∃ e, Game.construct h w n = .error e) ↔
        (h < 0 ∨ w < 0 ∨ n < 0 ∨ n > max (h * w - 9) 0)) ∧
      (¬ (h < 0 ∨ w < 0 ∨ n < 0 ∨ n > max (h * w - 9) 0) →
        Game.construct h w n = .ok (Game.new h w n))) ∧
    (∀ h w : Int, 0 ≤ h → 0 ≤ w → h * w ≤ 2147483647 →
      Game.maxNumOfMines h w = .ok (max (h * w - 9) 0)) ∧
    Game.maxNumOfMines 3 3 = .ok 0 ∧
    Game.construct 3 3 1 = .error .outOfRange := by
  refine ⟨?_, ?_, ?_, ?_⟩
  · intro h w n hfit
    rw [construct_eq_fits h w n hfit]
    by_cases hc : h < 0 ∨ w < 0 ∨ n < 0 ∨ n > max (h * w - 9) 0
    · rw [if_pos hc]
      exact ⟨⟨fun _ => hc, fun _ => rfl⟩, ⟨fun _ => hc, fun _ => ⟨_, rfl⟩⟩,
        fun h => absurd hc h⟩
    · rw [if_neg hc]
      refine ⟨⟨fun h => ?_, fun h => absurd h hc⟩, ⟨fun h => ?_, fun h => absurd h hc⟩,
        fun _ => rfl⟩
      · cases h
      · obtain ⟨e, he⟩ := h
        cases he
  · intro h w hh hw hfit
    unfold Game.maxNumOfMines
    rw [if_neg (by omega), wrapInt_max h w hh hw hfit]
  · unfold Game.maxNumOfMines
    rw [if_neg (by decide), wrapInt_max 3 3 (by decide) (by decide) (by decide)]
    rfl
  · rw [construct_eq_fits 3 3 1 (fun _ _ => by decide), if_pos (by decide)]

/-- C15: for every game state and every `(x, y)` outside the grid, both
`checkInputCoordinates(x, y)` and `markInputCoordinates(x, y)` throw
`std::out_of_range` and leave the whole state as it was (no mine is placed,
`minesHaveBeenSet` keeps its value); on a grid with `gridHeight = 0` or
`gridWidth = 0` every check and every mark fails this way. -/
theorem outside_grid_fails (env : RandomEnv) (g : Game) :
    (∀ x y : Int, (x < 0 ∨ y < 0 ∨ x ≥ g.gridWidth ∨ y ≥ g.gridHeight) →
      g.checkInputCoordinates env x y = .threw .outOfRange g ∧
      g.markInputCoordinates x y = .threw .outOfRange g) ∧
    ((g.gridHeight = 0 ∨ g.gridWidth = 0) → ∀ x y : Int,
      g.checkInputCoordinates env x y = .threw .outOfRange g ∧
      g.markInputCoordinates x y = .threw .outOfRange g) := by
  have key : ∀ x y : Int, (x < 0 ∨ y < 0 ∨ x ≥ g.gridWidth ∨ y ≥ g.gridHeight) →
      g.checkInputCoordinates env x y = .threw .outOfRange g ∧
      g.markInputCoordinates x y = .threw .outOfRange g := by
    intro x y hout
    constructor
    · unfold Game.checkInputCoordinates
      rw [checkFuel, if_pos hout]
    · unfold Game.markInputCoordinates
      rw [if_pos hout]
  refine ⟨key, ?_⟩
  intro hz x y
  apply key
  omega

/-- C16: for every game state on which the mines are not placed and every cell
`(x, y)` of the grid, `markInputCoordinates(x, y)` throws
`std::invalid_argument` and leaves the whole state as it was; when `(x, y)` is
outside the grid the error is `std::out_of_range` instead. -/
theorem mark_before_mines_fails (g : Game) (x y : Int) (hset : g.minesHaveBeenSet = false) :
    (g.InRange x y → g.markInputCoordinates x y = .threw .invalidArgument g) ∧
    (¬ g.InRange x y → g.markInputCoordinates x y = .threw .outOfRange g) := by
  constructor
  · rintro ⟨h1, h2, h3, h4⟩
    unfold Game.markInputCoordinates
    rw [if_neg (by omega)]
    simp [hset]
  · intro hout
    unfold Game.markInputCoordinates
    rw [if_pos (by unfold Game.InRange at hout; omega)]

/-- C16 at the fresh 4x4 game with 7 mines. -/
theorem mark_before_mines_fails_witness :
    (Game.new 4 4 7).minesHaveBeenSet = false ∧
      (Game.new 4 4 7).markInputCoordinates 1 1 = .threw .invalidArgument (Game.new 4 4 7) ∧
      (Game.new 4 4 7).markInputCoordinates 4 1 = .threw .outOfRange (Game.new 4 4 7) :=
  ⟨rfl, (mark_before_mines_fails (Game.new 4 4 7) 1 1 rfl).1 (by decide),
    (mark_before_mines_fails (Game.new 4 4 7) 4 1 rfl).2 (by decide)⟩

/-! ## Deserialisation: errors -/

theorem attempt_ok {α : Type} (t : Game) (a : α) (k : α → Outcome) :
    attempt t (Except.ok a) k = k a := rfl

theorem attempt_error {α : Type} (t : Game) (e : Error) (k : α → Outcome) :
    attempt t (Except.error e : Except Error α) k = .threw e t := rfl

theorem bind_ok {α β : Type} (a : α) (f : α → Except Error β) :
    ((Except.ok a : Except Error α) >>= f) = f a := rfl

theorem deserialiseCurrentGame_scalars (t : Game) (j : Json) (h w n mm wm v : Int)
    (r1 : j.currentGameInt "gridHeight" = .ok h) (r2 : j.currentGameInt "gridWidth" = .ok w)
    (r3 : j.currentGameInt "numOfMines" = .ok n)
    (r4 : j.currentGameInt "numOfMarkedMines" = .ok mm)
    (r5 : j.currentGameInt "numOfWronglyMarkedCells" = .ok wm)
    (r6 : j.currentGameInt "numOfVisibleCells" = .ok v) :
    t.deserialiseCurrentGame j =
      if h < 0 then .threw .outOfRange t
      else if w < 0 then .threw .outOfRange { t with gridHeight := h }
      else if n > max (wrapInt (wrapInt (h * w) - 9)) 0 ∨ n < 0 then
        .threw .outOfRange { t with gridHeight := h, gridWidth := w }
      else if mm > n ∨ mm < 0 then
        .threw .outOfRange { t with gridHeight := h, gridWidth := w, numOfMines := n }
      else if wm > wrapInt (wrapInt (h * w) - n) ∨ wm < 0 then
        .threw .outOfRange { t with gridHeight := h, gridWidth := w, numOfMines := n,
                                    numOfMarkedMines := mm }
      else if v > wrapInt (h * w) ∨ v < 0 then
        .threw .outOfRange { t with gridHeight := h, gridWidth := w, numOfMines := n,
                                    numOfMarkedMines := mm, numOfWronglyMarkedCells := wm }
      else
        attempt { t with gridHeight := h, gridWidth := w, numOfMines := n,
                         numOfMarkedMines := mm, numOfWronglyMarkedCells := wm,
                         numOfVisibleCells := v }
          (j.currentGameBool "_checkedMine") fun checked =>
        attempt { t with gridHeight := h, gridWidth := w, numOfMines := n,
                         numOfMarkedMines := mm, numOfWronglyMarkedCells := wm,
                         numOfVisibleCells := v, _checkedMine := checked }
          (j.currentGameBool "minesHaveBeenSet") fun minesSet =>
        Game.loadGrid { t with gridHeight := h, gridWidth := w, numOfMines := n,
                               numOfMarkedMines := mm, numOfWronglyMarkedCells := wm,
                               numOfVisibleCells := v, _checkedMine := checked,
                               minesHaveBeenSet := minesSet } j := by
  unfold Game.deserialiseCurrentGame
  rw [r1, r2, r3, r4, r5, r6]
  simp only [bind_ok]
  unfold Game.verifyGridDimension
  by_cases c1 : h < 0
  · rw [if_pos c1, if_pos c1]; rfl
  rw [if_neg c1, if_neg c1, attempt_ok]
  try dsimp only
  by_cases c2 : w < 0
  · rw [if_pos c2, if_pos c2]; rfl
  rw [if_neg c2, if_neg c2, attempt_ok]
  try dsimp only
  unfold Game.verifyNumOfMines Game.maxNumOfMines minNumOfMines
  try dsimp only
  rw [if_neg (by omega)]
  try dsimp only
  by_cases c3 : n > max (wrapInt (wrapInt (h * w) - 9)) 0
  · rw [if_pos c3, if_pos (Or.inl c3)]; rfl
  rw [if_neg c3]
  by_cases c3' : n < 0
  · rw [if_pos c3', if_pos (Or.inr c3')]; rfl
  rw [if_neg c3', if_neg (by omega), attempt_ok]
  try dsimp only
  unfold Game.verifyNumOfMarkedMines
  try dsimp only
  by_cases c4 : mm > n
  · rw [if_pos c4, if_pos (Or.inl c4)]; rfl
  rw [if_neg c4]
  by_cases c4' : mm < 0
  · rw [if_pos c4', if_pos (Or.inr c4')]; rfl
  rw [if_neg c4', if_neg (by omega), attempt_ok]
  try dsimp only
  unfold Game.verifyNumOfWronglyMarkedCells
  try dsimp only
  by_cases c5 : wm > wrapInt (wrapInt (h * w) - n)
  · rw [if_pos c5, if_pos (Or.inl c5)]; rfl
  rw [if_neg c5]
  by_cases c5' : wm < 0
  · rw [if_pos c5', if_pos (Or.inr c5')]; rfl
  rw [if_neg c5', if_neg (by omega), attempt_ok]
  try dsimp only
  unfold Game.verifyNumOfVisibleCells
  try dsimp only
  by_cases c6 : v > wrapInt (h * w)
  · rw [if_pos c6, if_pos (Or.inl c6)]; rfl
  rw [if_neg c6]
  by_cases c6' : v < 0
  · rw [if_pos c6', if_pos (Or.inr c6')]; rfl
  rw [if_neg c6', if_neg (by omega), attempt_ok]

theorem deserialiseCurrentGame_scalars_fits (t : Game) (j : Json) (h w n mm wm v : Int)
    (r1 : j.currentGameInt "gridHeight" = .ok h) (r2 : j.currentGameInt "gridWidth" = .ok w)
    (r3 : j.currentGameInt "numOfMines" = .ok n)
    (r4 : j.currentGameInt "numOfMarkedMines" = .ok mm)
    (r5 : j.currentGameInt "numOfWronglyMarkedCells" = .ok wm)
    (r6 : j.currentGameInt "numOfVisibleCells" = .ok v)
    (hfit : 0 ≤ h → 0 ≤ w → h * w ≤ 2147483647) :
    t.deserialiseCurrentGame j =
      if h < 0 then .threw .outOfRange t
      else if w < 0 then .threw .outOfRange { t with gridHeight := h }
      else if n > max (h * w - 9) 0 ∨ n < 0 then
        .threw .outOfRange { t with gridHeight := h, gridWidth := w }
      else if mm > n ∨ mm < 0 then
        .threw .outOfRange { t with gridHeight := h, gridWidth := w, numOfMines := n }
      else if wm > h * w - n ∨ wm < 0 then
        .threw .outOfRange { t with gridHeight := h, gridWidth := w, numOfMines := n,
                                    numOfMarkedMines := mm }
      else if v > h * w ∨ v < 0 then
        .threw .outOfRange { t with gridHeight := h, gridWidth := w, numOfMines := n,
                                    numOfMarkedMines := mm, numOfWronglyMarkedCells := wm }
      else
        attempt { t with gridHeight := h, gridWidth := w, numOfMines := n,
                         numOfMarkedMines := mm, numOfWronglyMarkedCells := wm,
                         numOfVisibleCells := v }
          (j.currentGameBool "_checkedMine") fun checked =>
        attempt { t with gridHeight := h, gridWidth := w, numOfMines := n,
                         numOfMarkedMines := mm, numOfWronglyMarkedCells := wm,
                         numOfVisibleCells := v, _checkedMine := checked }
          (j.currentGameBool "minesHaveBeenSet") fun minesSet =>
        Game.loadGrid { t with gridHeight := h, gridWidth := w, numOfMines := n,
                               numOfMarkedMines := mm, numOfWronglyMarkedCells := wm,
                               numOfVisibleCells := v, _checkedMine := checked,
                               minesHaveBeenSet := minesSet } j := by
  rw [deserialiseCurrentGame_scalars t j h w n mm wm v r1 r2 r3 r4 r5 r6]
  by_cases c1 : h < 0
  · rw [if_pos c1, if_pos c1]
  rw [if_neg c1, if_neg c1]
  by_cases c2 : w < 0
  · rw [if_pos c2, if_pos c2]
  rw [if_neg c2, if_neg c2]
  have hf := hfit (by omega) (by omega)
  have hmul : 0 ≤ h * w := Int.mul_nonneg (by omega) (by omega)
  rw [wrapInt_max h w (by omega) (by omega) hf]
  simp only [wrapInt_of_fits (h * w) (by omega) hf]
  by_cases c3 : n > max (h * w - 9) 0 ∨ n < 0
  · rw [if_pos c3, if_pos c3]
  rw [if_neg c3, if_neg c3, wrapInt_of_fits (h * w - n) (by omega) (by omega)]

theorem deserialise_matching (t : Game) (j magic version : Json)
    (hm : j.getKey "magic" = .ok magic) (hmag : magic.isString "Timi's Minesweeper" = true)
    (hv : j.getKey "version" = .ok version) (hver : version.isString "1.0" = true) :
    t.deserialise (some j) = t.deserialiseCurrentGame j := by
  unfold Game.deserialise
  dsimp only
  rw [hm, attempt_ok, if_pos hmag, hv, attempt_ok, if_pos hver]

/-- C19: a document whose magic value is present but is not "Timi's
Minesweeper", or whose magic matches and whose version value is present but is
not "1.0", is accepted without an error and the whole game state is what it
was, whatever else the document holds. -/
theorem deserialise_mismatch_is_noop (t : Game) (j : Json) :
    (∀ magic, j.getKey "magic" = .ok magic → magic.isString "Timi's Minesweeper" = false →
      t.deserialise (some j) = .ok t) ∧
    (∀ magic version, j.getKey "magic" = .ok magic →
      magic.isString "Timi's Minesweeper" = true →
      j.getKey "version" = .ok version → version.isString "1.0" = false →
      t.deserialise (some j) = .ok t) := by
  constructor
  · intro magic hm hmag
    unfold Game.deserialise
    dsimp only
    rw [hm, attempt_ok, hmag]
    rfl
  · intro magic version hm hmag hv hver
    unfold Game.deserialise
    dsimp only
    rw [hm, attempt_ok, if_pos hmag, hv, attempt_ok, hver]
    rfl

theorem deserialise_mismatch_is_noop_witness :
    exampleGame.deserialise (some (.obj [("magic", .str "Timi's Minesweeper"),
        ("version", .str "2.0"), ("currentGame", .null)])) = .ok exampleGame ∧
    exampleGame.deserialise (some (.obj [("magic", .num 7)])) = .ok exampleGame :=
  ⟨(deserialise_mismatch_is_noop exampleGame _).2 _ _ rfl (by decide) rfl (by decide),
   (deserialise_mismatch_is_noop exampleGame _).1 _ rfl (by decide)⟩

theorem attempt_threw {α : Type} (t : Game) (r : Except Error α) (k : α → Outcome)
    (e : Error) (t' : Game) (h : attempt t r k = .threw e t') :
    (r = .error e ∧ t' = t) ∨ ∃ a, r = .ok a ∧ k a = .threw e t' := by
  cases r with
  | error e1 => cases h; exact Or.inl ⟨rfl, rfl⟩
  | ok a => exact Or.inr ⟨a, rfl, h⟩

theorem bind_verify_ok (r : Except Error Int) (f : Int → Except Error Int)
    (hf : ∀ x a, f x = .ok a → a = x) (a : Int) (h : (r >>= f) = .ok a) : r = .ok a := by
  cases r with
  | error e => cases h
  | ok x =>
    have := hf x a h
    rw [this]

theorem verifyGridDimension_ok (x a : Int) (h : Game.verifyGridDimension x = .ok a) :
    a = x ∧ 0 ≤ a := by
  unfold Game.verifyGridDimension at h
  split at h
  · cases h
  · cases h; exact ⟨rfl, by omega⟩

theorem verifyNumOfMines_ok (t : Game) (x a : Int) (h : t.verifyNumOfMines x = .ok a) :
    a = x := by
  unfold Game.verifyNumOfMines at h
  split at h
  · cases h
  · split at h
    · cases h
    · split at h
      · cases h
      · cases h; rfl

theorem verifyNumOfMarkedMines_ok (t : Game) (x a : Int)
    (h : t.verifyNumOfMarkedMines x = .ok a) : a = x := by
  unfold Game.verifyNumOfMarkedMines at h
  split at h
  · cases h
  · split at h
    · cases h
    · cases h; rfl

theorem verifyNumOfWronglyMarkedCells_ok (t : Game) (x a : Int)
    (h : t.verifyNumOfWronglyMarkedCells x = .ok a) : a = x := by
  unfold Game.verifyNumOfWronglyMarkedCells at h
  dsimp only at h
  split at h
  · cases h
  · split at h
    · cases h
    · cases h; rfl

theorem verifyNumOfVisibleCells_ok (t : Game) (x a : Int)
    (h : t.verifyNumOfVisibleCells x = .ok a) : a = x := by
  unfold Game.verifyNumOfVisibleCells at h
  split at h
  · cases h
  · split at h
    · cases h
    · cases h; rfl

theorem attempt_state {α : Type} (t : Game) (r : Except Error α) (k : α → Outcome)
    (hk : ∀ a, ∃ cells, (k a).state = { t with cells := cells }) :
    ∃ cells, (attempt t r k).state = { t with cells := cells } := by
  cases r with
  | error e => exact ⟨t.cells, rfl⟩
  | ok a => exact hk a

theorem foldl_andThen_state (f : Json → Game → Outcome) (t : Game)
    (hf : ∀ x cells, ∃ cells', (f x { t with cells := cells }).state = { t with cells := cells' })
    (l : List Json) :
    ∀ o : Outcome, (∃ cells, o.state = { t with cells := cells }) →
      ∃ cells, (l.foldl (fun o x => o.andThen (f x)) o).state = { t with cells := cells } := by
  induction l with
  | nil => intro o ho; exact ho
  | cons x xs ih =>
    intro o ho
    rw [List.foldl_cons]
    apply ih
    obtain ⟨cells, hc⟩ := ho
    cases o with
    | ok g =>
      have hg : g = { t with cells := cells } := hc
      rw [hg]
      exact hf x cells
    | threw e g => exact ⟨cells, hc⟩

theorem loadCell_state (y : Int) (jCellObject : Json) (t : Game) :
    ∃ cells, (t.loadCell y jCellObject).state = { t with cells := cells } := by
  unfold Game.loadCell
  apply attempt_state
  intro x
  split
  · apply attempt_state
    intro c
    exact ⟨_, rfl⟩
  · exact ⟨t.cells, rfl⟩

theorem loadRow_state (jRowObject : Json) (t : Game) :
    ∃ cells, (t.loadRow jRowObject).state = { t with cells := cells } := by
  unfold Game.loadRow
  apply attempt_state
  intro y
  apply attempt_state
  intro rowCells
  exact foldl_andThen_state (fun c t => t.loadCell y c) t
    (fun x cells => loadCell_state y x _) _ _ ⟨t.cells, rfl⟩

theorem loadGrid_state (j : Json) (t : Game) :
    ∃ cells, (t.loadGrid j).state = { t with cells := cells } := by
  unfold Game.loadGrid
  dsimp only
  split
  · have key : ∃ cells, (attempt t.resizeCells
        (j.getKey "currentGame" >>= fun cg => cg.getKey "cells") fun cells =>
        cells.items.foldl (fun o jRowObject => o.andThen fun t => t.loadRow jRowObject)
          (.ok t.resizeCells)).state = { t.resizeCells with cells := cells } := by
      apply attempt_state
      intro cells
      exact foldl_andThen_state (fun r t => t.loadRow r) t.resizeCells
        (fun x cells => loadRow_state x _) _ _ ⟨t.resizeCells.cells, rfl⟩
    obtain ⟨cells, hc⟩ := key
    exact ⟨cells, hc⟩
  · exact ⟨_, rfl⟩

/-- C18 fails on the code: `deserialise` assigns each member as soon as its own
verification has passed, so a later failure leaves the object half-written.
On a fresh 5 by 5 game, the document with the valid `gridHeight` 7 followed by
the negative `gridWidth` -1 makes `deserialise` throw `std::out_of_range` from
`verifyGridDimension(gridWidth)`, after `gridHeight` was assigned: the game is
left with `gridHeight` 7 and its grid of 5 rows, so it no longer has its
declared size, and `(0, 6)` passes the range test of `checkInputCoordinates`
and `markInputCoordinates` while `cells[6][0]` is outside the vector. -/
theorem deserialise_failure_keeps_gridHeight :
    (Game.new 5 5 0).deserialise (some (scalarDocument 7 (-1) 0 0 0 0)) =
        .threw .outOfRange { Game.new 5 5 0 with gridHeight := 7 } ∧
      ({ Game.new 5 5 0 with gridHeight := 7 } : Game) ≠ Game.new 5 5 0 ∧
      (Game.new 5 5 0).Shaped ∧
      ¬ ({ Game.new 5 5 0 with gridHeight := 7 } : Game).Shaped ∧
      ({ Game.new 5 5 0 with gridHeight := 7 } : Game).cells.length = 5 ∧
      ({ Game.new 5 5 0 with gridHeight := 7 } : Game).InRange 0 6 ∧
      ¬ inBounds ({ Game.new 5 5 0 with gridHeight := 7 } : Game).cells 0 6 ∧
      ¬ (∀ (t : Game) (input : Option Json) (e : Error) (t' : Game),
          t.deserialise input = .threw e t' → t' = t) := by
  refine ⟨by decide, by decide, by decide, by decide, by decide, by decide, by decide, ?_⟩
  intro hall
  have h := hall (Game.new 5 5 0) (some (scalarDocument 7 (-1) 0 0 0 0)) .outOfRange
    { Game.new 5 5 0 with gridHeight := 7 } (by decide)
  revert h
  decide

/-! ## Serialisation round trip -/

theorem cell_roundtrip (c : Cell) : Cell.deserialise c.serialise = .ok c := by
  cases c
  rfl

theorem length_vectorResize {α : Type} (n : Nat) (fill : α) (v : List α) :
    (vectorResize n fill v).length = n := by
  unfold vectorResize
  rw [List.length_append, List.length_take, List.length_replicate]
  omega

theorem length_resizeRow (gridWidth : Int) (cellRow : List Cell) :
    (resizeRow gridWidth cellRow).length = gridWidth.toNat := by
  unfold resizeRow
  exact length_vectorResize _ _ _

theorem gridShape_resizeCells (t : Game) :
    GridShape t.gridHeight.toNat t.gridWidth.toNat t.resizeCells.cells := by
  unfold GridShape Game.resizeCells
  dsimp only
  rw [List.map_map]
  apply List.ext_getElem
  · simp [length_vectorResize]
  · intro i h1 h2
    simp [length_resizeRow]

theorem foldl_range_andThen (f : Nat → Game → Outcome) (P : Nat → Game → Prop) (n : Nat)
    (s0 : Game) (h0 : P 0 s0)
    (hstep : ∀ i s, i < n → P i s → ∃ s', f i s = .ok s' ∧ P (i + 1) s') :
    ∃ s', (List.range n).foldl (fun (o : Outcome) (i : Nat) => o.andThen (f i)) (Outcome.ok s0) =
      Outcome.ok s' ∧ P n s' := by
  induction n with
  | zero => exact ⟨s0, rfl, h0⟩
  | succ k ih =>
    obtain ⟨s1, hs1, hp1⟩ := ih (fun i s hi hp => hstep i s (by omega) hp)
    obtain ⟨s2, hs2, hp2⟩ := hstep k s1 (by omega) hp1
    refine ⟨s2, ?_, hp2⟩
    rw [List.range_succ, List.foldl_append, hs1]
    exact hs2

theorem loadCell_serialised {H W : Nat} (s : Game) (hs : GridShape H W s.cells) (c : Cell)
    (x y : Nat) (hx : x < W) (hy : y < H) :
    s.loadCell (y : Int) (Json.obj [("columnNumber", .num (x : Int)), ("cell", c.serialise)]) =
      .ok { s with cells := modifyCell (fun _ => c) s.cells (x : Int) (y : Int) } := by
  unfold Game.loadCell
  have hin : inBounds s.cells (x : Int) (y : Int) := by
    unfold inBounds
    have h1 : ((y : Nat) : Int).toNat < s.cells.length := by
      rw [gridShape_length hs]; exact hy
    have h2 : (s.cells.getD ((y : Nat) : Int).toNat []).length = W := gridShape_getD hs hy
    refine ⟨Int.ofNat_nonneg _, h1, Int.ofNat_nonneg _, ?_⟩
    rw [h2]
    exact hx
  have r1 : ((Json.obj [("columnNumber", .num (x : Int)), ("cell", c.serialise)]).getKey
      "columnNumber" >>= Json.toInt) = .ok (x : Int) := rfl
  have r2 : ((Json.obj [("columnNumber", .num (x : Int)), ("cell", c.serialise)]).getKey
      "cell" >>= Cell.deserialise) = .ok c := by
    have : (Json.obj [("columnNumber", .num (x : Int)), ("cell", c.serialise)]).getKey
      "cell" = .ok c.serialise := rfl
    rw [this]
    exact cell_roundtrip c
  rw [r1, attempt_ok, if_pos hin, r2, attempt_ok]

theorem pushedArray_of_ne_nil (key : String) (items : List Json) (h : items ≠ []) :
    pushedArray key items = [(key, .arr items)] := by
  unfold pushedArray
  cases items with
  | nil => exact absurd rfl h
  | cons a l => rfl

theorem map_range_ne_nil {α : Type} (f : Nat → α) (n : Nat) (h : n ≠ 0) :
    (List.range n).map f ≠ [] := by
  intro hnil
  have := congrArg List.length hnil
  simp at this
  exact h this

theorem loadRow_serialised {H W : Nat} (g s : Game) (hs : GridShape H W s.cells)
    (hW : g.gridWidth.toNat = W) (hW0 : W ≠ 0) (y : Nat) (hy : y < H) :
    ∃ cells, s.loadRow (g.serialiseRow y) = .ok { s with cells := cells } ∧
      GridShape H W cells ∧
      ∀ a b : Int, 0 ≤ a → a < W → 0 ≤ b → b < H →
        getCell cells a b = if b = y then getCell g.cells a b else getCell s.cells a b := by
  unfold Game.loadRow Game.serialiseRow
  rw [hW, pushedArray_of_ne_nil _ _ (map_range_ne_nil _ W hW0)]
  have r1 : ∀ l : List Json, ((Json.obj [("rowNumber", .num (y : Int)), ("rowCells", .arr l)]).getKey
      "rowNumber" >>= Json.toInt) = .ok (y : Int) := fun _ => rfl
  have r2 : ∀ l : List Json, (Json.obj [("rowNumber", .num (y : Int)), ("rowCells", .arr l)]).getKey
      "rowCells" = .ok (.arr l) := fun _ => rfl
  rw [r1, attempt_ok, r2, attempt_ok]
  simp only [Json.items]
  rw [List.foldl_map]
  obtain ⟨s', hfold, cells, hcells, hshape, hget⟩ := foldl_range_andThen
    (fun (x : Nat) (t : Game) => t.loadCell (y : Int)
      (Json.obj [("columnNumber", .num (x : Int)),
        ("cell", (getCell g.cells (x : Int) (y : Int)).serialise)]))
    (fun m s' => ∃ cells, s' = { s with cells := cells } ∧ GridShape H W cells ∧
      ∀ a b : Int, 0 ≤ a → a < W → 0 ≤ b → b < H →
        getCell cells a b =
          if b = y ∧ a < m then getCell g.cells a b else getCell s.cells a b)
    W s ⟨s.cells, rfl, hs, fun a b ha _ _ _ => by rw [if_neg (by omega)]⟩
    (by
      intro i s1 hi ⟨cm, hcm, hshape, hget⟩
      subst hcm
      refine ⟨_, loadCell_serialised _ hshape _ i y hi hy, _, rfl,
        gridShape_modifyCell hshape _ _ _, ?_⟩
      intro a b ha haW hb hbH
      rw [getCell_modifyCell_inRange hshape _ (Int.ofNat_nonneg _) (Int.ofNat_nonneg _)
        ha haW hb hbH, hget a b ha haW hb hbH]
      by_cases h1 : a = (i : Int) ∧ b = (y : Int)
      · rw [if_pos h1, if_pos ⟨h1.2, by omega⟩, h1.1, h1.2]
      · rw [if_neg h1]
        by_cases h2 : b = (y : Int) ∧ a < (i : Int)
        · rw [if_pos h2, if_pos ⟨h2.1, by omega⟩]
        · rw [if_neg h2, if_neg (by push_cast; omega)])
  refine ⟨cells, ?_, hshape, ?_⟩
  · rw [← hcells]
    exact hfold
  · intro a b ha haW hb hbH
    rw [hget a b ha haW hb hbH]
    by_cases h1 : b = (y : Int)
    · rw [if_pos h1, if_pos ⟨h1, haW⟩]
    · rw [if_neg h1, if_neg (fun h => h1 h.1)]

theorem loadGrid_serialised (g : Game) (hg : g.Shaped) (c0 : List (List Cell)) :
    Game.loadGrid { g with cells := c0 } g.serialise = .ok g := by
  obtain ⟨h0, w0, hshape⟩ := hg
  have hs := gridShape_resizeCells { g with cells := c0 }
  unfold Game.loadGrid
  dsimp only at hs ⊢
  generalize hc1 : (Game.resizeCells { g with cells := c0 }).cells = c1 at hs
  have hres : Game.resizeCells { g with cells := c0 } = { g with cells := c1 } := by
    rw [← hc1]; rfl
  rw [hres]
  dsimp only
  by_cases hz : g.gridHeight ≠ 0 ∧ g.gridWidth ≠ 0
  · rw [if_pos hz]
    have hH : g.gridHeight.toNat ≠ 0 := by omega
    have hW : g.gridWidth.toNat ≠ 0 := by omega
    have rd : (g.serialise.getKey "currentGame" >>= fun cg => cg.getKey "cells") =
        .ok (.arr ((List.range g.gridHeight.toNat).map g.serialiseRow)) := by
      unfold Game.serialise
      rw [if_pos hz, pushedArray_of_ne_nil _ _ (map_range_ne_nil _ _ hH)]
      rfl
    rw [rd, attempt_ok]
    simp only [Json.items]
    rw [List.foldl_map]
    obtain ⟨s', hfold, cells, hcells, hsh, hget⟩ := foldl_range_andThen
      (fun (y : Nat) (t : Game) => t.loadRow (g.serialiseRow y))
      (fun n s' => ∃ cells, s' = { g with cells := cells } ∧
        GridShape g.gridHeight.toNat g.gridWidth.toNat cells ∧
        ∀ a b : Int, 0 ≤ a → a < g.gridWidth.toNat → 0 ≤ b → b < g.gridHeight.toNat → b < n →
          getCell cells a b = getCell g.cells a b)
      g.gridHeight.toNat { g with cells := c1 }
      ⟨c1, rfl, hs, fun a b _ _ hb _ hn => by omega⟩
      (by
        intro i s1 hi ⟨cm, hcm, hsh, hget⟩
        subst hcm
        obtain ⟨cells, hrow, hsh', hget'⟩ :=
          loadRow_serialised g { g with cells := cm } hsh rfl hW i hi
        refine ⟨_, hrow, cells, rfl, hsh', ?_⟩
        intro a b ha haW hb hbH hbi
        rw [hget' a b ha haW hb hbH]
        by_cases h1 : b = (i : Int)
        · rw [if_pos h1]
        · rw [if_neg h1]
          exact hget a b ha haW hb hbH (by omega))
    rw [hfold, hcells]
    have : cells = g.cells := grid_ext hsh hshape
      (fun a b ha haW hb hbH => hget a b ha haW hb hbH hbH)
    rw [this]
  · rw [if_neg hz]
    have : c1 = g.cells := grid_ext hs hshape (fun a b ha haW hb hbH => by omega)
    rw [this]

theorem inv_bounds (g : Game) (hi : g.Inv) :
    0 ≤ g.gridHeight ∧ 0 ≤ g.gridWidth ∧
      0 ≤ g.numOfMines ∧ g.numOfMines ≤ max (g.gridHeight * g.gridWidth - 9) 0 ∧
      0 ≤ g.numOfMarkedMines ∧ g.numOfMarkedMines ≤ g.numOfMines ∧
      0 ≤ g.numOfWronglyMarkedCells ∧
      g.numOfWronglyMarkedCells ≤ g.gridHeight * g.gridWidth - g.numOfMines ∧
      0 ≤ g.numOfVisibleCells ∧ g.numOfVisibleCells ≤ g.gridHeight * g.gridWidth := by
  obtain ⟨h0, w0, hs⟩ := hi.shaped
  obtain ⟨_, _, a3, a4⟩ := hi.args
  unfold maxNumOfMines at a3
  unfold minNumOfMines at a4
  have hhw : ((g.gridHeight.toNat * g.gridWidth.toNat : Nat) : Int) =
      g.gridHeight * g.gridWidth := by
    rw [Nat.cast_mul, Int.toNat_of_nonneg h0, Int.toNat_of_nonneg w0]
  have hmul : 0 ≤ g.gridHeight * g.gridWidth := Int.mul_nonneg h0 w0
  have hvis := hi.visible
  have hhid := countCells_add_not hs (fun c => !c.isVisible)
  have hhid' : (g.hiddenCount : Int) ≤ g.gridHeight * g.gridWidth := by
    rw [← hhw]
    unfold Game.hiddenCount
    exact_mod_cast Nat.le.intro hhid
  have hmm := hi.markedMines
  have hwm := hi.wronglyMarked
  cases hset : g.minesHaveBeenSet with
  | true =>
    have hm := hi.mines hset
    have h1 := (countCells_eq_iff_of_imp (fun c => c.isMarked && c.hasMine) (fun c => c.hasMine)
      g.cells (fun _ _ c _ hc => by
        simp only [Bool.and_eq_true] at hc
        exact hc.2)).1
    have h2 := (countCells_eq_iff_of_imp (fun c => c.isMarked && !c.hasMine)
      (fun c => !c.hasMine) g.cells (fun _ _ c _ hc => by
        simp only [Bool.and_eq_true] at hc
        exact hc.2)).1
    have h3 := countCells_add_not hs (fun c => c.hasMine)
    have h3' : (g.mineCount : Int) + (countCells (fun c => !c.hasMine) g.cells : Nat) =
        g.gridHeight * g.gridWidth := by
      rw [← hhw]
      unfold Game.mineCount
      exact_mod_cast h3
    have h1' : (g.markedMineCount : Int) ≤ g.mineCount := by
      unfold Game.markedMineCount Game.mineCount
      exact_mod_cast h1
    have h2' : (g.wronglyMarkedCount : Int) ≤
        (countCells (fun c => !c.hasMine) g.cells : Nat) := by
      unfold Game.wronglyMarkedCount
      exact_mod_cast h2
    omega
  | false =>
    have hf := hi.fresh hset
    have e1 : g.numOfMarkedMines = 0 := by rw [hf]; rfl
    have e2 : g.numOfWronglyMarkedCells = 0 := by rw [hf]; rfl
    omega

theorem roundtrip_of_inv (g t : Game) (hi : g.Inv) :
    t.deserialise (some g.serialise) = .ok g := by
  obtain ⟨b1, b2, b3, b4, b5, b6, b7, b8, b9, b10⟩ := inv_bounds g hi
  rw [deserialise_matching t g.serialise (.str "Timi's Minesweeper") (.str "1.0") rfl rfl
      rfl rfl,
    deserialiseCurrentGame_scalars_fits t g.serialise g.gridHeight g.gridWidth g.numOfMines
      g.numOfMarkedMines g.numOfWronglyMarkedCells g.numOfVisibleCells rfl rfl rfl rfl rfl rfl
      (fun _ _ => hi.args.2.2.2.2),
    if_neg (by omega), if_neg (by omega), if_neg (by omega), if_neg (by omega),
    if_neg (by omega), if_neg (by omega)]
  have r7 : g.serialise.currentGameBool "_checkedMine" = .ok g._checkedMine := rfl
  have r8 : g.serialise.currentGameBool "minesHaveBeenSet" = .ok g.minesHaveBeenSet := rfl
  rw [r7, attempt_ok, r8, attempt_ok]
  exact loadGrid_serialised g hi.shaped t.cells

/-- C12: for every state `g` a validly constructed game reaches by check and
mark calls (empty grids included) and every target game `t`, whatever its
size and history, `deserialise` on the document `serialise` writes for `g`
succeeds and leaves `t` equal to `g`: the same dimensions, `numOfMines`,
counters and flags, and the same cell at every place of the grid. -/
theorem serialise_deserialise_roundtrip (env : RandomEnv) (g : Game) (henv : env.Valid)
    (hr : Reachable env g) (t : Game) :
    t.deserialise (some g.serialise) = .ok g ∧
      ∀ t', t.deserialise (some g.serialise) = .ok t' →
        t'.gridHeight = g.gridHeight ∧ t'.gridWidth = g.gridWidth ∧
        t'.numOfMines = g.numOfMines ∧ t'.numOfMarkedMines = g.numOfMarkedMines ∧
        t'.numOfWronglyMarkedCells = g.numOfWronglyMarkedCells ∧
        t'.numOfVisibleCells = g.numOfVisibleCells ∧ t'.checkedMine = g.checkedMine ∧
        t'.minesHaveBeenSet = g.minesHaveBeenSet ∧
        ∀ x y : Int, g.InRange x y →
          t'.doesCellHaveMine x y = g.doesCellHaveMine x y ∧
          t'.isCellVisible x y = g.isCellVisible x y ∧
          t'.isCellMarked x y = g.isCellMarked x y ∧
          t'.numOfMinesAroundCell x y = g.numOfMinesAroundCell x y := by
  have key := roundtrip_of_inv g t (reachable_inv env henv g hr)
  refine ⟨key, ?_⟩
  intro t' ht'
  rw [key] at ht'
  cases ht'
  exact ⟨rfl, rfl, rfl, rfl, rfl, rfl, rfl, rfl, fun _ _ _ => ⟨rfl, rfl, rfl, rfl⟩⟩

theorem serialise_deserialise_roundtrip_witness :
    reverseEnv.Valid ∧ Reachable reverseEnv exampleGame ∧
      exampleStrip.deserialise (some exampleGame.serialise) = .ok exampleGame ∧
      (Game.new 0 3 0).deserialise (some exampleGame.serialise) = .ok exampleGame :=
  ⟨valid_reverse, .step _ _ (.new 4 4 7 (by decide)),
    (serialise_deserialise_roundtrip reverseEnv exampleGame valid_reverse
      (.step _ _ (.new 4 4 7 (by decide))) exampleStrip).1,
    by decide⟩

/-! ## The mine positions follow the shuffle -/

theorem count_getD_le (l : List Int) (i : Nat) (hi : i < l.length) (b : Int) :
    (if l.getD i 0 == b then 1 else 0) ≤ l.count b := by
  split
  · rename_i h
    have hb : l.getD i 0 = b := by simpa using h
    have hmem : b ∈ l := by
      rw [← hb, List.getD_eq_getElem _ _ hi]
      exact List.getElem_mem hi
    exact List.count_pos_iff.2 hmem
  · exact Nat.zero_le _

theorem iterSwap_perm (i j : Nat) (vec : List Int) : (iterSwap i j vec).Perm vec := by
  unfold iterSwap
  split
  · rename_i h
    obtain ⟨hi, hj⟩ := h
    rw [List.perm_iff_count]
    intro b
    have hj' : j < (vec.set i (vec.getD j 0)).length := by
      rw [List.length_set]; exact hj
    rw [List.count_set _ _ _ _ hj', List.count_set _ _ _ _ hi]
    have c1 := count_getD_le vec i hi b
    have c2 := count_getD_le vec j hj b
    rw [List.getElem_set]
    simp only [List.getD_eq_getElem _ _ hi, List.getD_eq_getElem _ _ hj] at c1 c2 ⊢
    by_cases hij : i = j
    · subst hij
      rw [if_pos rfl]
      omega
    · rw [if_neg hij]
      by_cases e1 : (vec[i] == b) = true <;> by_cases e2 : (vec[j] == b) = true
      · simp only [e1, e2, if_true] at c1 c2 ⊢
        omega
      · simp only [e1, e2, if_true, if_false] at c1 c2 ⊢
        omega
      · simp only [e1, e2, if_true, if_false] at c1 c2 ⊢
        omega
      · simp only [e1, e2, if_false] at c1 c2 ⊢
        omega
  · exact List.Perm.refl _

theorem putIntsToFront_perm (front : List Int) (vec : List Int) :
    (putIntsToFront front vec).Perm vec := by
  unfold putIntsToFront
  have key : ∀ (l : List Int) (state : List Int × Nat), state.1.Perm vec →
      (l.foldl (fun (state : List Int × Nat) (num : Int) =>
        (iterSwap state.2 (state.1.indexOf num) state.1, state.2 + 1)) state).1.Perm vec := by
    intro l
    induction l with
    | nil => intro state h; exact h
    | cons x xs ih =>
      intro state h
      rw [List.foldl_cons]
      exact ih _ ((iterSwap_perm _ _ _).trans h)
  exact key front (vec, 0) (List.Perm.refl _)

theorem valid_playGround1 : playGround1Env.Valid :=
  ⟨_, rfl, putIntsToFront_perm _⟩

theorem mem_anchorIndices (g : Game) (X Y : Int) (hXY : g.InRange X Y) (v : Int) :
    v ∈ g.anchorIndices X Y ↔
      ∃ a b : Int, g.InRange a b ∧ X - 1 ≤ a ∧ a ≤ X + 1 ∧ Y - 1 ≤ b ∧ b ≤ Y + 1 ∧
        v = b * g.gridWidth + a := by
  unfold Game.anchorIndices
  rw [List.mem_map]
  constructor
  · rintro ⟨⟨a, b⟩, hmem, rfl⟩
    rw [List.mem_cons] at hmem
    rcases hmem with heq | hn
    · cases heq
      exact ⟨X, Y, hXY, by omega, by omega, by omega, by omega, rfl⟩
    · obtain ⟨hin, hadj⟩ := (mem_neighbours g X Y a b).1 hn
      obtain ⟨_, h1, h2, h3, h4⟩ := hadj
      exact ⟨a, b, hin, h1, h2, h3, h4, rfl⟩
  · rintro ⟨a, b, hin, h1, h2, h3, h4, rfl⟩
    refine ⟨(a, b), ?_, rfl⟩
    rw [List.mem_cons]
    by_cases hc : a = X ∧ b = Y
    · left; rw [hc.1, hc.2]
    · right
      exact (mem_neighbours g X Y a b).2 ⟨hin, by omega, h1, h2, h3, h4⟩

theorem guarded_eraseRemove_filter (cond : Prop) [Decidable cond] (value : Int) (l : List Int) :
    guarded cond (eraseRemove value) l = l.filter fun v => decide (cond → v ≠ value) := by
  by_cases hc : cond
  · rw [guarded_pos _ _ hc]
    unfold eraseRemove
    apply List.filter_congr
    intro v _
    by_cases hv : v = value <;> simp [hc, hv]
  · rw [guarded_neg _ _ hc]
    symm
    rw [List.filter_eq_self]
    intro v _
    simp [hc]

theorem chooseRandomMineCells_survivors (env : RandomEnv) (r : Shuffle)
    (hr : env.source = some r) (g : Game) (X Y : Int) (hXY : g.InRange X Y) :
    g.chooseRandomMineCells env X Y =
      .ok (g.survivors X Y (r (iota (g.gridWidth * g.gridHeight)))) := by
  unfold Game.chooseRandomMineCells
  rw [randomizeMineVector_of_source hr]
  dsimp only
  have e0 : ∀ l : List Int, eraseRemove (Y * g.gridWidth + X) l =
      guarded True (eraseRemove (Y * g.gridWidth + X)) l := fun l => rfl
  rw [e0]
  simp only [guarded_eraseRemove_filter, List.filter_filter]
  unfold Game.survivors
  congr 1
  apply List.filter_congr
  intro v _
  rw [Bool.eq_iff_iff]
  simp only [Bool.and_eq_true, decide_eq_true_eq]
  rw [mem_anchorIndices g X Y hXY]
  obtain ⟨hX0, hXw, hY0, hYh⟩ := hXY
  constructor
  · rintro ⟨c9, c8, c7, c6, c5, c4, c3, c2, c1⟩ ⟨a, b, ⟨ha0, haw, hb0, hbh⟩, h1, h2, h3, h4, hv⟩
    have hca : a = X - 1 ∨ a = X ∨ a = X + 1 := by omega
    have hcb : b = Y - 1 ∨ b = Y ∨ b = Y + 1 := by omega
    rcases hca with rfl | rfl | rfl <;> rcases hcb with rfl | rfl | rfl
    · exact c6 ⟨by omega, by omega⟩ (by omega)
    · exact c2 (by omega) (by omega)
    · exact c8 ⟨by omega, by omega⟩ (by omega)
    · exact c4 (by omega) (by omega)
    · exact c1 trivial hv
    · exact c5 (by omega) (by omega)
    · exact c7 ⟨by omega, by omega⟩ (by omega)
    · exact c3 (by omega) (by omega)
    · exact c9 ⟨by omega, by omega⟩ (by omega)
  · intro hnot
    refine ⟨?_, ?_, ?_, ?_, ?_, ?_, ?_, ?_, ?_⟩
    · intro hc hv
      exact hnot ⟨X + 1, Y + 1, ⟨by omega, by omega, by omega, by omega⟩, by omega, by omega,
        by omega, by omega, by omega⟩
    · intro hc hv
      exact hnot ⟨X - 1, Y + 1, ⟨by omega, by omega, by omega, by omega⟩, by omega, by omega,
        by omega, by omega, by omega⟩
    · intro hc hv
      exact hnot ⟨X + 1, Y - 1, ⟨by omega, by omega, by omega, by omega⟩, by omega, by omega,
        by omega, by omega, by omega⟩
    · intro hc hv
      exact hnot ⟨X - 1, Y - 1, ⟨by omega, by omega, by omega, by omega⟩, by omega, by omega,
        by omega, by omega, by omega⟩
    · intro hc hv
      exact hnot ⟨X, Y + 1, ⟨by omega, by omega, by omega, by omega⟩, by omega, by omega,
        by omega, by omega, by omega⟩
    · intro hc hv
      exact hnot ⟨X, Y - 1, ⟨by omega, by omega, by omega, by omega⟩, by omega, by omega,
        by omega, by omega, by omega⟩
    · intro hc hv
      exact hnot ⟨X + 1, Y, ⟨by omega, by omega, by omega, by omega⟩, by omega, by omega,
        by omega, by omega, by omega⟩
    · intro hc hv
      exact hnot ⟨X - 1, Y, ⟨by omega, by omega, by omega, by omega⟩, by omega, by omega,
        by omega, by omega, by omega⟩
    · intro _ hv
      exact hnot ⟨X, Y, ⟨by omega, by omega, by omega, by omega⟩, by omega, by omega,
        by omega, by omega, hv⟩

theorem createMinesAndNums_placed (env : RandomEnv) (henv : env.Valid) (g : Game)
    (hP : g.Placed []) (hn : g.numOfMines ≤ maxNumOfMines g.gridHeight g.gridWidth)
    (X Y : Int) (hXY : g.InRange X Y) :
    ∃ L g1, g.chooseRandomMineCells env X Y = .ok L ∧
      g.createMinesAndNums env X Y = .ok { g1 with minesHaveBeenSet := true } ∧
      g1.Placed (L.take g.numOfMines.toNat) ∧ SameButMines g g1 ∧
      g.numOfMines.toNat ≤ L.length ∧ ∀ v ∈ L, 0 ≤ v ∧ v < g.gridWidth * g.gridHeight := by
  obtain ⟨L, hL, hnd, hlen, hrange, _⟩ := chooseRandomMineCells_spec env henv g X Y hXY
  have hle : g.numOfMines.toNat ≤ L.length := by
    unfold maxNumOfMines at hn
    rw [Int.mul_comm] at hn
    omega
  obtain ⟨hP1, hS1⟩ := placeMine_foldl (L.take g.numOfMines.toNat) g [] hP
    (by simpa using hnd.sublist (List.take_sublist _ _))
    (fun v hv => hrange v (List.mem_of_mem_take hv))
  refine ⟨L, _, hL, ?_, by simpa using hP1, hS1, hle, hrange⟩
  unfold Game.createMinesAndNums
  rw [hL]
  simp only
  rw [foldl_range_getD Game.placeMine L _ g hle]

/-- C20: with a random source `r` that leaves a permutation, let `p` be what
`r` leaves of `[0, 1, ..., h*w - 1]` and `s` be `p` without the indices of the
anchor's clipped 3x3 neighbourhood, in the order of `p`.  The first
`checkInputCoordinates(x0, y0)` on a validly constructed game returns;
`chooseRandomMineCells` yields `s`; each of the first `numOfMines` entries
`s[i]` is the cell `(s[i] mod w, s[i] div w)` of the grid and has a mine; and
every mine-bearing cell of the grid is `(s[i] mod w, s[i] div w)` for some
`i < numOfMines`. -/
theorem mines_follow_shuffle (env : RandomEnv) (r : Shuffle) (hsrc : env.source = some r)
    (hperm : ∀ l : List Int, List.Perm (r l) l) (h w n : Int) (hargs : ValidArgs h w n)
    (x0 y0 : Int) (hxy : (Game.new h w n).InRange x0 y0) :
    ∃ g', (Game.new h w n).checkInputCoordinates env x0 y0 = .ok g' ∧
      (Game.new h w n).chooseRandomMineCells env x0 y0 =
        .ok ((Game.new h w n).survivors x0 y0 (r (iota (w * h)))) ∧
      (∀ i : Nat, (i : Int) < n →
        ∃ v, ((Game.new h w n).survivors x0 y0 (r (iota (w * h))))[i]? = some v ∧
          g'.InRange (v % w) (v / w) ∧ g'.doesCellHaveMine (v % w) (v / w) = true) ∧
      (∀ a b : Int, g'.InRange a b → g'.doesCellHaveMine a b = true →
        ∃ (i : Nat) (v : Int), (i : Int) < n ∧
          ((Game.new h w n).survivors x0 y0 (r (iota (w * h))))[i]? = some v ∧
          a = v % w ∧ b = v / w) := by
  have henv : env.Valid := ⟨r, hsrc, hperm⟩
  obtain ⟨g1', g', hc', hchk, _, _, _, hh1, hw1, _, _, _, _, hR, _⟩ :=
    first_check env henv h w n hargs x0 y0 hxy
  have hP := placed_new h w n hargs.1 hargs.2.1
  have hn1 : n ≤ maxNumOfMines h w := by have := hargs.2.2.1; omega
  obtain ⟨L, g1, hL, hc, hP1, hS, hle, hrange⟩ :=
    createMinesAndNums_placed env henv (Game.new h w n) hP hn1 x0 y0 hxy
  have hL' := chooseRandomMineCells_survivors env r hsrc (Game.new h w n) x0 y0 hxy
  have hLs : L = (Game.new h w n).survivors x0 y0 (r (iota (w * h))) := by
    rw [hL] at hL'
    exact Except.ok.inj hL'
  have hg1 : g1' = { g1 with minesHaveBeenSet := true } := by
    rw [hc] at hc'
    cases hc'
    rfl
  have hw0 : 0 ≤ w := hargs.2.1
  have e1h : g1.gridHeight = h := hS.height
  have e1w : g1.gridWidth = w := hS.width
  have hin1 : ∀ a b : Int, g'.InRange a b ↔ g1.InRange a b := by
    intro a b
    unfold Game.InRange
    rw [hR.height, hR.width, hh1, hw1, e1h, e1w]
  have hmine : ∀ a b : Int, g1.InRange a b →
      g'.doesCellHaveMine a b = g1.doesCellHaveMine a b := by
    intro a b hab
    have hab' : g1'.InRange a b := by
      rw [hg1]; exact hab
    have := (hR.cell a b hab').1
    unfold Game.doesCellHaveMine
    rw [this, hg1]
  have hrange' : ∀ v ∈ L, 0 ≤ v ∧ v < w * h := hrange
  have hle' : n.toNat ≤ L.length := hle
  have hP1' : ∀ a b : Int, g1.InRange a b →
      (g1.doesCellHaveMine a b = true ↔ b * w + a ∈ L.take n.toNat) := by
    intro a b hab
    have := hP1.mines a b hab
    rw [e1w] at this
    exact this
  refine ⟨g', hchk, hL', ?_, ?_⟩
  · intro i hi
    have hi' : i < n.toNat := by omega
    have hiL : i < L.length := by omega
    have hv := hrange' L[i] (List.getElem_mem hiL)
    obtain ⟨c1, c2, c3, c4, c5⟩ := spot_coords w h L[i] hv.1 hv.2 hw0
    rw [Int.tmod_eq_emod hv.1 hw0] at c1 c2 c5
    rw [Int.tdiv_eq_ediv hv.1 hw0] at c3 c4 c5
    have hab : g1.InRange (L[i] % w) (L[i] / w) := by
      unfold Game.InRange
      rw [e1h, e1w]
      exact ⟨c1, c2, c3, c4⟩
    refine ⟨L[i], ?_, (hin1 _ _).2 hab, ?_⟩
    · rw [← hLs]
      exact List.getElem?_eq_getElem hiL
    · rw [hmine _ _ hab, hP1' _ _ hab, c5, List.mem_take_iff_getElem]
      exact ⟨i, by omega, rfl⟩
  · intro a b hab hm
    have hab1 := (hin1 a b).1 hab
    rw [hmine a b hab1, hP1' a b hab1, List.mem_take_iff_getElem] at hm
    obtain ⟨i, hi, hv⟩ := hm
    have hiL : i < L.length := by omega
    have hvr := hrange' L[i] (List.getElem_mem hiL)
    obtain ⟨ha0, haw, _, _⟩ := hab1
    rw [e1w] at haw
    obtain ⟨ea, eb⟩ := coords_of_spot w L[i] a b hvr.1 ha0 haw hv.symm
    rw [Int.tmod_eq_emod hvr.1 hw0] at ea
    rw [Int.tdiv_eq_ediv hvr.1 hw0] at eb
    refine ⟨i, L[i], by omega, ?_, ea, eb⟩
    rw [← hLs]
    exact List.getElem?_eq_getElem hiL
set_option maxRecDepth 100000 in
theorem mines_follow_shuffle_witness :
    playGround1Env.source = some (putIntsToFront playGround1Front) ∧
      ValidArgs 10 8 16 ∧ (Game.new 10 8 16).InRange 4 7 ∧
      ((Game.new 10 8 16).survivors 4 7 (putIntsToFront playGround1Front (iota (8 * 10)))).take 16
        = [35, 37, 41, 31, 3, 9, 56, 65, 76, 66, 39, 7, 13, 29, 16, 17] ∧
      ∃ g', (Game.new 10 8 16).checkInputCoordinates playGround1Env 4 7 = .ok g' ∧
        (Game.new 10 8 16).chooseRandomMineCells playGround1Env 4 7 =
          .ok ((Game.new 10 8 16).survivors 4 7 (putIntsToFront playGround1Front (iota (8 * 10)))) ∧
        (∀ i : Nat, (i : Int) < 16 →
          ∃ v, ((Game.new 10 8 16).survivors 4 7
              (putIntsToFront playGround1Front (iota (8 * 10))))[i]? = some v ∧
            g'.InRange (v % 8) (v / 8) ∧ g'.doesCellHaveMine (v % 8) (v / 8) = true) ∧
        (∀ a b : Int, g'.InRange a b → g'.doesCellHaveMine a b = true →
          ∃ (i : Nat) (v : Int), (i : Int) < 16 ∧
            ((Game.new 10 8 16).survivors 4 7
              (putIntsToFront playGround1Front (iota (8 * 10))))[i]? = some v ∧
            a = v % 8 ∧ b = v / 8) :=
  ⟨rfl, by decide, by decide, by decide,
    mines_follow_shuffle playGround1Env (putIntsToFront playGround1Front) rfl
      (putIntsToFront_perm playGround1Front) 10 8 16 (by decide) 4 7 (by decide)⟩

/-! ## The random source -/

theorem randomizeMineVector_congr (env env' : RandomEnv) (h : env.source = env'.source)
    (l : List Int) : randomizeMineVector env l = randomizeMineVector env' l := by
  unfold RandomEnv.source at h
  unfold randomizeMineVector
  cases h1 : env.random <;> cases h2 : env'.random <;> rw [h1, h2] at h <;> dsimp only at h ⊢
  · rw [h]
  · rw [h]
  · rw [← h]
  · cases h; rfl

theorem createMinesAndNums_congr (env env' : RandomEnv) (h : env.source = env'.source)
    (g : Game) (X Y : Int) : g.createMinesAndNums env X Y = g.createMinesAndNums env' X Y := by
  unfold Game.createMinesAndNums Game.chooseRandomMineCells
  rw [randomizeMineVector_congr env env' h]

theorem checkFuel_congr (env env' : RandomEnv) (h : env.source = env'.source) (fuel : Nat) :
    checkFuel env fuel = checkFuel env' fuel := by
  induction fuel with
  | zero => rfl
  | succ f ih =>
    funext g X Y
    rw [checkFuel, checkFuel, ih, createMinesAndNums_congr env env' h]

/-- C21: on a game whose mines are not placed yet, the shuffle of the first
check is the one of the member `random` when it is set (whatever
`defaultRandom` is), and otherwise the one of the static `defaultRandom` that
`setDefaultRandom` stored; with neither set, `checkInputCoordinates(x, y)`
with `(x, y)` in range throws `std::invalid_argument` and the game is as it
was. -/
theorem random_source_resolution (env : RandomEnv) (g : Game) (x y : Int)
    (hset : g.minesHaveBeenSet = false) (hxy : g.InRange x y) :
    (∀ r : Shuffle, env.random = some r →
      randomizeMineVector env (iota (g.gridWidth * g.gridHeight)) =
        .ok (r (iota (g.gridWidth * g.gridHeight))) ∧
      g.chooseRandomMineCells env x y =
        .ok (g.survivors x y (r (iota (g.gridWidth * g.gridHeight)))) ∧
      g.checkInputCoordinates env x y =
        g.checkInputCoordinates { random := some r, defaultRandom := none } x y) ∧
    (∀ d : Shuffle, env.random = none →
      randomizeMineVector (setDefaultRandom env (some d)) (iota (g.gridWidth * g.gridHeight)) =
        .ok (d (iota (g.gridWidth * g.gridHeight))) ∧
      g.chooseRandomMineCells (setDefaultRandom env (some d)) x y =
        .ok (g.survivors x y (d (iota (g.gridWidth * g.gridHeight)))) ∧
      g.checkInputCoordinates (setDefaultRandom env (some d)) x y =
        g.checkInputCoordinates { random := some d, defaultRandom := none } x y) ∧
    (env.random = none → env.defaultRandom = none →
      g.checkInputCoordinates env x y = .threw .invalidArgument g ∧
      (g.checkInputCoordinates env x y).state = g) := by
  refine ⟨?_, ?_, ?_⟩
  · intro r hr
    have hs : env.source = some r := by unfold RandomEnv.source; rw [hr]
    refine ⟨randomizeMineVector_of_source hs _, chooseRandomMineCells_survivors env r hs g x y hxy,
      ?_⟩
    unfold Game.checkInputCoordinates
    rw [checkFuel_congr env { random := some r, defaultRandom := none } (by rw [hs]; rfl)]
  · intro d hr
    have hs : (setDefaultRandom env (some d)).source = some d := by
      unfold RandomEnv.source setDefaultRandom
      dsimp only
      rw [hr]
    refine ⟨randomizeMineVector_of_source hs _,
      chooseRandomMineCells_survivors _ d hs g x y hxy, ?_⟩
    unfold Game.checkInputCoordinates
    rw [checkFuel_congr _ { random := some d, defaultRandom := none } (by rw [hs]; rfl)]
  · intro hr hd
    have key : g.checkInputCoordinates env x y = .threw .invalidArgument g := by
      unfold Game.checkInputCoordinates
      obtain ⟨h1, h2, h3, h4⟩ := hxy
      rw [checkFuel, if_neg (by omega), hset]
      unfold Game.createMinesAndNums Game.chooseRandomMineCells randomizeMineVector
      rw [hr, hd]
      rfl
    rw [key]
    exact ⟨rfl, rfl⟩

theorem random_source_resolution_witness :
    (Game.new 4 4 7).minesHaveBeenSet = false ∧ (Game.new 4 4 7).InRange 0 0 ∧
      (Game.new 4 4 7).checkInputCoordinates noRandomEnv 0 0 =
        .threw .invalidArgument (Game.new 4 4 7) ∧
      (Game.new 4 4 7).checkInputCoordinates (setDefaultRandom noRandomEnv (some List.reverse))
        0 0 = (Game.new 4 4 7).checkInputCoordinates reverseEnv 0 0 ∧
      (Game.new 4 4 7).checkInputCoordinates
          { random := some List.reverse, defaultRandom := some (putIntsToFront [1, 2]) } 0 0 =
        (Game.new 4 4 7).checkInputCoordinates reverseEnv 0 0 :=
  ⟨rfl, by decide,
    ((random_source_resolution noRandomEnv (Game.new 4 4 7) 0 0 rfl (by decide)).2.2 rfl rfl).1,
    ((random_source_resolution noRandomEnv (Game.new 4 4 7) 0 0 rfl (by decide)).2.1
      List.reverse rfl).2.2,
    ((random_source_resolution
      { random := some List.reverse, defaultRandom := some (putIntsToFront [1, 2]) }
      (Game.new 4 4 7) 0 0 rfl (by decide)).1 List.reverse rfl).2.2⟩

/-- C24: in every state a validly constructed game reaches by check and mark
calls, successful or failing, with a random source that returns permutations,
`numOfVisibleCells` is the number of visible cells of the grid,
`numOfMarkedMines` the number of marked cells with a mine and
`numOfWronglyMarkedCells` the number of marked cells without one; hence the
three counters stay within `[0, numOfMines]`,
`[0, gridHeight*gridWidth - numOfMines]` and `[0, gridHeight*gridWidth]`. -/
theorem counters_count_cells (env : RandomEnv) (henv : env.Valid) (g : Game)
    (hr : Reachable env g) :
    g.numOfVisibleCells = g.visibleCount ∧ g.numOfMarkedMines = g.markedMineCount ∧
      g.numOfWronglyMarkedCells = g.wronglyMarkedCount ∧
      0 ≤ g.numOfMarkedMines ∧ g.numOfMarkedMines ≤ g.numOfMines ∧
      0 ≤ g.numOfWronglyMarkedCells ∧
      g.numOfWronglyMarkedCells ≤ g.gridHeight * g.gridWidth - g.numOfMines ∧
      0 ≤ g.numOfVisibleCells ∧ g.numOfVisibleCells ≤ g.gridHeight * g.gridWidth := by
  have hi := reachable_inv env henv g hr
  obtain ⟨_, _, _, _, b5, b6, b7, b8, b9, b10⟩ := inv_bounds g hi
  refine ⟨?_, hi.markedMines, hi.wronglyMarked, b5, b6, b7, b8, b9, b10⟩
  obtain ⟨h0, w0, hs⟩ := hi.shaped
  have hhw : ((g.gridHeight.toNat * g.gridWidth.toNat : Nat) : Int) =
      g.gridHeight * g.gridWidth := by
    rw [Nat.cast_mul, Int.toNat_of_nonneg h0, Int.toNat_of_nonneg w0]
  have hsum := countCells_add_not hs (fun c => c.isVisible)
  have hsum' : (g.visibleCount : Int) + g.hiddenCount = g.gridHeight * g.gridWidth := by
    rw [← hhw]
    unfold Game.visibleCount Game.hiddenCount
    exact_mod_cast hsum
  have hvis := hi.visible
  omega

theorem counters_count_cells_witness :
    reverseEnv.Valid ∧
      Reachable reverseEnv ((exampleGame.play reverseEnv (.mark 3 3)).play reverseEnv (.mark 0 2)) ∧
      ((exampleGame.play reverseEnv (.mark 3 3)).play reverseEnv (.mark 0 2)).numOfMarkedMines
        = 1 ∧
      ((exampleGame.play reverseEnv (.mark 3 3)).play reverseEnv (.mark 0 2)).markedMineCount
        = 1 ∧
      ((exampleGame.play reverseEnv (.mark 3 3)).play reverseEnv (.mark 0 2)).numOfVisibleCells
        = (((exampleGame.play reverseEnv (.mark 3 3)).play reverseEnv (.mark 0 2)).visibleCount
          : Int) :=
  ⟨valid_reverse, .step _ _ (.step _ _ (.step _ _ (.new 4 4 7 (by decide)))), by decide,
    by decide,
    (counters_count_cells reverseEnv valid_reverse _
      (.step _ _ (.step _ _ (.step _ _ (.new 4 4 7 (by decide)))))).1⟩

/-- C28: a validly constructed game on which nothing has been done yet reports
`playerHasWon()` exactly when it has no mines; the fresh 10x10 game without
mines reports `playerHasWon() = true` and `playerHasLost() = false`. -/
theorem fresh_game_won_iff (h w n : Int) (hargs : ValidArgs h w n) :
    (∃ g, Game.construct h w n = .ok g ∧ g.minesHaveBeenSet = false ∧
      (g.playerHasWon = true ↔ n = 0) ∧ g.playerHasLost = false) ∧
    ((Game.new h w n).playerHasWon = true ↔ n = 0) ∧
    (∃ g, Game.construct 10 10 0 = .ok g ∧ g.playerHasWon = true ∧ g.playerHasLost = false) := by
  obtain ⟨h0, w0, a3, a4⟩ := hargs
  unfold maxNumOfMines at a3
  unfold minNumOfMines at a4
  have hmul : 0 ≤ h * w := Int.mul_nonneg h0 w0
  have key : (Game.new h w n).playerHasWon = true ↔ n = 0 := by
    have e1 : (Game.new h w n).playerHasLost = false := rfl
    unfold Game.playerHasWon
    rw [e1]
    unfold Game.allNonMinesVisible Game.allMinesMarked Game.noNonMinesMarked
    show (if (!false) = true then
        if (if (0 : Int) + n = w * h ∧ ¬ false = true then true else false) = true then true
        else if ((if n = (0 : Int) then true else false) &&
          (if (0 : Int) = 0 then true else false)) = true then true
        else false
      else false) = true ↔ n = 0
    by_cases hn : n = 0
    · subst hn
      simp
    · have h2 : ¬ n = w * h := by
        rw [Int.mul_comm]
        omega
      simp [h2, hn]
  refine ⟨⟨Game.new h w n, ?_, rfl, key, rfl⟩, key, ⟨Game.new 10 10 0, ?_, by decide, by decide⟩⟩
  · rw [construct_eq_fits h w n (fun _ _ => a4.2), if_neg (by omega)]
  · rw [construct_eq_fits 10 10 0 (fun _ _ => by decide), if_neg (by decide)]

theorem fresh_game_won_iff_witness :
    ValidArgs 10 10 0 ∧ ValidArgs 10 10 5 ∧
      (Game.new 10 10 0).playerHasWon = true ∧ (Game.new 10 10 5).playerHasWon = false ∧
      ((Game.new 10 10 5).playerHasWon = true ↔ (5 : Int) = 0) :=
  ⟨by decide, by decide, by decide, by decide,
    (fresh_game_won_iff 10 10 5 (by decide)).2.1⟩
/-! ## The shape of the serialised document -/

theorem pushedArray_nil (key : String) : pushedArray key [] = [] := rfl

/-- The claim C23 as stated fails on the code: the document `serialise`
writes for the fresh 1x1 game has no key "checkedMine" under "currentGame";
the flag is written under "_checkedMine". -/
theorem serialise_has_no_checkedMine_key :
    ∃ cg, (Game.new 1 1 0).serialise.getKey "currentGame" = .ok cg ∧
      "checkedMine" ∉ cg.keys ∧ cg.getKey "checkedMine" = .error .invalidArgument ∧
      "_checkedMine" ∈ cg.keys ∧ cg.getKey "_checkedMine" = .ok (.bool false) :=
  ⟨_, rfl, by decide, rfl, by decide, rfl⟩

/-- C23, amended: the document `serialise` writes has exactly the top-level
keys "magic" ("Timi's Minesweeper"), "version" ("1.0") and "currentGame";
"currentGame" holds the scalars under "gridHeight", "gridWidth", "numOfMines",
"numOfMarkedMines", "numOfWronglyMarkedCells", "numOfVisibleCells",
"_checkedMine" (not "checkedMine") and "minesHaveBeenSet", and no other key
but "cells"; "cells" is present exactly when `gridHeight > 0` and
`gridWidth > 0`, and then its entry `y` has "rowNumber" `y` and a "rowCells"
whose entry `x` has "columnNumber" `x` and the cell at `(x, y)`. -/
theorem serialise_shape (g : Game) (hs : g.Shaped) :
    ∃ cg, g.serialise.keys = ["magic", "version", "currentGame"] ∧
      g.serialise.getKey "magic" = .ok (.str "Timi's Minesweeper") ∧
      g.serialise.getKey "version" = .ok (.str "1.0") ∧
      g.serialise.getKey "currentGame" = .ok cg ∧
      cg.getKey "gridHeight" = .ok (.num g.gridHeight) ∧
      cg.getKey "gridWidth" = .ok (.num g.gridWidth) ∧
      cg.getKey "numOfMines" = .ok (.num g.numOfMines) ∧
      cg.getKey "numOfMarkedMines" = .ok (.num g.numOfMarkedMines) ∧
      cg.getKey "numOfWronglyMarkedCells" = .ok (.num g.numOfWronglyMarkedCells) ∧
      cg.getKey "numOfVisibleCells" = .ok (.num g.numOfVisibleCells) ∧
      cg.getKey "_checkedMine" = .ok (.bool g.checkedMine) ∧
      cg.getKey "minesHaveBeenSet" = .ok (.bool g.minesHaveBeenSet) ∧
      (∀ key ∈ cg.keys, key ∈ ["gridHeight", "gridWidth", "numOfMines", "numOfMarkedMines",
        "numOfWronglyMarkedCells", "numOfVisibleCells", "_checkedMine", "minesHaveBeenSet",
        "cells"]) ∧
      ("cells" ∈ cg.keys ↔ 0 < g.gridHeight ∧ 0 < g.gridWidth) ∧
      (0 < g.gridHeight → 0 < g.gridWidth →
        ∃ rows, cg.getKey "cells" = .ok (.arr rows) ∧ rows.length = g.gridHeight.toNat ∧
          ∀ y : Nat, y < g.gridHeight.toNat →
            ∃ row rowCells, rows[y]? = some row ∧ row.keys = ["rowNumber", "rowCells"] ∧
              row.getKey "rowNumber" = .ok (.num y) ∧
              row.getKey "rowCells" = .ok (.arr rowCells) ∧
              rowCells.length = g.gridWidth.toNat ∧
              ∀ x : Nat, x < g.gridWidth.toNat →
                ∃ entry, rowCells[x]? = some entry ∧ entry.keys = ["columnNumber", "cell"] ∧
                  entry.getKey "columnNumber" = .ok (.num x) ∧
                  entry.getKey "cell" = .ok (getCell g.cells x y).serialise) := by
  obtain ⟨h0, w0, _⟩ := hs
  refine ⟨_, rfl, rfl, rfl, rfl, rfl, rfl, rfl, rfl, rfl, rfl, rfl, rfl, ?_, ?_, ?_⟩
  · intro key hkey
    by_cases hz : g.gridHeight ≠ 0 ∧ g.gridWidth ≠ 0
    · rw [if_pos hz, pushedArray_of_ne_nil _ _ (map_range_ne_nil _ _ (by omega))] at hkey
      simpa [Json.keys] using hkey
    · rw [if_neg hz, pushedArray_nil] at hkey
      simp only [Json.keys, List.append_nil, List.map_cons, List.map_nil] at hkey
      simp only [List.mem_cons, List.mem_singleton, List.mem_nil_iff, or_false] at hkey ⊢
      tauto
  · by_cases hz : g.gridHeight ≠ 0 ∧ g.gridWidth ≠ 0
    · rw [if_pos hz, pushedArray_of_ne_nil _ _ (map_range_ne_nil _ _ (by omega))]
      simp only [Json.keys, List.map_append, List.map_cons, List.map_nil, List.mem_append,
        List.mem_singleton, or_true, true_iff]
      omega
    · rw [if_neg hz, pushedArray_nil]
      simp only [Json.keys, List.append_nil, List.map_cons, List.map_nil]
      constructor
      · intro hmem
        exact absurd hmem (by decide)
      · intro hpos
        omega
  · intro hh hw
    have hz : g.gridHeight ≠ 0 ∧ g.gridWidth ≠ 0 := ⟨by omega, by omega⟩
    have hW : g.gridWidth.toNat ≠ 0 := by omega
    rw [if_pos hz, pushedArray_of_ne_nil _ _ (map_range_ne_nil _ _ (by omega))]
    refine ⟨_, rfl, by simp, ?_⟩
    intro y hy
    refine ⟨g.serialiseRow y,
      (List.range g.gridWidth.toNat).map fun (x : Nat) =>
        Json.obj [("columnNumber", .num (x : Int)),
          ("cell", (getCell g.cells (x : Int) (y : Int)).serialise)],
      by simp [hy], ?_, rfl, ?_, by simp, ?_⟩
    · unfold Game.serialiseRow
      rw [pushedArray_of_ne_nil _ _ (map_range_ne_nil _ _ hW)]
      rfl
    · unfold Game.serialiseRow
      rw [pushedArray_of_ne_nil _ _ (map_range_ne_nil _ _ hW)]
      rfl
    · intro x hx
      exact ⟨Json.obj [("columnNumber", .num (x : Int)),
        ("cell", (getCell g.cells (x : Int) (y : Int)).serialise)], by simp [hx], rfl, rfl, rfl⟩

theorem serialise_shape_witness :
    exampleGame.Shaped ∧ exampleGame.serialise.keys = ["magic", "version", "currentGame"] ∧
      exampleGame.serialise.currentGameBool "_checkedMine" = .ok false ∧
      exampleGame.serialise.currentGameInt "numOfVisibleCells" = .ok 8 ∧
      ∃ cg, exampleGame.serialise.getKey "currentGame" = .ok cg ∧
        ("cells" ∈ cg.keys ↔ (0 : Int) < exampleGame.gridHeight ∧ 0 < exampleGame.gridWidth) :=
  ⟨by decide, rfl, rfl, rfl,
    match serialise_shape exampleGame (by decide) with
    | ⟨cg, _, _, _, h4, _, _, _, _, _, _, _, _, _, h14, _⟩ => ⟨cg, h4, h14⟩⟩

/-! ## The first check opens the safe zone -/

/-- C27: on a validly constructed game with no mines placed, with a random
source that returns a permutation, the first `checkInputCoordinates(x, y)`
with `(x, y)` in range returns; afterwards the anchor `(x, y)` is mine-free
with `minesAround = 0`, the anchor and every cell `(a, b)` of the grid with
`|a - x| ≤ 1` and `|b - y| ≤ 1` are visible, and unless the grid is 1x1 a cell
other than the anchor is visible. -/
theorem first_check_opens_safe_zone (env : RandomEnv) (henv : env.Valid) (h w n : Int)
    (hargs : ValidArgs h w n) (x y : Int) (hxy : (Game.new h w n).InRange x y) :
    ∃ g', (Game.new h w n).checkInputCoordinates env x y = .ok g' ∧
      g'.gridHeight = h ∧ g'.gridWidth = w ∧
      g'.doesCellHaveMine x y = false ∧ g'.numOfMinesAroundCell x y = 0 ∧
      g'.isCellVisible x y = true ∧
      (∀ a b : Int, g'.InRange a b → x - 1 ≤ a → a ≤ x + 1 → y - 1 ≤ b → b ≤ y + 1 →
        g'.isCellVisible a b = true) ∧
      (¬ (h = 1 ∧ w = 1) →
        ∃ a b : Int, g'.InRange a b ∧ (a ≠ x ∨ b ≠ y) ∧ g'.isCellVisible a b = true) := by
  have hI := inv_new h w n hargs
  obtain ⟨hnm, hcl⟩ := reachableByChecks_inv env henv (Game.new h w n) (.new h w n hargs)
  obtain ⟨g1, g', hres, hfuel, hI1, hset1, hnm1, hcl1, hh1, hw1, _, _, hzero, hR, _⟩ :=
    check_step_spec env henv (Game.new h w n) x y hI hnm hcl hxy
  have hh1' : g1.gridHeight = h := hh1
  have hw1' : g1.gridWidth = w := hw1
  have hxy1 : g1.InRange x y := by
    unfold Game.InRange at hxy ⊢
    rw [hh1, hw1]; exact hxy
  have hin' : ∀ a b : Int, g'.InRange a b → g1.InRange a b := by
    intro a b hab
    unfold Game.InRange at hab ⊢
    rw [hR.height, hR.width] at hab
    exact hab
  have hxy' : g'.InRange x y := by
    unfold Game.InRange at hxy1 ⊢
    rw [hR.height, hR.width]; exact hxy1
  obtain ⟨hcl', hvis'⟩ :=
    check_closed env _ g1 x y g' _ hI1.shaped hset1 hxy1 hnm1 hcl1 (by omega) hfuel
  have hfresh : (Game.new h w n).doesCellHaveMine x y = false ∧
      (Game.new h w n).numOfMinesAroundCell x y = 0 := by
    unfold Game.doesCellHaveMine Game.numOfMinesAroundCell
    rw [show (Game.new h w n).cells = initCells h w from rfl, getCell_initCells]
    exact ⟨rfl, rfl⟩
  obtain ⟨hm1, hz1⟩ := hzero hfresh.1 hfresh.2
  have hm' : g'.doesCellHaveMine x y = false := by
    unfold Game.doesCellHaveMine at hm1 ⊢
    rw [(hR.cell x y hxy1).1]; exact hm1
  have hz' : g'.numOfMinesAroundCell x y = 0 := by
    unfold Game.numOfMinesAroundCell at hz1 ⊢
    rw [(hR.cell x y hxy1).2.2.1]; exact hz1
  have hzone : ∀ a b : Int, g'.InRange a b → x - 1 ≤ a → a ≤ x + 1 → y - 1 ≤ b → b ≤ y + 1 →
      g'.isCellVisible a b = true := by
    intro a b hab h1 h2 h3 h4
    by_cases hc : a = x ∧ b = y
    · rw [hc.1, hc.2]; exact hvis'
    · exact hcl' x y hxy' (fun hf => hf) hvis' hm' hz' a b hab ⟨by omega, h1, h2, h3, h4⟩
  have eh : g'.gridHeight = h := by rw [hR.height, hh1']
  have ew : g'.gridWidth = w := by rw [hR.width, hw1']
  refine ⟨g', hres, eh, ew, hm', hz', hvis', hzone, ?_⟩
  intro hnot
  obtain ⟨hx0, hxw, hy0, hyh⟩ := hxy
  have hxw' : x < w := hxw
  have hyh' : y < h := hyh
  by_cases hw1 : w = 1
  · have hh : h ≠ 1 := fun hh => hnot ⟨hh, hw1⟩
    by_cases hy : y = 0
    · have hab : g'.InRange x (y + 1) := by
        unfold Game.InRange; rw [eh, ew]; omega
      exact ⟨x, y + 1, hab, Or.inr (by omega),
        hzone x (y + 1) hab (by omega) (by omega) (by omega) (by omega)⟩
    · have hab : g'.InRange x (y - 1) := by
        unfold Game.InRange; rw [eh, ew]; omega
      exact ⟨x, y - 1, hab, Or.inr (by omega),
        hzone x (y - 1) hab (by omega) (by omega) (by omega) (by omega)⟩
  · by_cases hx : x = 0
    · have hab : g'.InRange (x + 1) y := by
        unfold Game.InRange; rw [eh, ew]; omega
      exact ⟨x + 1, y, hab, Or.inl (by omega),
        hzone (x + 1) y hab (by omega) (by omega) (by omega) (by omega)⟩
    · have hab : g'.InRange (x - 1) y := by
        unfold Game.InRange; rw [eh, ew]; omega
      exact ⟨x - 1, y, hab, Or.inl (by omega),
        hzone (x - 1) y hab (by omega) (by omega) (by omega) (by omega)⟩

theorem first_check_opens_safe_zone_witness :
    playGround1Env.Valid ∧ ValidArgs 10 8 16 ∧ (Game.new 10 8 16).InRange 4 7 ∧
      ∃ g', (Game.new 10 8 16).checkInputCoordinates playGround1Env 4 7 = .ok g' ∧
        g'.numOfMinesAroundCell 4 7 = 0 ∧ g'.isCellVisible 4 7 = true ∧
        (∀ a b : Int, g'.InRange a b → 4 - 1 ≤ a → a ≤ 4 + 1 → 7 - 1 ≤ b → b ≤ 7 + 1 →
          g'.isCellVisible a b = true) :=
  ⟨valid_playGround1, by decide, by decide,
    match first_check_opens_safe_zone playGround1Env valid_playGround1 10 8 16 (by decide) 4 7
      (by decide) with
    | ⟨g', h1, _, _, _, h5, h6, h7, _⟩ => ⟨g', h1, h5, h6, h7⟩⟩
/-! ## Termination of the cascade -/

theorem andThen_eq_ok (o : Outcome) (f : Game → Outcome) (g' : Game)
    (h : o.andThen f = .ok g') : ∃ g1, o = .ok g1 ∧ f g1 = .ok g' := by
  cases o with
  | ok g1 => exact ⟨g1, rfl, h⟩
  | threw e g1 => cases h

theorem guardedCheck_mono (c1 c2 : Game → Int → Int → Outcome)
    (hc : ∀ g X Y g', c1 g X Y = .ok g' → c2 g X Y = .ok g')
    (cond : Prop) [Decidable cond] (g : Game) (a b : Int) (g1 : Game)
    (h : (if cond then c1 g a b else .ok g) = .ok g1) :
    (if cond then c2 g a b else .ok g) = .ok g1 := by
  split at h
  · rename_i hcond
    rw [if_pos hcond]
    exact hc _ _ _ _ h
  · rename_i hcond
    rw [if_neg hcond]
    exact h

theorem checkAround_mono (c1 c2 : Game → Int → Int → Outcome)
    (hc : ∀ g X Y g', c1 g X Y = .ok g' → c2 g X Y = .ok g')
    (g : Game) (X Y : Int) (g' : Game) (h : checkAroundCoordinate c1 g X Y = .ok g') :
    checkAroundCoordinate c2 g X Y = .ok g' := by
  unfold checkAroundCoordinate at h ⊢
  obtain ⟨g1, e1, h⟩ := andThen_eq_ok _ _ _ h
  rw [guardedCheck_mono c1 c2 hc _ _ _ _ _ e1]
  simp only [andThen_ok]
  obtain ⟨g2, e2, h⟩ := andThen_eq_ok _ _ _ h
  rw [guardedCheck_mono c1 c2 hc _ _ _ _ _ e2]
  simp only [andThen_ok]
  obtain ⟨g3, e3, h⟩ := andThen_eq_ok _ _ _ h
  rw [guardedCheck_mono c1 c2 hc _ _ _ _ _ e3]
  simp only [andThen_ok]
  obtain ⟨g4, e4, h⟩ := andThen_eq_ok _ _ _ h
  rw [guardedCheck_mono c1 c2 hc _ _ _ _ _ e4]
  simp only [andThen_ok]
  obtain ⟨g5, e5, h⟩ := andThen_eq_ok _ _ _ h
  rw [guardedCheck_mono c1 c2 hc _ _ _ _ _ e5]
  simp only [andThen_ok]
  obtain ⟨g6, e6, h⟩ := andThen_eq_ok _ _ _ h
  rw [guardedCheck_mono c1 c2 hc _ _ _ _ _ e6]
  simp only [andThen_ok]
  obtain ⟨g7, e7, h⟩ := andThen_eq_ok _ _ _ h
  rw [guardedCheck_mono c1 c2 hc _ _ _ _ _ e7]
  simp only [andThen_ok]
  exact guardedCheck_mono c1 c2 hc _ _ _ _ _ h

theorem checkFuel_succ_ok (env : RandomEnv) (fuel : Nat) :
    ∀ (g : Game) (X Y : Int) (g' : Game), checkFuel env fuel g X Y = .ok g' →
      checkFuel env (fuel + 1) g X Y = .ok g' := by
  induction fuel with
  | zero =>
    intro g X Y g' h
    rw [checkFuel] at h
    cases h
  | succ f ih =>
    intro g X Y g' h
    rw [checkFuel] at h ⊢
    split at h
    · cases h
    · rename_i hr
      rw [if_neg hr]
      obtain ⟨g1, e1, h⟩ := andThen_eq_ok _ _ _ h
      rw [e1]
      simp only [andThen_ok]
      split at h
      · rename_i hv
        rw [if_pos hv]
        dsimp only at h ⊢
        split at h
        · rename_i hm
          rw [if_pos hm]
          exact h
        · rename_i hm
          rw [if_neg hm]
          split at h
          · rename_i hz
            rw [if_pos hz]
            exact checkAround_mono _ _ ih _ _ _ _ h
          · rename_i hz
            rw [if_neg hz]
            exact h
      · rename_i hv
        rw [if_neg hv]
        exact h

theorem checkFuel_le_ok (env : RandomEnv) (g : Game) (X Y : Int) (g' : Game) (fuel : Nat)
    (h : checkFuel env fuel g X Y = .ok g') :
    ∀ fuel', fuel ≤ fuel' → checkFuel env fuel' g X Y = .ok g' := by
  intro fuel' hle
  induction fuel' with
  | zero =>
    have : fuel = 0 := by omega
    subst this
    exact h
  | succ k ih =>
    by_cases hk : fuel ≤ k
    · exact checkFuel_succ_ok env k g X Y g' (ih hk)
    · have : fuel = k + 1 := by omega
      subst this
      exact h

theorem hiddenCount_le (g : Game) (hs : g.Shaped) :
    (g.hiddenCount : Int) ≤ g.gridHeight * g.gridWidth := by
  obtain ⟨h0, w0, hsh⟩ := hs
  have hhw : ((g.gridHeight.toNat * g.gridWidth.toNat : Nat) : Int) =
      g.gridHeight * g.gridWidth := by
    rw [Nat.cast_mul, Int.toNat_of_nonneg h0, Int.toNat_of_nonneg w0]
  have hsum := countCells_add_not hsh (fun c => !c.isVisible)
  rw [← hhw]
  unfold Game.hiddenCount
  exact_mod_cast Nat.le.intro hsum

/-- C25: on a game in any state with the mines placed (any grid of the
declared size, any pattern of mines, marks and visibility), and on a fresh
validly constructed game with a random source that returns a permutation,
`checkInputCoordinates(x, y)` with `(x, y)` in range returns: the recursion
through `checkAroundCoordinate` ends within a depth of the number of hidden
cells plus one, and a larger bound gives the same result.  Visible cells stay
visible; the counter `numOfVisibleCells`, raised once with every
`makeCellVisible`, grows by exactly the number of cells that turned visible, so
no cell is made visible twice; that number is at most the number of cells
hidden before the call, which is at most `gridHeight * gridWidth`. -/
theorem cascade_terminates (env : RandomEnv) (g : Game) (x y : Int) (hxy : g.InRange x y)
    (hstate : (g.Shaped ∧ g.minesHaveBeenSet = true) ∨
      (env.Valid ∧ ∃ h w n : Int, ValidArgs h w n ∧ g = Game.new h w n)) :
    ∃ g', g.checkInputCoordinates env x y = .ok g' ∧
      (∀ fuel, g.hiddenCount < fuel → checkFuel env fuel g x y = .ok g') ∧
      (∀ a b : Int, g.InRange a b → g.isCellVisible a b = true →
        g'.isCellVisible a b = true) ∧
      g'.hiddenCount ≤ g.hiddenCount ∧
      g'.numOfVisibleCells - g.numOfVisibleCells = (g.hiddenCount : Int) - g'.hiddenCount ∧
      g'.numOfVisibleCells - g.numOfVisibleCells ≤ g.hiddenCount ∧
      (g.hiddenCount : Int) ≤ g.gridHeight * g.gridWidth := by
  have key : ∃ g', g.checkInputCoordinates env x y = .ok g' ∧ g.Shaped ∧
      (∀ a b : Int, g.InRange a b → g.isCellVisible a b = true →
        g'.isCellVisible a b = true) ∧
      g'.hiddenCount ≤ g.hiddenCount ∧
      g'.numOfVisibleCells + g'.hiddenCount = g.numOfVisibleCells + g.hiddenCount := by
    rcases hstate with ⟨hs, hset⟩ | ⟨henv, h, w, n, hargs, rfl⟩
    · obtain ⟨g', e, hR⟩ := check_total env (g.hiddenCount + 1) g x y hs hset hxy (by omega)
      exact ⟨g', e, hs, fun a b hab hv => (hR.cell a b hab).2.2.2 hv, hR.hidden, hR.counter⟩
    · obtain ⟨g1, hc, hI1, hset1, hh1, hw1, _, _, hhid, _, _⟩ :=
        createMines_new env henv h w n hargs x y hxy
      have hxy1 : g1.InRange x y := by
        unfold Game.InRange at hxy ⊢; rw [hh1, hw1]; exact hxy
      obtain ⟨g', e, hR, _⟩ :=
        inv_check env (g1.hiddenCount + 1) g1 x y hI1 hset1 hxy1 (by omega)
      have hI := inv_new h w n hargs
      have hv1 := hI1.visible
      have hv0 := hI.visible
      rw [hh1, hw1, hhid] at hv1
      have hnv : g1.numOfVisibleCells = (Game.new h w n).numOfVisibleCells := by
        have e0 : (Game.new h w n).gridHeight = h := rfl
        have e1 : (Game.new h w n).gridWidth = w := rfl
        rw [e0, e1] at hv0
        omega
      refine ⟨g', ?_, hI.shaped, ?_, ?_, ?_⟩
      · unfold Game.checkInputCoordinates
        rw [checkFuel_first env _ _ g1 x y rfl hxy hc hset1 hh1 hw1, ← hhid]
        exact e
      · intro a b _ hv
        unfold Game.isCellVisible at hv
        rw [show (Game.new h w n).cells = initCells h w from rfl, getCell_initCells] at hv
        exact absurd hv (by decide)
      · rw [← hhid]; exact hR.hidden
      · rw [← hhid, ← hnv]; exact hR.counter
  obtain ⟨g', e, hs, hvis, hhid, hcount⟩ := key
  have hle := hiddenCount_le g hs
  refine ⟨g', e, ?_, hvis, hhid, by omega, by omega, hle⟩
  intro fuel hf
  exact checkFuel_le_ok env g x y g' (g.hiddenCount + 1) e fuel (by omega)

theorem cascade_terminates_witness :
    exampleStrip.InRange 2 0 ∧ exampleStrip.Shaped ∧ exampleStrip.minesHaveBeenSet = true ∧
      exampleStrip.hiddenCount = 10 ∧
      ∃ g', exampleStrip.checkInputCoordinates reverseEnv 2 0 = .ok g' ∧
        (∀ fuel, exampleStrip.hiddenCount < fuel →
          checkFuel reverseEnv fuel exampleStrip 2 0 = .ok g') ∧
        g'.hiddenCount ≤ exampleStrip.hiddenCount ∧
        g'.numOfVisibleCells - exampleStrip.numOfVisibleCells ≤ exampleStrip.hiddenCount :=
  ⟨by decide, by decide, by decide, by decide,
    match cascade_terminates reverseEnv exampleStrip 2 0 (by decide)
      (Or.inl ⟨by decide, by decide⟩) with
    | ⟨g', h1, h2, _, h4, _, h6, _⟩ => ⟨g', h1, h2, h4, h6⟩⟩

/-! ## Cell entries outside the grid -/

/-- C26 fails on the code: `deserialise` evaluates `cells[y][x]` with the
`rowNumber` and `columnNumber` a document declares, and no comparison with
`gridHeight` and `gridWidth` comes first.  On a fresh 2 by 2 game, the document
`outsideDocument`, whose scalars pass validation and whose only cell entry
declares the row 5, reaches the access `cells[5][0]` outside the vector
(`Error.outOfBounds`); neither `std::out_of_range` nor `std::invalid_argument`
is thrown. -/
theorem deserialise_accesses_outside_grid :
    (Game.new 2 2 0).deserialise (some outsideDocument) =
        .threw .outOfBounds (Game.new 2 2 0) ∧
      outsideDocument.currentGameInt "gridHeight" = .ok 2 ∧
      outsideDocument.currentGameInt "gridWidth" = .ok 2 ∧
      ¬ inBounds (Game.new 2 2 0).cells 0 5 ∧
      (Game.new 2 2 0).loadCell 5 (cellEntry 0 (default : Cell).serialise) =
        .threw .outOfBounds (Game.new 2 2 0) :=
  ⟨by decide, rfl, rfl, by decide, by decide⟩

/-! ## The order of the entries of a document -/

theorem loadCell_cellEntry {H W : Nat} (s : Game) (hs : GridShape H W s.cells) (x y : Int)
    (cj : Json) (c : Cell) (hx0 : 0 ≤ x) (hx : x < W) (hy0 : 0 ≤ y) (hy : y < H)
    (hc : Cell.deserialise cj = .ok c) :
    s.loadCell y (cellEntry x cj) =
      .ok { s with cells := modifyCell (fun _ => c) s.cells x y } := by
  unfold Game.loadCell
  have hin : inBounds s.cells x y := by
    unfold inBounds
    have hy' : y.toNat < H := by omega
    have h1 : y.toNat < s.cells.length := by
      rw [gridShape_length hs]; exact hy'
    have h2 : (s.cells.getD y.toNat []).length = W := gridShape_getD hs hy'
    refine ⟨hy0, h1, hx0, ?_⟩
    rw [h2]
    omega
  have r1 : ((cellEntry x cj).getKey "columnNumber" >>= Json.toInt) = .ok x := rfl
  have r2 : ((cellEntry x cj).getKey "cell" >>= Cell.deserialise) = .ok c := by
    have : (cellEntry x cj).getKey "cell" = .ok cj := rfl
    rw [this]
    exact hc
  rw [r1, attempt_ok, if_pos hin, r2, attempt_ok]

theorem writeEntries_cons (e : Int × Int × Json) (E : List (Int × Int × Json))
    (cells : List (List Cell)) (c : Cell) (hc : Cell.deserialise e.2.2 = .ok c) :
    writeEntries (e :: E) cells = writeEntries E (modifyCell (fun _ => c) cells e.2.1 e.1) := by
  unfold writeEntries
  rw [List.foldl_cons, hc]

theorem writeEntries_append (E1 E2 : List (Int × Int × Json)) (cells : List (List Cell)) :
    writeEntries (E1 ++ E2) cells = writeEntries E2 (writeEntries E1 cells) := by
  unfold writeEntries
  rw [List.foldl_append]

theorem gridShape_writeEntries {H W : Nat} (E : List (Int × Int × Json)) :
    ∀ cells : List (List Cell), GridShape H W cells → GridShape H W (writeEntries E cells) := by
  induction E with
  | nil => intro cells hs; exact hs
  | cons e E ih =>
    intro cells hs
    unfold writeEntries
    rw [List.foldl_cons]
    cases hc : Cell.deserialise e.2.2 with
    | ok c => exact ih _ (gridShape_modifyCell hs _ _ _)
    | error err => exact ih _ hs

theorem loadCells_entries {H W : Nat} (s : Game) (y : Int) (cs : List (Int × Json)) :
    (∀ e ∈ cs, (0 ≤ y ∧ y < H ∧ 0 ≤ e.1 ∧ e.1 < W) ∧ ∃ c, Cell.deserialise e.2 = .ok c) →
    ∀ cells0 : List (List Cell), GridShape H W cells0 →
      cs.foldl (fun (o : Outcome) (e : Int × Json) =>
          o.andThen fun t => t.loadCell y (cellEntry e.1 e.2))
        (Outcome.ok { s with cells := cells0 }) =
      Outcome.ok { s with cells := writeEntries (cs.map fun e => (y, e.1, e.2)) cells0 } := by
  induction cs with
  | nil => intro _ cells0 _; rfl
  | cons e cs ih =>
    intro hcs cells0 hs
    obtain ⟨⟨hy0, hy, hx0, hx⟩, c, hc⟩ := hcs e (List.mem_cons_self _ _)
    rw [List.foldl_cons, andThen_ok,
      loadCell_cellEntry { s with cells := cells0 } hs e.1 y e.2 c hx0 hx hy0 hy hc,
      List.map_cons, writeEntries_cons _ _ _ c hc]
    exact ih (fun e' he' => hcs e' (List.mem_cons_of_mem _ he')) _
      (gridShape_modifyCell hs _ _ _)

theorem loadRow_rowEntry {H W : Nat} (s : Game) (hs : GridShape H W s.cells) (y : Int)
    (cs : List (Int × Json))
    (hcs : ∀ e ∈ cs, (0 ≤ y ∧ y < H ∧ 0 ≤ e.1 ∧ e.1 < W) ∧
      ∃ c, Cell.deserialise e.2 = .ok c) :
    s.loadRow (rowEntry y cs) =
      .ok { s with cells := writeEntries (cs.map fun e => (y, e.1, e.2)) s.cells } := by
  unfold Game.loadRow
  have r1 : ((rowEntry y cs).getKey "rowNumber" >>= Json.toInt) = .ok y := rfl
  have r2 : (rowEntry y cs).getKey "rowCells" =
      .ok (.arr (cs.map fun e => cellEntry e.1 e.2)) := rfl
  rw [r1, attempt_ok, r2, attempt_ok]
  simp only [Json.items]
  rw [List.foldl_map]
  exact loadCells_entries s y cs hcs s.cells hs

theorem loadRows_entries {H W : Nat} (s : Game) (rows : List (Int × List (Int × Json))) :
    (∀ e ∈ declaredEntries rows, (0 ≤ e.1 ∧ e.1 < H ∧ 0 ≤ e.2.1 ∧ e.2.1 < W) ∧
      ∃ c, Cell.deserialise e.2.2 = .ok c) →
    ∀ cells0 : List (List Cell), GridShape H W cells0 →
      (rows.map fun r => rowEntry r.1 r.2).foldl
          (fun (o : Outcome) (r : Json) => o.andThen fun t => t.loadRow r)
          (Outcome.ok { s with cells := cells0 }) =
        Outcome.ok { s with cells := writeEntries (declaredEntries rows) cells0 } := by
  induction rows with
  | nil => intro _ cells0 _; rfl
  | cons r rows ih =>
    intro hE cells0 hs
    have hsplit : declaredEntries (r :: rows) =
        (r.2.map fun e => (r.1, e.1, e.2)) ++ declaredEntries rows := by
      unfold declaredEntries
      rw [List.flatMap_cons]
    rw [hsplit] at hE
    rw [List.map_cons, List.foldl_cons, andThen_ok,
      loadRow_rowEntry { s with cells := cells0 } hs r.1 r.2
        (fun e he => hE (r.1, e.1, e.2)
          (List.mem_append_left _ (List.mem_map_of_mem _ he))),
      hsplit, writeEntries_append]
    exact ih (fun e he => hE e (List.mem_append_right _ he)) _
      (gridShape_writeEntries _ _ hs)

theorem getCell_writeEntries_other {H W : Nat} (a b : Int) (ha0 : 0 ≤ a) (ha : a < W)
    (hb0 : 0 ≤ b) (hb : b < H) (E : List (Int × Int × Json)) :
    (∀ e ∈ E, 0 ≤ e.1 ∧ 0 ≤ e.2.1) → (∀ e ∈ E, ¬ (e.1 = b ∧ e.2.1 = a)) →
    ∀ cells : List (List Cell), GridShape H W cells →
      getCell (writeEntries E cells) a b = getCell cells a b := by
  induction E with
  | nil => intro _ _ cells _; rfl
  | cons e E ih =>
    intro hpos hne cells hs
    unfold writeEntries
    rw [List.foldl_cons]
    have hpos' : ∀ e' ∈ E, 0 ≤ e'.1 ∧ 0 ≤ e'.2.1 :=
      fun e' he' => hpos e' (List.mem_cons_of_mem _ he')
    have hne' : ∀ e' ∈ E, ¬ (e'.1 = b ∧ e'.2.1 = a) :=
      fun e' he' => hne e' (List.mem_cons_of_mem _ he')
    cases hc : Cell.deserialise e.2.2 with
    | ok c =>
      have h1 := ih hpos' hne' _ (gridShape_modifyCell hs (fun _ => c) e.2.1 e.1)
      unfold writeEntries at h1
      dsimp only
      rw [h1, getCell_modifyCell_inRange hs _ (hpos e (List.mem_cons_self _ _)).2
        (hpos e (List.mem_cons_self _ _)).1 ha0 ha hb0 hb]
      have := hne e (List.mem_cons_self _ _)
      rw [if_neg (fun h => this ⟨h.2.symm, h.1.symm⟩)]
    | error err =>
      have h1 := ih hpos' hne' _ hs
      unfold writeEntries at h1
      exact h1

theorem getCell_writeEntries_mem {H W : Nat} (E : List (Int × Int × Json)) :
    (∀ e ∈ E, (0 ≤ e.1 ∧ e.1 < H ∧ 0 ≤ e.2.1 ∧ e.2.1 < W) ∧
      ∃ c, Cell.deserialise e.2.2 = .ok c) →
    (E.map fun e => (e.1, e.2.1)).Nodup →
    ∀ cells : List (List Cell), GridShape H W cells →
      ∀ e ∈ E, Cell.deserialise e.2.2 = .ok (getCell (writeEntries E cells) e.2.1 e.1) := by
  induction E with
  | nil => intro _ _ _ _ e he; cases he
  | cons e0 E ih =>
    intro hE hnd cells hs e he
    obtain ⟨⟨hy0, hy, hx0, hx⟩, c0, hc0⟩ := hE e0 (List.mem_cons_self _ _)
    have hE' : ∀ e' ∈ E, (0 ≤ e'.1 ∧ e'.1 < H ∧ 0 ≤ e'.2.1 ∧ e'.2.1 < W) ∧
        ∃ c, Cell.deserialise e'.2.2 = .ok c :=
      fun e' he' => hE e' (List.mem_cons_of_mem _ he')
    rw [List.map_cons, List.nodup_cons] at hnd
    rw [writeEntries_cons e0 E cells c0 hc0]
    have hs' := gridShape_modifyCell hs (fun _ => c0) e0.2.1 e0.1
    rcases List.mem_cons.1 he with rfl | hmem
    · rw [getCell_writeEntries_other e.2.1 e.1 hx0 hx hy0 hy E
        (fun e' he' => ⟨(hE' e' he').1.1, (hE' e' he').1.2.2.1⟩)
        (fun e' he' heq => hnd.1 (List.mem_map.2 ⟨e', he', by rw [heq.1, heq.2]⟩))
        _ hs',
        getCell_modifyCell_inRange hs _ hx0 hy0 hx0 hx hy0 hy, if_pos ⟨rfl, rfl⟩]
      exact hc0
    · exact ih hE' hnd.2 _ hs' e hmem

theorem writeEntries_perm {H W : Nat} (E1 E2 : List (Int × Int × Json)) (hp : E1.Perm E2)
    (hE : ∀ e ∈ E1, (0 ≤ e.1 ∧ e.1 < H ∧ 0 ≤ e.2.1 ∧ e.2.1 < W) ∧
      ∃ c, Cell.deserialise e.2.2 = .ok c)
    (hnd : (E1.map fun e => (e.1, e.2.1)).Nodup)
    (cells : List (List Cell)) (hs : GridShape H W cells) :
    writeEntries E1 cells = writeEntries E2 cells := by
  have hE2 : ∀ e ∈ E2, (0 ≤ e.1 ∧ e.1 < H ∧ 0 ≤ e.2.1 ∧ e.2.1 < W) ∧
      ∃ c, Cell.deserialise e.2.2 = .ok c := fun e he => hE e (hp.mem_iff.2 he)
  have hnd2 : (E2.map fun e => (e.1, e.2.1)).Nodup := (hp.map _).nodup_iff.1 hnd
  apply grid_ext (gridShape_writeEntries E1 cells hs) (gridShape_writeEntries E2 cells hs)
  intro a b ha0 ha hb0 hb
  by_cases hex : ∃ e ∈ E1, e.1 = b ∧ e.2.1 = a
  · obtain ⟨e, he, rfl, rfl⟩ := hex
    have h1 := getCell_writeEntries_mem E1 hE hnd cells hs e he
    have h2 := getCell_writeEntries_mem E2 hE2 hnd2 cells hs e (hp.mem_iff.1 he)
    rw [h1] at h2
    exact Except.ok.inj h2
  · have hne1 : ∀ e ∈ E1, ¬ (e.1 = b ∧ e.2.1 = a) := fun e he heq => hex ⟨e, he, heq⟩
    have hne2 : ∀ e ∈ E2, ¬ (e.1 = b ∧ e.2.1 = a) :=
      fun e he heq => hex ⟨e, hp.mem_iff.2 he, heq⟩
    rw [getCell_writeEntries_other a b ha0 ha hb0 hb E1
        (fun e he => ⟨(hE e he).1.1, (hE e he).1.2.2.1⟩) hne1 cells hs,
      getCell_writeEntries_other a b ha0 ha hb0 hb E2
        (fun e he => ⟨(hE2 e he).1.1, (hE2 e he).1.2.2.1⟩) hne2 cells hs]

theorem loadGrid_rows (T : Game) (j : Json) (rows : List (Int × List (Int × Json)))
    (h0 : 0 ≤ T.gridHeight) (w0 : 0 ≤ T.gridWidth)
    (hc : (j.getKey "currentGame" >>= fun cg => cg.getKey "cells") =
      .ok (.arr (rows.map fun r => rowEntry r.1 r.2)))
    (hE : ∀ e ∈ declaredEntries rows,
      (0 ≤ e.1 ∧ e.1 < T.gridHeight ∧ 0 ≤ e.2.1 ∧ e.2.1 < T.gridWidth) ∧
      ∃ c, Cell.deserialise e.2.2 = .ok c) :
    T.loadGrid j =
      .ok { T with cells := writeEntries (declaredEntries rows) T.resizeCells.cells } := by
  have hs := gridShape_resizeCells T
  unfold Game.loadGrid
  dsimp only at hs ⊢
  generalize hc1 : T.resizeCells.cells = c1 at hs
  have hres : T.resizeCells = { T with cells := c1 } := by
    rw [← hc1]; rfl
  rw [hres]
  dsimp only
  by_cases hz : T.gridHeight ≠ 0 ∧ T.gridWidth ≠ 0
  · rw [if_pos hz, hc, attempt_ok]
    simp only [Json.items]
    exact loadRows_entries T rows
      (fun e he => ⟨⟨(hE e he).1.1, by have := (hE e he).1.2.1; omega, (hE e he).1.2.2.1,
        by have := (hE e he).1.2.2.2; omega⟩, (hE e he).2⟩) c1 hs
  · rw [if_neg hz]
    have hnil : declaredEntries rows = [] :=
      List.eq_nil_iff_forall_not_mem.2 (fun e he => by
        have := (hE e he).1
        omega)
    rw [hnil]
    rfl

theorem attempt_eq_ok {α : Type} (t : Game) (r : Except Error α) (k : α → Outcome)
    (t' : Game) (h : attempt t r k = .ok t') : ∃ a, r = .ok a ∧ k a = .ok t' := by
  cases r with
  | error e => cases h
  | ok a => exact ⟨a, rfl, h⟩

theorem attempt_congr {α : Type} (t : Game) (r : Except Error α) (k1 k2 : α → Outcome)
    (h : ∀ a, r = .ok a → k1 a = k2 a) : attempt t r k1 = attempt t r k2 := by
  cases r with
  | error e => rfl
  | ok a => exact h a rfl

theorem deserialiseCurrentGame_ok (t : Game) (j : Json) (t' : Game)
    (h : t.deserialiseCurrentGame j = .ok t') :
    ∃ T : Game, j.currentGameInt "gridHeight" = .ok T.gridHeight ∧
      j.currentGameInt "gridWidth" = .ok T.gridWidth ∧
      0 ≤ T.gridHeight ∧ 0 ≤ T.gridWidth ∧ T.loadGrid j = .ok t' := by
  unfold Game.deserialiseCurrentGame at h
  obtain ⟨a1, r1, h⟩ := attempt_eq_ok _ _ _ _ h
  obtain ⟨a2, r2, h⟩ := attempt_eq_ok _ _ _ _ h
  obtain ⟨a3, r3, h⟩ := attempt_eq_ok _ _ _ _ h
  obtain ⟨a4, r4, h⟩ := attempt_eq_ok _ _ _ _ h
  obtain ⟨a5, r5, h⟩ := attempt_eq_ok _ _ _ _ h
  obtain ⟨a6, r6, h⟩ := attempt_eq_ok _ _ _ _ h
  obtain ⟨a7, r7, h⟩ := attempt_eq_ok _ _ _ _ h
  obtain ⟨a8, r8, h⟩ := attempt_eq_ok _ _ _ _ h
  have r1' := bind_verify_ok _ _ (fun x a hx => (verifyGridDimension_ok x a hx).1) a1 r1
  have r2' := bind_verify_ok _ _ (fun x a hx => (verifyGridDimension_ok x a hx).1) a2 r2
  rw [r1'] at r1
  rw [r2'] at r2
  exact ⟨_, r1', r2', (verifyGridDimension_ok a1 a1 r1).2, (verifyGridDimension_ok a2 a2 r2).2, h⟩

theorem deserialiseCurrentGame_congr (t : Game) (j1 j2 : Json)
    (hint : ∀ key, j1.currentGameInt key = j2.currentGameInt key)
    (hbool : ∀ key, j1.currentGameBool key = j2.currentGameBool key)
    (hload : ∀ T : Game, j1.currentGameInt "gridHeight" = .ok T.gridHeight →
      j1.currentGameInt "gridWidth" = .ok T.gridWidth → 0 ≤ T.gridHeight → 0 ≤ T.gridWidth →
      T.loadGrid j1 = T.loadGrid j2) :
    t.deserialiseCurrentGame j1 = t.deserialiseCurrentGame j2 := by
  unfold Game.deserialiseCurrentGame
  simp only [← hint, ← hbool]
  refine attempt_congr _ _ _ _ (fun a1 r1 => ?_)
  refine attempt_congr _ _ _ _ (fun a2 r2 => ?_)
  refine attempt_congr _ _ _ _ (fun a3 _ => ?_)
  refine attempt_congr _ _ _ _ (fun a4 _ => ?_)
  refine attempt_congr _ _ _ _ (fun a5 _ => ?_)
  refine attempt_congr _ _ _ _ (fun a6 _ => ?_)
  refine attempt_congr _ _ _ _ (fun a7 _ => ?_)
  refine attempt_congr _ _ _ _ (fun a8 _ => ?_)
  have r1' := bind_verify_ok _ _ (fun x a hx => (verifyGridDimension_ok x a hx).1) a1 r1
  have r2' := bind_verify_ok _ _ (fun x a hx => (verifyGridDimension_ok x a hx).1) a2 r2
  rw [r1'] at r1
  rw [r2'] at r2
  exact hload _ r1' r2' (verifyGridDimension_ok a1 a1 r1).2 (verifyGridDimension_ok a2 a2 r2).2

theorem lookup_cells_toInt (key : String) (members : List (String × Json))
    (rows1 rows2 : List Json) :
    ((Json.obj (members ++ [("cells", .arr rows1)])).getKey key >>= Json.toInt) =
      ((Json.obj (members ++ [("cells", .arr rows2)])).getKey key >>= Json.toInt) := by
  unfold Json.getKey
  dsimp only
  induction members with
  | nil =>
    simp only [List.nil_append, List.lookup]
    cases key == "cells" <;> rfl
  | cons m members ih =>
    simp only [List.cons_append, List.lookup]
    cases key == m.1
    · exact ih
    · rfl

theorem lookup_cells_toBool (key : String) (members : List (String × Json))
    (rows1 rows2 : List Json) :
    ((Json.obj (members ++ [("cells", .arr rows1)])).getKey key >>= Json.toBool) =
      ((Json.obj (members ++ [("cells", .arr rows2)])).getKey key >>= Json.toBool) := by
  unfold Json.getKey
  dsimp only
  induction members with
  | nil =>
    simp only [List.nil_append, List.lookup]
    cases key == "cells" <;> rfl
  | cons m members ih =>
    simp only [List.cons_append, List.lookup]
    cases key == m.1
    · exact ih
    · rfl

theorem smallDocument_int (rows1 rows2 : List Json) (key : String) :
    (smallDocument rows1).currentGameInt key = (smallDocument rows2).currentGameInt key :=
  lookup_cells_toInt key _ rows1 rows2

theorem smallDocument_bool (rows1 rows2 : List Json) (key : String) :
    (smallDocument rows1).currentGameBool key = (smallDocument rows2).currentGameBool key :=
  lookup_cells_toBool key _ rows1 rows2

theorem reorderedRows_readable :
    ∀ e ∈ declaredEntries reorderedRows, ∃ c, Cell.deserialise e.2.2 = .ok c := by
  intro e he
  simp only [declaredEntries, reorderedRows, List.flatMap_cons, List.flatMap_nil, List.map_cons,
    List.map_nil, List.cons_append, List.nil_append, List.append_nil, List.mem_cons,
    List.mem_nil_iff, or_false] at he
  rcases he with rfl | rfl | rfl | rfl <;> exact ⟨_, cell_roundtrip _⟩

theorem deserialise_rows (t : Game) (j magic version : Json) (h w n mm wm v : Int)
    (checked minesSet : Bool) (rows : List (Int × List (Int × Json)))
    (hm : j.getKey "magic" = .ok magic) (hmag : magic.isString "Timi's Minesweeper" = true)
    (hv : j.getKey "version" = .ok version) (hver : version.isString "1.0" = true)
    (r1 : j.currentGameInt "gridHeight" = .ok h) (r2 : j.currentGameInt "gridWidth" = .ok w)
    (r3 : j.currentGameInt "numOfMines" = .ok n)
    (r4 : j.currentGameInt "numOfMarkedMines" = .ok mm)
    (r5 : j.currentGameInt "numOfWronglyMarkedCells" = .ok wm)
    (r6 : j.currentGameInt "numOfVisibleCells" = .ok v)
    (rb1 : j.currentGameBool "_checkedMine" = .ok checked)
    (rb2 : j.currentGameBool "minesHaveBeenSet" = .ok minesSet)
    (hvalid : 0 ≤ h ∧ 0 ≤ w ∧ h * w ≤ 2147483647 ∧ 0 ≤ n ∧ n ≤ max (h * w - 9) 0 ∧
      0 ≤ mm ∧ mm ≤ n ∧ 0 ≤ wm ∧ wm ≤ h * w - n ∧ 0 ≤ v ∧ v ≤ h * w)
    (hc : (j.getKey "currentGame" >>= fun cg => cg.getKey "cells") =
      .ok (.arr (rows.map fun r => rowEntry r.1 r.2)))
    (hE : ∀ e ∈ declaredEntries rows, (0 ≤ e.1 ∧ e.1 < h ∧ 0 ≤ e.2.1 ∧ e.2.1 < w) ∧
      ∃ c, Cell.deserialise e.2.2 = .ok c) :
    t.deserialise (some j) =
      .ok { gridHeight := h, gridWidth := w, numOfMines := n, numOfMarkedMines := mm,
            numOfWronglyMarkedCells := wm, numOfVisibleCells := v, _checkedMine := checked,
            minesHaveBeenSet := minesSet,
            cells := writeEntries (declaredEntries rows)
              (Game.resizeCells { t with gridHeight := h, gridWidth := w }).cells } := by
  obtain ⟨b1, b2, b3, b4, b5, b6, b7, b8, b9, b10, b11⟩ := hvalid
  rw [deserialise_matching t j magic version hm hmag hv hver,
    deserialiseCurrentGame_scalars_fits t j h w n mm wm v r1 r2 r3 r4 r5 r6 (fun _ _ => b3),
    if_neg (by omega), if_neg (by omega), if_neg (by omega), if_neg (by omega),
    if_neg (by omega), if_neg (by omega), rb1, attempt_ok, rb2, attempt_ok,
    loadGrid_rows _ j rows b1 b2 hc hE]
  rfl

/-- C22: take two documents with the same magic, version and scalars whose
rows declare the same `(rowNumber, columnNumber, cell)` entries, every entry
in range and readable and no coordinate declared twice, in whatever order the
row entries and the cell entries are listed.  On every game `deserialise`
gives the same result for both; and when the magic and the version match and
the scalars are valid, `deserialise` succeeds on both and leaves the same
state, whose scalars are the document's, whose grid has the document's size,
and in which the cell at the place an entry declares is the cell of that
entry. -/
theorem deserialise_order_irrelevant (t : Game) (j1 j2 : Json) (h w : Int)
    (rows1 rows2 : List (Int × List (Int × Json)))
    (hmagic : j1.getKey "magic" = j2.getKey "magic")
    (hversion : j1.getKey "version" = j2.getKey "version")
    (hint : ∀ key, j1.currentGameInt key = j2.currentGameInt key)
    (hbool : ∀ key, j1.currentGameBool key = j2.currentGameBool key)
    (hh : j1.currentGameInt "gridHeight" = .ok h) (hw : j1.currentGameInt "gridWidth" = .ok w)
    (hc1 : (j1.getKey "currentGame" >>= fun cg => cg.getKey "cells") =
      .ok (.arr (rows1.map fun r => rowEntry r.1 r.2)))
    (hc2 : (j2.getKey "currentGame" >>= fun cg => cg.getKey "cells") =
      .ok (.arr (rows2.map fun r => rowEntry r.1 r.2)))
    (hperm : (declaredEntries rows1).Perm (declaredEntries rows2))
    (hrange : ∀ e ∈ declaredEntries rows1, 0 ≤ e.1 ∧ e.1 < h ∧ 0 ≤ e.2.1 ∧ e.2.1 < w)
    (hcell : ∀ e ∈ declaredEntries rows1, ∃ c, Cell.deserialise e.2.2 = .ok c)
    (honce : ((declaredEntries rows1).map fun e => (e.1, e.2.1)).Nodup) :
    t.deserialise (some j1) = t.deserialise (some j2) ∧
      ∀ magic version n mm wm v checked minesSet,
        j1.getKey "magic" = .ok magic → magic.isString "Timi's Minesweeper" = true →
        j1.getKey "version" = .ok version → version.isString "1.0" = true →
        j1.currentGameInt "numOfMines" = .ok n →
        j1.currentGameInt "numOfMarkedMines" = .ok mm →
        j1.currentGameInt "numOfWronglyMarkedCells" = .ok wm →
        j1.currentGameInt "numOfVisibleCells" = .ok v →
        j1.currentGameBool "_checkedMine" = .ok checked →
        j1.currentGameBool "minesHaveBeenSet" = .ok minesSet →
        (0 ≤ h ∧ 0 ≤ w ∧ h * w ≤ 2147483647 ∧ 0 ≤ n ∧ n ≤ max (h * w - 9) 0 ∧
          0 ≤ mm ∧ mm ≤ n ∧ 0 ≤ wm ∧ wm ≤ h * w - n ∧ 0 ≤ v ∧ v ≤ h * w) →
        ∃ t', t.deserialise (some j1) = .ok t' ∧ t.deserialise (some j2) = .ok t' ∧
          t'.gridHeight = h ∧ t'.gridWidth = w ∧ t'.numOfMines = n ∧
          t'.numOfMarkedMines = mm ∧ t'.numOfWronglyMarkedCells = wm ∧
          t'.numOfVisibleCells = v ∧ t'.checkedMine = checked ∧
          t'.minesHaveBeenSet = minesSet ∧ t'.Shaped ∧
          (∀ e ∈ declaredEntries rows1,
            Cell.deserialise e.2.2 = .ok (getCell t'.cells e.2.1 e.1)) ∧
          (∀ e ∈ declaredEntries rows2,
            Cell.deserialise e.2.2 = .ok (getCell t'.cells e.2.1 e.1)) := by
  have hdims : ∀ T : Game, j1.currentGameInt "gridHeight" = .ok T.gridHeight →
      j1.currentGameInt "gridWidth" = .ok T.gridWidth → T.gridHeight = h ∧ T.gridWidth = w := by
    intro T e1 e2
    rw [hh] at e1
    rw [hw] at e2
    exact ⟨(Except.ok.inj e1).symm, (Except.ok.inj e2).symm⟩
  have hE1 : ∀ T : Game, T.gridHeight = h → T.gridWidth = w →
      ∀ e ∈ declaredEntries rows1,
        (0 ≤ e.1 ∧ e.1 < T.gridHeight ∧ 0 ≤ e.2.1 ∧ e.2.1 < T.gridWidth) ∧
        ∃ c, Cell.deserialise e.2.2 = .ok c := by
    intro T eh ew e he
    rw [eh, ew]
    exact ⟨hrange e he, hcell e he⟩
  have heq : t.deserialise (some j1) = t.deserialise (some j2) := by
    unfold Game.deserialise
    dsimp only
    rw [← hmagic, ← hversion]
    refine attempt_congr _ _ _ _ (fun magic _ => ?_)
    by_cases hmag : magic.isString "Timi's Minesweeper" = true
    · rw [if_pos hmag, if_pos hmag]
      refine attempt_congr _ _ _ _ (fun version _ => ?_)
      by_cases hver : version.isString "1.0" = true
      · rw [if_pos hver, if_pos hver]
        apply deserialiseCurrentGame_congr t j1 j2 hint hbool
        intro T e1 e2 p1 p2
        obtain ⟨eh, ew⟩ := hdims T e1 e2
        have hT1 := hE1 T eh ew
        have hT2 : ∀ e ∈ declaredEntries rows2,
            (0 ≤ e.1 ∧ e.1 < T.gridHeight ∧ 0 ≤ e.2.1 ∧ e.2.1 < T.gridWidth) ∧
            ∃ c, Cell.deserialise e.2.2 = .ok c :=
          fun e he => hT1 e (hperm.mem_iff.2 he)
        rw [loadGrid_rows T j1 rows1 p1 p2 hc1 hT1, loadGrid_rows T j2 rows2 p1 p2 hc2 hT2,
          writeEntries_perm (declaredEntries rows1) (declaredEntries rows2) hperm
            (fun e he => ⟨⟨(hT1 e he).1.1, by have := (hT1 e he).1.2.1; omega,
              (hT1 e he).1.2.2.1, by have := (hT1 e he).1.2.2.2; omega⟩, (hT1 e he).2⟩)
            honce _ (gridShape_resizeCells T)]
      · rw [if_neg hver, if_neg hver]
    · rw [if_neg hmag, if_neg hmag]
  refine ⟨heq, ?_⟩
  intro magic version n mm wm v checked minesSet hm hmag hv hver r3 r4 r5 r6 rb1 rb2 hvalid
  have hs := gridShape_resizeCells { t with gridHeight := h, gridWidth := w }
  have hE : ∀ e ∈ declaredEntries rows1, (0 ≤ e.1 ∧ e.1 < h ∧ 0 ≤ e.2.1 ∧ e.2.1 < w) ∧
      ∃ c, Cell.deserialise e.2.2 = .ok c := fun e he => ⟨hrange e he, hcell e he⟩
  have hE' : ∀ e ∈ declaredEntries rows1,
      (0 ≤ e.1 ∧ e.1 < (h.toNat : Int) ∧ 0 ≤ e.2.1 ∧ e.2.1 < (w.toNat : Int)) ∧
      ∃ c, Cell.deserialise e.2.2 = .ok c :=
    fun e he => ⟨⟨(hE e he).1.1, by have := (hE e he).1.2.1; omega, (hE e he).1.2.2.1,
      by have := (hE e he).1.2.2.2; omega⟩, (hE e he).2⟩
  have e1 := deserialise_rows t j1 magic version h w n mm wm v checked minesSet rows1
    hm hmag hv hver hh hw r3 r4 r5 r6 rb1 rb2 hvalid hc1 hE
  have hmem := getCell_writeEntries_mem (declaredEntries rows1) hE' honce _ hs
  refine ⟨_, e1, heq ▸ e1, rfl, rfl, rfl, rfl, rfl, rfl, rfl, rfl,
    ⟨hvalid.1, hvalid.2.1, gridShape_writeEntries _ _ hs⟩, hmem, ?_⟩
  intro e he
  exact hmem e (hperm.mem_iff.2 he)

theorem deserialise_order_irrelevant_witness :
    (∀ e ∈ declaredEntries reorderedRows, 0 ≤ e.1 ∧ e.1 < 2 ∧ 0 ≤ e.2.1 ∧ e.2.1 < 2) ∧
      ((declaredEntries reorderedRows).map fun e => (e.1, e.2.1)).Nodup ∧
      declaredEntries orderedRows = (declaredEntries reorderedRows).reverse ∧
      (Game.new 3 3 0).isCellVisible 1 0 = false ∧
      ∃ t', (Game.new 3 3 0).deserialise (some reorderedDocument) = .ok t' ∧
        (Game.new 3 3 0).deserialise (some orderedDocument) = .ok t' ∧
        t'.gridHeight = 2 ∧ t'.gridWidth = 2 ∧ t'.numOfVisibleCells = 1 ∧
        t'.minesHaveBeenSet = true ∧ t'.isCellVisible 1 0 = true ∧
        t'.isCellVisible 0 0 = false ∧ t'.isCellVisible 1 1 = false :=
  ⟨by decide, by decide, rfl, by decide,
    match (deserialise_order_irrelevant (Game.new 3 3 0) reorderedDocument orderedDocument 2 2
      reorderedRows orderedRows rfl rfl (fun key => (smallDocument_int _ _ key).symm)
      (fun key => (smallDocument_bool _ _ key).symm) rfl rfl rfl rfl
      (List.reverse_perm _).symm (by decide) reorderedRows_readable (by decide)).2
      (.str "Timi's Minesweeper") (.str "1.0") 0 0 0 1 false true
      rfl (by decide) rfl (by decide) rfl rfl rfl rfl rfl rfl (by decide) with
    | ⟨t', h1, h2, h3, h4, _, _, _, h8, _, h10, _, h12, _⟩ =>
      ⟨t', h1, h2, h3, h4, h8, h10,
        by
          have e := h12 (0, 1, ({ isVisible := true } : Cell).serialise)
            (.tail _ (.tail _ (.head _)))
          have e' := Except.ok.inj ((cell_roundtrip _).symm.trans e)
          unfold Game.isCellVisible
          rw [← e'],
        by
          have e := h12 (0, 0, (default : Cell).serialise)
            (.tail _ (.tail _ (.tail _ (.head _))))
          have e' := Except.ok.inj ((cell_roundtrip _).symm.trans e)
          unfold Game.isCellVisible
          rw [← e']
          rfl,
        by
          have e := h12 (1, 1, (default : Cell).serialise) (.head _)
          have e' := Except.ok.inj ((cell_roundtrip _).symm.trans e)
          unfold Game.isCellVisible
          rw [← e']
          rfl⟩⟩

end Minesweeper
